import Mathlib

/-!
# PIC32 peripheral simulator (`microcontrollers/pic32sim/mz.c`)

A shallow embedding of the register decoder, the alias-write protocol, the
interrupt arbitration and the system-key sequencer of `mz.c`.

* 32-bit machine words are natural numbers below `2 ^ 32`; the bitwise
  operators of C are the bitwise operators of `Nat`, and `~x` on a word is
  `0xFFFFFFFF ^^^ x`.
* The headers `pic32mz.h` and `globals.h` are not part of the sources at hand.
  Everything `mz.c` takes from them (register addresses, bit masks,
  `PIC32_IRQ_LAST`, the SD-card wiring) is a field of `Header`; the
  definitions are parametric in it.
* Functions of other translation units (`eic_level_vector`, `uart_*`, `spi_*`,
  `sdcard_*`, `soft_reset`) are fields of `Backend`; every call `mz.c` makes
  is also appended to a trace.
-/

namespace Pic32

/-! ## Register names -/

/-- Suffix of the alias names `..CLR`, `..SET`, `..INV`. -/
inductive Alias
  | CLR | SET | INV
  deriving DecidableEq, Repr

/-- The register names used by `mz.c`.  Numbered families carry their number:
`IFS n` is `IFS(n)` (`IFS0` is `IFS 0`), the GPIO banks A..G are `0..6`
(`TRISA` is `TRIS 0`), the UARTs `U1..U6` are `0..5` (`U1MODE` is `UxMODE 0`),
the SPI controllers `SPI1..SPI4` are `0..3` (`SPI1CON` is `SPIxCON 0`);
`UxMODEa 0 .CLR` is `U1MODECLR`. -/
inductive Reg
  | INTCON | INTSTAT | IPTMR
  | IFS (n : Nat) | IEC (n : Nat) | IPC (n : Nat)
  | PRECON | PRESTAT | CHECON
  | OSCCON | OSCTUN | DEVID | SYSKEY | RCON | RSWRST
  | TRIS (p : Nat) | PORT (p : Nat) | LAT (p : Nat) | ODC (p : Nat)
  | CNPU (p : Nat) | CNPD (p : Nat) | CNCON (p : Nat) | CNEN (p : Nat) | CNSTAT (p : Nat)
  | UxRXREG (u : Nat) | UxBRG (u : Nat) | UxMODE (u : Nat) | UxSTA (u : Nat) | UxTXREG (u : Nat)
  | UxMODEa (u : Nat) (k : Alias) | UxSTAa (u : Nat) (k : Alias) | UxBRGa (u : Nat) (k : Alias)
  | SPIxCON (c : Nat) | SPIxSTAT (c : Nat) | SPIxBUF (c : Nat) | SPIxBRG (c : Nat)
  | SPIxCONa (c : Nat) (k : Alias) | SPIxSTATa (c : Nat) (k : Alias) | SPIxBRGa (c : Nat) (k : Alias)
  deriving DecidableEq, Repr

/-- The text of an alias suffix. -/
def Alias.suffix : Alias → String
  | .CLR => "CLR"
  | .SET => "SET"
  | .INV => "INV"

/-- Letter of a GPIO bank, `0..6` being `A..G`. -/
def bankLetter (p : Nat) : String :=
  String.singleton (Char.ofNat (65 + p))

/-- The C identifier of a register, the string `#name` that the macros of
`mz.c` store through `namep`. -/
def Reg.name : Reg → String
  | .INTCON => "INTCON" | .INTSTAT => "INTSTAT" | .IPTMR => "IPTMR"
  | .IFS n => "IFS" ++ toString n | .IEC n => "IEC" ++ toString n | .IPC n => "IPC" ++ toString n
  | .PRECON => "PRECON" | .PRESTAT => "PRESTAT" | .CHECON => "CHECON"
  | .OSCCON => "OSCCON" | .OSCTUN => "OSCTUN" | .DEVID => "DEVID" | .SYSKEY => "SYSKEY"
  | .RCON => "RCON" | .RSWRST => "RSWRST"
  | .TRIS p => "TRIS" ++ bankLetter p | .PORT p => "PORT" ++ bankLetter p
  | .LAT p => "LAT" ++ bankLetter p | .ODC p => "ODC" ++ bankLetter p
  | .CNPU p => "CNPU" ++ bankLetter p | .CNPD p => "CNPD" ++ bankLetter p
  | .CNCON p => "CNCON" ++ bankLetter p | .CNEN p => "CNEN" ++ bankLetter p
  | .CNSTAT p => "CNSTAT" ++ bankLetter p
  | .UxRXREG u => "U" ++ toString (u + 1) ++ "RXREG"
  | .UxBRG u => "U" ++ toString (u + 1) ++ "BRG"
  | .UxMODE u => "U" ++ toString (u + 1) ++ "MODE"
  | .UxSTA u => "U" ++ toString (u + 1) ++ "STA"
  | .UxTXREG u => "U" ++ toString (u + 1) ++ "TXREG"
  | .UxMODEa u k => "U" ++ toString (u + 1) ++ "MODE" ++ k.suffix
  | .UxSTAa u k => "U" ++ toString (u + 1) ++ "STA" ++ k.suffix
  | .UxBRGa u k => "U" ++ toString (u + 1) ++ "BRG" ++ k.suffix
  | .SPIxCON c => "SPI" ++ toString (c + 1) ++ "CON"
  | .SPIxSTAT c => "SPI" ++ toString (c + 1) ++ "STAT"
  | .SPIxBUF c => "SPI" ++ toString (c + 1) ++ "BUF"
  | .SPIxBRG c => "SPI" ++ toString (c + 1) ++ "BRG"
  | .SPIxCONa c k => "SPI" ++ toString (c + 1) ++ "CON" ++ k.suffix
  | .SPIxSTATa c k => "SPI" ++ toString (c + 1) ++ "STAT" ++ k.suffix
  | .SPIxBRGa c k => "SPI" ++ toString (c + 1) ++ "BRG" ++ k.suffix

/-! ## What the missing headers provide -/

/-- Declarations that `mz.c` takes from `pic32mz.h` and `globals.h`: the bus
address of every register name, the last interrupt number, the status bits
named in the read-only masks, and the SD-card chip-select wiring read by
`gpio_write`. -/
structure Header where
  addr : Reg → Nat
  PIC32_IRQ_LAST : Nat
  PIC32_USTA_URXDA : Nat
  PIC32_USTA_FERR : Nat
  PIC32_USTA_PERR : Nat
  PIC32_USTA_RIDLE : Nat
  PIC32_USTA_TRMT : Nat
  PIC32_USTA_UTXBF : Nat
  PIC32_SPISTAT_SPIROV : Nat
  sdcard_gpio_port0 : Nat
  sdcard_gpio_cs0 : Nat
  sdcard_gpio_port1 : Nat
  sdcard_gpio_cs1 : Nat

/-! ## Machine state -/

/-- Modelled from the spec: the macro `VALUE` of `globals.h` is missing; by
section 4.1 the register file is a store `get(addr)`, `set(addr, value)` of
32-bit values keyed by bus address, so `VALUE(name)` is the slot `mem name`.
`ext` is the state owned by the collaborators (CPU core, UART, SPI, SD card). -/
structure Machine (β : Type) where
  mem : Nat → Nat
  ext : β

/-- A call that `mz.c` makes into another translation unit, or a diagnostic it
prints, in the order of execution. -/
inductive Call
  | eic_level_vector (level vector : Nat)
  | soft_reset
  | sdcard_reset
  | sdcard_select (card sel : Nat)
  | uart_reset
  | spi_reset
  | uart_put_char (port data : Nat)
  | uart_get_char (port : Nat)
  | uart_poll_status (port : Nat)
  | uart_update_mode (port : Nat)
  | uart_update_status (port : Nat)
  | spi_control (port : Nat)
  | spi_readbuf (port : Nat)
  | spi_writebuf (port data : Nat)
  | readonly_report (data : Nat) (name : Option String)
  deriving DecidableEq, Repr

/-- The state `mz.c` works on: the register file and the collaborators, the
file-local `syskey_unlock`, and the trace of outbound calls. -/
structure State (β : Type) where
  io : Machine β
  syskey_unlock : Nat
  trace : List Call

/-- Functions defined outside `mz.c`.  The CPU-side and SD-card functions act
on collaborator state only; the UART and SPI functions may also update the
register file. -/
structure Backend (β : Type) where
  eic_level_vector : Nat → Nat → β → β
  soft_reset : β → β
  sdcard_reset : β → β
  sdcard_select : Nat → Nat → β → β
  uart_reset : Machine β → Machine β
  spi_reset : Machine β → Machine β
  uart_put_char : Nat → Nat → Machine β → Machine β
  uart_get_char : Nat → Machine β → Nat × Machine β
  uart_poll_status : Nat → Machine β → Machine β
  uart_update_mode : Nat → Machine β → Machine β
  uart_update_status : Nat → Machine β → Machine β
  spi_control : Nat → Machine β → Machine β
  spi_readbuf : Nat → Machine β → Nat × Machine β
  spi_writebuf : Nat → Nat → Machine β → Machine β

/-- Assignment `VALUE(a) = v`. -/
def store (m : Nat → Nat) (a v : Nat) : Nat → Nat :=
  fun x => if x = a then v else m x

/-- Assignment to a register slot inside a state. -/
def State.set {β : Type} (s : State β) (a v : Nat) : State β :=
  { s with io := { s.io with mem := store s.io.mem a v } }

/-- Record an outbound call. -/
def State.log {β : Type} (s : State β) (c : Call) : State β :=
  { s with trace := s.trace ++ [c] }

/-- Run a UART or SPI function and record the call. -/
def State.hook {β : Type} (s : State β) (c : Call) (f : Machine β → Machine β) : State β :=
  { s with io := f s.io, trace := s.trace ++ [c] }

/-- Run a CPU-side or SD-card function and record the call. -/
def State.hookExt {β : Type} (s : State β) (c : Call) (f : β → β) : State β :=
  { s with io := { s.io with ext := f s.io.ext }, trace := s.trace ++ [c] }

/-! ## Interrupt arbitration -/

/-- Body of the `for` loop of `update_irq_status` for one `irq`; `acc` is
`(cause_ripl, vector)`.  `level` is an `int` taken from a 32-bit word, shifted
right by at most 26 and masked with 7, which selects the same three bits as
the unsigned shift. -/
def irq_scan_step (H : Header) (mem : Nat → Nat) (acc : Nat × Nat) (irq : Nat) : Nat × Nat :=
  let n := irq >>> 5
  if ((mem (H.addr (.IFS n)) &&& mem (H.addr (.IEC n))) >>> (irq &&& 31)) &&& 1 ≠ 0 then
    let level := (mem (H.addr (.IPC (n >>> 2))) >>> (2 + (n &&& 3) * 8)) &&& 7
    if level > acc.1 then (level, n) else acc
  else acc

/-- The loop `for (irq=0; irq<=PIC32_IRQ_LAST; irq++)`, from
`cause_ripl = 0`, `vector = 0`. -/
def irq_scan (H : Header) (mem : Nat → Nat) : Nat × Nat :=
  (List.range (H.PIC32_IRQ_LAST + 1)).foldl (irq_scan_step H mem) (0, 0)

/-- The guard of `update_irq_status`: some `IFSn & IECn`, `n = 0..5`, is nonzero. -/
def irq_any (H : Header) (mem : Nat → Nat) : Bool :=
  (mem (H.addr (.IFS 0)) &&& mem (H.addr (.IEC 0)) != 0) ||
  (mem (H.addr (.IFS 1)) &&& mem (H.addr (.IEC 1)) != 0) ||
  (mem (H.addr (.IFS 2)) &&& mem (H.addr (.IEC 2)) != 0) ||
  (mem (H.addr (.IFS 3)) &&& mem (H.addr (.IEC 3)) != 0) ||
  (mem (H.addr (.IFS 4)) &&& mem (H.addr (.IEC 4)) != 0) ||
  (mem (H.addr (.IFS 5)) &&& mem (H.addr (.IEC 5)) != 0)

/-- `update_irq_status`: clear `INTSTAT`, scan when something is pending and
enabled, publish `vector | (cause_ripl << 8)`, notify the CPU. -/
def update_irq_status {β : Type} (H : Header) (B : Backend β) (s : State β) : State β :=
  let s0 := s.set (H.addr .INTSTAT) 0
  if irq_any H s0.io.mem then
    let r := irq_scan H s0.io.mem
    let s1 := s0.set (H.addr .INTSTAT) (r.2 ||| (r.1 <<< 8))
    s1.hookExt (.eic_level_vector r.1 r.2) (B.eic_level_vector r.1 r.2)
  else
    s0.hookExt (.eic_level_vector 0 0) (B.eic_level_vector 0 0)

/-- `irq_raise`: set the flag bit of `irq` unless it is set already. -/
def irq_raise {β : Type} (H : Header) (B : Backend β) (s : State β) (irq : Nat) : State β :=
  let a := H.addr (.IFS (irq >>> 5))
  if s.io.mem a &&& (1 <<< (irq &&& 31)) ≠ 0 then s
  else update_irq_status H B (s.set a (s.io.mem a ||| (1 <<< (irq &&& 31))))

/-- `irq_clear`: clear the flag bit of `irq` unless it is clear already. -/
def irq_clear {β : Type} (H : Header) (B : Backend β) (s : State β) (irq : Nat) : State β :=
  let a := H.addr (.IFS (irq >>> 5))
  if s.io.mem a &&& (1 <<< (irq &&& 31)) = 0 then s
  else update_irq_status H B (s.set a (s.io.mem a &&& (0xFFFFFFFF ^^^ (1 <<< (irq &&& 31)))))

/-- `gpio_write`: drive the chip-select of the SD cards wired to this port. -/
def gpio_write {β : Type} (H : Header) (B : Backend β) (s : State β)
    (gpio_port lat_value : Nat) : State β :=
  let on0 := if lat_value &&& H.sdcard_gpio_cs0 = 0 then 1 else 0
  let s1 := if gpio_port = H.sdcard_gpio_port0 ∧ H.sdcard_gpio_cs0 ≠ 0
    then s.hookExt (.sdcard_select 0 on0) (B.sdcard_select 0 on0) else s
  let on1 := if lat_value &&& H.sdcard_gpio_cs1 = 0 then 1 else 0
  if gpio_port = H.sdcard_gpio_port1 ∧ H.sdcard_gpio_cs1 ≠ 0
    then s1.hookExt (.sdcard_select 1 on1) (B.sdcard_select 1 on1) else s1

/-- `write_op`: the assign / clear / set / invert operation selected by bits
2..3 of `op`.  The parameters are `int` in the source and the result is
`unsigned`; on 32-bit two's complement words the bitwise operators agree with
the unsigned ones. -/
def write_op (a b op : Nat) : Nat :=
  if op &&& 0xc = 0x0 then b
  else if op &&& 0xc = 0x4 then a &&& (0xFFFFFFFF ^^^ b)
  else if op &&& 0xc = 0x8 then a ||| b
  else a ^^^ b

/-! ## Reset -/

/-- The assignments `VALUE(r) = v` of `io_reset`, in source order. -/
def io_reset_values : List (Reg × Nat) :=
  [(.CHECON, 0x00000007), (.OSCCON, 0x01453320), (.OSCTUN, 0), (.DEVID, 0x04307053),
   (.SYSKEY, 0), (.RCON, 0), (.RSWRST, 0)] ++
  (List.range 7).flatMap (fun p =>
    [(.TRIS p, 0xFFFF), (.PORT p, 0xFFFF), (.LAT p, 0xFFFF), (.ODC p, 0), (.CNPU p, 0),
     (.CNPD p, 0), (.CNCON p, 0), (.CNEN p, 0), (.CNSTAT p, 0)])

/-- `io_reset`: store the power-up values, lock the system key, reset the
UART and SPI collaborators. -/
def io_reset {β : Type} (H : Header) (B : Backend β) (s : State β) : State β :=
  let s1 := io_reset_values.foldl (fun t rv => t.set (H.addr rv.1) rv.2) s
  let s2 : State β := { s1 with syskey_unlock := 0 }
  (s2.hook .uart_reset B.uart_reset).hook .spi_reset B.spi_reset

/-! ## The write decoder -/

/-- The statements that follow the storage update of an alias group. -/
inductive WTail
  | ret
  | irq
  | gpio (p : Nat)
  | uart_update_mode (u : Nat)
  | uart_update_status (u : Nat)
  | spi_control (c : Nat)
  deriving DecidableEq, Repr

/-- The code reached from a case label of `io_write32`. -/
inductive WBody
  | op (r : Reg) (t : WTail)
  | opr (r : Reg) (romask : Nat) (t : WTail)
  | readonly
  | plain
  | syskey
  | rswrst
  | uart_tx (u : Nat)
  | spi_buf (c : Nat)
  deriving DecidableEq, Repr

/-- One case label of `io_write32`: its value, the name stored through
`namep`, and the code it leads to. -/
structure WCase where
  label : Nat
  name : String
  body : WBody
  deriving DecidableEq, Repr

/-- The four case labels `name`, `name+4`, `name+8`, `name+12` of an alias
group, all leading to the same code. -/
def aliasGroup (H : Header) (r : Reg) (b : WBody) : List WCase :=
  [⟨H.addr r, r.name, b⟩, ⟨H.addr r + 4, r.name ++ "CLR", b⟩,
   ⟨H.addr r + 8, r.name ++ "SET", b⟩, ⟨H.addr r + 12, r.name ++ "INV", b⟩]

/-- Macro `STORAGE(name)` in `io_write32`, with the statements after it. -/
def STORAGE (H : Header) (r : Reg) (b : WBody) : List WCase :=
  [⟨H.addr r, r.name, b⟩]

/-- Macro `READONLY(name)`: one case label, `goto readonly`. -/
def READONLY (H : Header) (r : Reg) : List WCase :=
  [⟨H.addr r, r.name, .readonly⟩]

/-- Macro `WRITEOP(name)`, followed by the statements `t`. -/
def WRITEOP (H : Header) (r : Reg) (t : WTail) : List WCase :=
  aliasGroup H r (.op r t)

/-- Macro `WRITEOPX(name, label)`: the four labels of `name` jump to
`op_label`, the storage update of `label`, followed by the statements `t`. -/
def WRITEOPX (H : Header) (r lab : Reg) (t : WTail) : List WCase :=
  aliasGroup H r (.op lab t)

/-- Macro `WRITEOPR(name, romask)`, followed by the statements `t`. -/
def WRITEOPR (H : Header) (r : Reg) (romask : Nat) (t : WTail) : List WCase :=
  aliasGroup H r (.opr r romask t)

/-- The read-only mask of the `UxSTA` registers. -/
def usta_romask (H : Header) : Nat :=
  H.PIC32_USTA_URXDA ||| H.PIC32_USTA_FERR ||| H.PIC32_USTA_PERR |||
  H.PIC32_USTA_RIDLE ||| H.PIC32_USTA_TRMT ||| H.PIC32_USTA_UTXBF

/-- The read-only mask `~PIC32_SPISTAT_SPIROV` of the `SPIxSTAT` registers. -/
def spistat_romask (H : Header) : Nat :=
  0xFFFFFFFF ^^^ H.PIC32_SPISTAT_SPIROV

/-- The case labels of one GPIO bank in `io_write32`. -/
def gpioWriteCases (H : Header) (p : Nat) : List WCase :=
  WRITEOP H (.TRIS p) .ret ++
  WRITEOPX H (.PORT p) (.LAT p) (.gpio p) ++
  WRITEOP H (.LAT p) (.gpio p) ++
  WRITEOP H (.ODC p) .ret ++
  WRITEOP H (.CNPU p) .ret ++
  WRITEOP H (.CNPD p) .ret ++
  WRITEOP H (.CNCON p) .ret ++
  WRITEOP H (.CNEN p) .ret ++
  WRITEOP H (.CNSTAT p) .ret

/-- The case labels of one UART in `io_write32`. -/
def uartWriteCases (H : Header) (u : Nat) : List WCase :=
  STORAGE H (.UxTXREG u) (.uart_tx u) ++
  WRITEOP H (.UxMODE u) (.uart_update_mode u) ++
  WRITEOPR H (.UxSTA u) (usta_romask H) (.uart_update_status u) ++
  WRITEOP H (.UxBRG u) .ret ++
  READONLY H (.UxRXREG u)

/-- The case labels of one SPI controller in `io_write32`. -/
def spiWriteCases (H : Header) (c : Nat) : List WCase :=
  WRITEOP H (.SPIxCON c) (.spi_control c) ++
  WRITEOPR H (.SPIxSTAT c) (spistat_romask H) .ret ++
  STORAGE H (.SPIxBUF c) (.spi_buf c) ++
  WRITEOP H (.SPIxBRG c) .ret

/-- All case labels of the `switch` of `io_write32`, in source order. -/
def writeCases (H : Header) : List WCase :=
  WRITEOP H .INTCON .ret ++
  READONLY H .INTSTAT ++
  WRITEOP H .IPTMR .ret ++
  (List.range 6).flatMap (fun n => WRITEOP H (.IFS n) .irq) ++
  (List.range 6).flatMap (fun n => WRITEOP H (.IEC n) .irq) ++
  (List.range 48).flatMap (fun n => WRITEOP H (.IPC n) .irq) ++
  WRITEOP H .PRECON .ret ++
  WRITEOP H .PRESTAT .ret ++
  STORAGE H .OSCCON .plain ++
  STORAGE H .OSCTUN .plain ++
  READONLY H .DEVID ++
  STORAGE H .SYSKEY .syskey ++
  STORAGE H .RCON .plain ++
  STORAGE H .RSWRST .rswrst ++
  (List.range 7).flatMap (gpioWriteCases H) ++
  (List.range 6).flatMap (uartWriteCases H) ++
  (List.range 4).flatMap (spiWriteCases H)

/-- A diagnostic printed before `exit (1)`. -/
inductive Diag
  | read_unsupported (address : Nat)
  | write_unsupported (data address : Nat)
  deriving DecidableEq, Repr

/-- How a call of `io_write32` ends: it returns, with the value left in
`*namep`, or the process exits with status 1. -/
inductive WResult (β : Type)
  | ret (name : Option String) (s : State β)
  | exit (d : Diag) (s : State β)

/-- The statements after the storage update of an alias group. -/
def run_tail {β : Type} (H : Header) (B : Backend β) (s : State β) : WTail → State β
  | .ret => s
  | .irq => update_irq_status H B s
  | .gpio p => gpio_write H B s p (s.io.mem (H.addr (.LAT p)))
  | .uart_update_mode u => s.hook (.uart_update_mode u) (B.uart_update_mode u)
  | .uart_update_status u => s.hook (.uart_update_status u) (B.uart_update_status u)
  | .spi_control c => s.hook (.spi_control c) (B.spi_control c)

/-- The system-key state machine of the `SYSKEY` case; `v` is `VALUE(SYSKEY)`
at that point. -/
def syskey_step (unlock v : Nat) : Nat :=
  let u1 := if unlock = 0 ∧ v = 0xaa996655 then 1 else unlock
  if u1 = 1 ∧ v = 0x556699aa then 2 else 0

/-- The code of `io_write32` behind the case label `c`.  The final
`*bufp = data` is reached by `break` only. -/
def run_wcase {β : Type} (H : Header) (B : Backend β) (s : State β)
    (c : WCase) (address bufp data : Nat) : WResult β :=
  match c.body with
  | .op r t =>
    .ret (some c.name)
      (run_tail H B (s.set (H.addr r) (write_op (s.io.mem (H.addr r)) data address)) t)
  | .opr r romask t =>
    let s1 := s.set (H.addr r) (s.io.mem (H.addr r) &&& romask)
    let s2 := s1.set (H.addr r)
      (s1.io.mem (H.addr r) |||
        (write_op (s1.io.mem (H.addr r)) data address &&& (0xFFFFFFFF ^^^ romask)))
    .ret (some c.name) (run_tail H B s2 t)
  | .readonly => .ret none (s.log (.readonly_report data (some c.name)))
  | .plain => .ret (some c.name) (s.set bufp data)
  | .syskey =>
    let s1 : State β :=
      { s with syskey_unlock := syskey_step s.syskey_unlock (s.io.mem (H.addr .SYSKEY)) }
    .ret (some c.name) (s1.set bufp data)
  | .rswrst =>
    let s1 :=
      if s.syskey_unlock = 2 ∧ s.io.mem (H.addr .RSWRST) &&& 1 ≠ 0 then
        (io_reset H B (s.hookExt .soft_reset B.soft_reset)).hookExt .sdcard_reset B.sdcard_reset
      else s
    .ret (some c.name) (s1.set bufp data)
  | .uart_tx u =>
    .ret (some c.name) ((s.hook (.uart_put_char u data) (B.uart_put_char u data)).set bufp data)
  | .spi_buf k =>
    .ret (some c.name) (s.hook (.spi_writebuf k data) (B.spi_writebuf k data))

/-- `io_write32`: `switch (address)` over the case labels; `bufp` is the
register-file slot the caller passes. -/
def io_write32 {β : Type} (H : Header) (B : Backend β) (s : State β)
    (address bufp data : Nat) : WResult β :=
  match (writeCases H).find? (fun c => c.label == address) with
  | none => .exit (.write_unsupported data address) s
  | some c => run_wcase H B s c address bufp data

/-! ## The read decoder -/

/-- The code reached from a case label of `io_read32`. -/
inductive RBody
  | plain
  | uart_rx (u : Nat)
  | uart_sta (u : Nat)
  | zero
  | spi_buf (c : Nat)
  deriving DecidableEq, Repr

/-- One case label of `io_read32`. -/
structure RCase where
  label : Nat
  name : String
  body : RBody
  deriving DecidableEq, Repr

/-- Macro `STORAGE(name)` in `io_read32`, with the statements after it. -/
def RSTORAGE (H : Header) (r : Reg) (b : RBody) : List RCase :=
  [⟨H.addr r, r.name, b⟩]

/-- The case labels of one GPIO bank in `io_read32`. -/
def gpioReadCases (H : Header) (p : Nat) : List RCase :=
  RSTORAGE H (.TRIS p) .plain ++ RSTORAGE H (.PORT p) .plain ++ RSTORAGE H (.LAT p) .plain ++
  RSTORAGE H (.ODC p) .plain ++ RSTORAGE H (.CNPU p) .plain ++ RSTORAGE H (.CNPD p) .plain ++
  RSTORAGE H (.CNCON p) .plain ++ RSTORAGE H (.CNEN p) .plain ++ RSTORAGE H (.CNSTAT p) .plain

/-- The case labels of one UART in `io_read32`. -/
def uartReadCases (H : Header) (u : Nat) : List RCase :=
  RSTORAGE H (.UxRXREG u) (.uart_rx u) ++
  RSTORAGE H (.UxBRG u) .plain ++
  RSTORAGE H (.UxMODE u) .plain ++
  RSTORAGE H (.UxSTA u) (.uart_sta u) ++
  RSTORAGE H (.UxTXREG u) .zero ++
  RSTORAGE H (.UxMODEa u .CLR) .zero ++ RSTORAGE H (.UxMODEa u .SET) .zero ++
  RSTORAGE H (.UxMODEa u .INV) .zero ++
  RSTORAGE H (.UxSTAa u .CLR) .zero ++ RSTORAGE H (.UxSTAa u .SET) .zero ++
  RSTORAGE H (.UxSTAa u .INV) .zero ++
  RSTORAGE H (.UxBRGa u .CLR) .zero ++ RSTORAGE H (.UxBRGa u .SET) .zero ++
  RSTORAGE H (.UxBRGa u .INV) .zero

/-- The case labels of one SPI controller in `io_read32`. -/
def spiReadCases (H : Header) (c : Nat) : List RCase :=
  RSTORAGE H (.SPIxCON c) .plain ++
  RSTORAGE H (.SPIxCONa c .CLR) .zero ++ RSTORAGE H (.SPIxCONa c .SET) .zero ++
  RSTORAGE H (.SPIxCONa c .INV) .zero ++
  RSTORAGE H (.SPIxSTAT c) .plain ++
  RSTORAGE H (.SPIxSTATa c .CLR) .zero ++ RSTORAGE H (.SPIxSTATa c .SET) .zero ++
  RSTORAGE H (.SPIxSTATa c .INV) .zero ++
  RSTORAGE H (.SPIxBUF c) (.spi_buf c) ++
  RSTORAGE H (.SPIxBRG c) .plain ++
  RSTORAGE H (.SPIxBRGa c .CLR) .zero ++ RSTORAGE H (.SPIxBRGa c .SET) .zero ++
  RSTORAGE H (.SPIxBRGa c .INV) .zero

/-- All case labels of the `switch` of `io_read32`, in source order. -/
def readCases (H : Header) : List RCase :=
  RSTORAGE H .INTCON .plain ++
  RSTORAGE H .INTSTAT .plain ++
  (List.range 6).flatMap (fun n => RSTORAGE H (.IFS n) .plain) ++
  (List.range 6).flatMap (fun n => RSTORAGE H (.IEC n) .plain) ++
  (List.range 48).flatMap (fun n => RSTORAGE H (.IPC n) .plain) ++
  RSTORAGE H .PRECON .plain ++
  RSTORAGE H .PRESTAT .plain ++
  RSTORAGE H .OSCCON .plain ++
  RSTORAGE H .OSCTUN .plain ++
  RSTORAGE H .DEVID .plain ++
  RSTORAGE H .SYSKEY .plain ++
  RSTORAGE H .RCON .plain ++
  RSTORAGE H .RSWRST .plain ++
  (List.range 7).flatMap (gpioReadCases H) ++
  (List.range 6).flatMap (uartReadCases H) ++
  (List.range 4).flatMap (spiReadCases H)

/-- How a call of `io_read32` ends: it returns `*bufp` and leaves a name in
`*namep`, or the process exits with status 1. -/
inductive RResult (β : Type)
  | ret (value : Nat) (name : Option String) (s : State β)
  | exit (d : Diag) (s : State β)

/-- The code of `io_read32` behind the case label `c`, up to `return *bufp`. -/
def run_rcase {β : Type} (B : Backend β) (s : State β) (c : RCase) (bufp : Nat) : RResult β :=
  let s1 : State β :=
    match c.body with
    | .plain => s
    | .uart_rx u =>
      let r := B.uart_get_char u s.io
      ({ s with io := r.2, trace := s.trace ++ [.uart_get_char u] } : State β).set bufp r.1
    | .uart_sta u => s.hook (.uart_poll_status u) (B.uart_poll_status u)
    | .zero => s.set bufp 0
    | .spi_buf k =>
      let r := B.spi_readbuf k s.io
      ({ s with io := r.2, trace := s.trace ++ [.spi_readbuf k] } : State β).set bufp r.1
  .ret (s1.io.mem bufp) (some c.name) s1

/-- `io_read32`: `switch (address)` over the case labels; `bufp` is the
register-file slot the caller passes. -/
def io_read32 {β : Type} (H : Header) (B : Backend β) (s : State β)
    (address bufp : Nat) : RResult β :=
  match (readCases H).find? (fun c => c.label == address) with
  | none => .exit (.read_unsupported address) s
  | some c => run_rcase B s c bufp

/-- The case labels of `io_write32` are pairwise distinct, as C requires of
the labels of one `switch`. -/
def Header.WriteLabelsDistinct (H : Header) : Prop :=
  ((writeCases H).map (fun c => c.label)).Nodup

/-- The case labels of `io_read32` are pairwise distinct. -/
def Header.ReadLabelsDistinct (H : Header) : Prop :=
  ((readCases H).map (fun c => c.label)).Nodup

/-! ## A concrete address map -/

/-- An address map on which the definitions can be evaluated: every register
takes 16 bytes, laid out as in the PIC32MZ family data sheet (`CHECON`, which
that family does not have, is put after `PRESTAT`). -/
def refAddr : Reg → Nat
  | .INTCON => 0x1F810000 | .INTSTAT => 0x1F810020 | .IPTMR => 0x1F810030
  | .IFS n => 0x1F810040 + 16 * n | .IEC n => 0x1F8100C0 + 16 * n
  | .IPC n => 0x1F810140 + 16 * n
  | .PRECON => 0x1F8E0000 | .PRESTAT => 0x1F8E0010 | .CHECON => 0x1F8E0020
  | .OSCCON => 0x1F801200 | .OSCTUN => 0x1F801210 | .DEVID => 0x1F800020
  | .SYSKEY => 0x1F800030 | .RCON => 0x1F801240 | .RSWRST => 0x1F801250
  | .TRIS p => 0x1F860010 + 256 * p | .PORT p => 0x1F860020 + 256 * p
  | .LAT p => 0x1F860030 + 256 * p | .ODC p => 0x1F860040 + 256 * p
  | .CNPU p => 0x1F860050 + 256 * p | .CNPD p => 0x1F860060 + 256 * p
  | .CNCON p => 0x1F860070 + 256 * p | .CNEN p => 0x1F860080 + 256 * p
  | .CNSTAT p => 0x1F860090 + 256 * p
  | .UxMODE u => 0x1F822000 + 512 * u | .UxSTA u => 0x1F822010 + 512 * u
  | .UxTXREG u => 0x1F822020 + 512 * u | .UxRXREG u => 0x1F822030 + 512 * u
  | .UxBRG u => 0x1F822040 + 512 * u
  | .UxMODEa u .CLR => 0x1F822004 + 512 * u | .UxMODEa u .SET => 0x1F822008 + 512 * u
  | .UxMODEa u .INV => 0x1F82200C + 512 * u
  | .UxSTAa u .CLR => 0x1F822014 + 512 * u | .UxSTAa u .SET => 0x1F822018 + 512 * u
  | .UxSTAa u .INV => 0x1F82201C + 512 * u
  | .UxBRGa u .CLR => 0x1F822044 + 512 * u | .UxBRGa u .SET => 0x1F822048 + 512 * u
  | .UxBRGa u .INV => 0x1F82204C + 512 * u
  | .SPIxCON c => 0x1F821000 + 512 * c | .SPIxSTAT c => 0x1F821010 + 512 * c
  | .SPIxBUF c => 0x1F821020 + 512 * c | .SPIxBRG c => 0x1F821030 + 512 * c
  | .SPIxCONa c .CLR => 0x1F821004 + 512 * c | .SPIxCONa c .SET => 0x1F821008 + 512 * c
  | .SPIxCONa c .INV => 0x1F82100C + 512 * c
  | .SPIxSTATa c .CLR => 0x1F821014 + 512 * c | .SPIxSTATa c .SET => 0x1F821018 + 512 * c
  | .SPIxSTATa c .INV => 0x1F82101C + 512 * c
  | .SPIxBRGa c .CLR => 0x1F821034 + 512 * c | .SPIxBRGa c .SET => 0x1F821038 + 512 * c
  | .SPIxBRGa c .INV => 0x1F82103C + 512 * c

/-- A header over `refAddr`, with the status bits of the data sheet, 191
interrupt sources, and the two SD cards selected by pins of banks D and E. -/
def refHeader : Header where
  addr := refAddr
  PIC32_IRQ_LAST := 190
  PIC32_USTA_URXDA := 0x1
  PIC32_USTA_FERR := 0x4
  PIC32_USTA_PERR := 0x8
  PIC32_USTA_RIDLE := 0x10
  PIC32_USTA_TRMT := 0x100
  PIC32_USTA_UTXBF := 0x200
  PIC32_SPISTAT_SPIROV := 0x40
  sdcard_gpio_port0 := 3
  sdcard_gpio_cs0 := 0x10
  sdcard_gpio_port1 := 4
  sdcard_gpio_cs1 := 0x20

/-- Collaborators that do nothing; `uart_get_char` and `spi_readbuf` return 0. -/
def nullBackend : Backend Unit where
  eic_level_vector := fun _ _ e => e
  soft_reset := fun e => e
  sdcard_reset := fun e => e
  sdcard_select := fun _ _ e => e
  uart_reset := fun m => m
  spi_reset := fun m => m
  uart_put_char := fun _ _ m => m
  uart_get_char := fun _ m => (0, m)
  uart_poll_status := fun _ m => m
  uart_update_mode := fun _ m => m
  uart_update_status := fun _ m => m
  spi_control := fun _ m => m
  spi_readbuf := fun _ m => (0, m)
  spi_writebuf := fun _ _ m => m

/-- The state in which every register is zero and nothing has been called. -/
def zeroState : State Unit :=
  { io := { mem := fun _ => 0, ext := () }, syskey_unlock := 0, trace := [] }

/-- A register file given by a list of `(register, value)` assignments over
the all-zero file, on the address map `refAddr`. -/
def memOf (l : List (Reg × Nat)) : Nat → Nat :=
  l.foldl (fun m rv => store m (refAddr rv.1) rv.2) (fun _ => 0)

/-- A state on `refHeader` with the given register contents. -/
def stateOf (unlock : Nat) (l : List (Reg × Nat)) : State Unit :=
  { io := { mem := memOf l, ext := () }, syskey_unlock := unlock, trace := [] }

/-- Flags of sources 2, 4, 7 and 9 set, all enables on, and the priority
fields found by `IPC(i >> 2)`, offset `2 + 8 * (i & 3)`, holding 3, 5, 5, 1. -/
def tieState : State Unit :=
  stateOf 0
    [(.IFS 0, 0x294),
     (.IEC 0, 0xFFFFFFFF), (.IEC 1, 0xFFFFFFFF), (.IEC 2, 0xFFFFFFFF),
     (.IEC 3, 0xFFFFFFFF), (.IEC 4, 0xFFFFFFFF), (.IEC 5, 0xFFFFFFFF),
     (.IPC 0, 3 <<< 18), (.IPC 1, (5 <<< 2) ||| (5 <<< 26)), (.IPC 2, 1 <<< 10)]

/-- Source 40 pending and enabled with 6 in the priority field found by
`IPC(40 >> 2)`, offset `2 + 8 * (40 & 3)`; source 1 idle with 7 in its field. -/
def source40State : State Unit :=
  stateOf 0 [(.IFS 1, 0x100), (.IEC 1, 0x100), (.IPC 10, 6 <<< 2), (.IPC 0, 7 <<< 10)]

/-- Port A as `io_reset` leaves it: `PORTA` and `LATA` hold 0xFFFF. -/
def portState : State Unit :=
  stateOf 0 [(.PORT 0, 0xFFFF), (.LAT 0, 0xFFFF)]

/-- `SPI1STAT` holding 1, a bit inside its read-only mask. -/
def spiStatState : State Unit :=
  stateOf 0 [(.SPIxSTAT 0, 1)]

/-- The register file after the assignments of `io_reset`. -/
def reset_mem (H : Header) (m : Nat → Nat) : Nat → Nat :=
  io_reset_values.foldl (fun m rv => store m (H.addr rv.1) rv.2) m

/-- The registers that `io_reset` assigns have pairwise distinct addresses. -/
def Header.ResetAddrsDistinct (H : Header) : Prop :=
  (io_reset_values.map (fun rv => H.addr rv.1)).Nodup

/-- A state with the interrupt and prefetch registers, port A and the
sequencer away from their power-up values. -/
def dirtyState : State Unit :=
  stateOf 2 [(.INTCON, 1), (.IFS 0, 0x294), (.IEC 0, 0xFFFFFFFF), (.IPC 1, 0x14),
    (.PRECON, 0x12), (.PRESTAT, 0x34), (.TRIS 0, 0)]

/-! ## The `INTSTAT` invariant -/

/-- The word that `update_irq_status` leaves in `INTSTAT`, as a function of
the register file it reads: `vector | (cause_ripl << 8)` of the scan when some
`IFSn & IECn` is nonzero, else 0. -/
def irq_status_word (H : Header) (mem : Nat → Nat) : Nat :=
  if irq_any H mem then (irq_scan H mem).2 ||| ((irq_scan H mem).1 <<< 8) else 0

/-- `INTSTAT` holds the arbitration result of the current flag, enable and
priority registers. -/
def irq_consistent (H : Header) (mem : Nat → Nat) : Prop :=
  mem (H.addr .INTSTAT) = irq_status_word H mem

/-- Every UART and SPI function keeps the property `P` of the register file. -/
def Backend.Keeps {β : Type} (B : Backend β) (P : (Nat → Nat) → Prop) : Prop :=
  (∀ m, P m.mem → P (B.uart_reset m).mem) ∧
  (∀ m, P m.mem → P (B.spi_reset m).mem) ∧
  (∀ u d m, P m.mem → P (B.uart_put_char u d m).mem) ∧
  (∀ u m, P m.mem → P (B.uart_get_char u m).2.mem) ∧
  (∀ u m, P m.mem → P (B.uart_poll_status u m).mem) ∧
  (∀ u m, P m.mem → P (B.uart_update_mode u m).mem) ∧
  (∀ u m, P m.mem → P (B.uart_update_status u m).mem) ∧
  (∀ c m, P m.mem → P (B.spi_control c m).mem) ∧
  (∀ c m, P m.mem → P (B.spi_readbuf c m).2.mem) ∧
  (∀ c d m, P m.mem → P (B.spi_writebuf c d m).mem)

/-- The address of `INTSTAT`, of one of `IFS0..IFS5`, `IEC0..IEC5` or of one
of `IPC0..IPC47`. -/
def irqAddr (H : Header) (a : Nat) : Prop :=
  a = H.addr .INTSTAT ∨ (∃ n, n < 6 ∧ (a = H.addr (.IFS n) ∨ a = H.addr (.IEC n))) ∨
  ∃ n, n < 48 ∧ a = H.addr (.IPC n)

/-- The register that the storage update behind the case `c` writes has its
own base label, with the same code, in the list `M`. -/
def TargetIn (H : Header) (M : List WCase) (c : WCase) : Prop :=
  (∀ r t, c.body = .op r t → ∃ c1 ∈ M, c1.label = H.addr r ∧ c1.body = .op r t) ∧
  (∀ r m t, c.body = .opr r m t → ∃ c1 ∈ M, c1.label = H.addr r ∧ c1.body = .opr r m t)

/-- `SPI1STAT` holding the overflow flag `SPIROV`, its only writable bit. -/
def spiRovState : State Unit :=
  stateOf 0 [(.SPIxSTAT 0, 0x40)]

/-- Collaborators that answer: `uart_get_char` returns 0x41,
`uart_poll_status` sets `URXDA` in the status register of its UART,
`spi_readbuf` returns 0x5A; everything else does nothing. -/
def pollBackend : Backend Unit where
  eic_level_vector := fun _ _ e => e
  soft_reset := fun e => e
  sdcard_reset := fun e => e
  sdcard_select := fun _ _ e => e
  uart_reset := fun m => m
  spi_reset := fun m => m
  uart_put_char := fun _ _ m => m
  uart_get_char := fun _ m => (0x41, m)
  uart_poll_status := fun u m =>
    { m with mem := store m.mem (refAddr (.UxSTA u)) (m.mem (refAddr (.UxSTA u)) ||| 1) }
  uart_update_mode := fun _ m => m
  uart_update_status := fun _ m => m
  spi_control := fun _ m => m
  spi_readbuf := fun _ m => (0x5A, m)
  spi_writebuf := fun _ _ m => m

/-- The registers whose case in `io_read32` is `STORAGE (name); break;`. -/
def Reg.plainRead : Reg → Bool
  | .INTCON | .INTSTAT | .PRECON | .PRESTAT => true
  | .OSCCON | .OSCTUN | .DEVID | .SYSKEY | .RCON | .RSWRST => true
  | .IFS n | .IEC n => n < 6
  | .IPC n => n < 48
  | .TRIS p | .PORT p | .LAT p | .ODC p | .CNPU p | .CNPD p | .CNCON p | .CNEN p
  | .CNSTAT p => p < 7
  | .UxBRG u | .UxMODE u => u < 6
  | .SPIxCON k | .SPIxSTAT k | .SPIxBRG k => k < 4
  | _ => false

/-- `U1STA` holding `UTXEN` (bit 10), a bit outside its read-only mask. -/
def ustaTxenState : State Unit :=
  stateOf 0 [(.UxSTA 0, 0x400)]

/-- The register whose `CLR`, `SET` or `INV` name a UART or SPI name of
`io_read32` is: `U1MODECLR` is an alias name of `U1MODE`. -/
def Reg.aliasBase : Reg → Option Reg
  | .UxMODEa u _ => if u < 6 then some (.UxMODE u) else none
  | .UxSTAa u _ => if u < 6 then some (.UxSTA u) else none
  | .UxBRGa u _ => if u < 6 then some (.UxBRG u) else none
  | .SPIxCONa k _ => if k < 4 then some (.SPIxCON k) else none
  | .SPIxSTATa k _ => if k < 4 then some (.SPIxSTAT k) else none
  | .SPIxBRGa k _ => if k < 4 then some (.SPIxBRG k) else none
  | _ => none

/-- A call of one of the entry points of `mz.c` that a running simulation
makes after start-up. -/
inductive IoCall
  | write (address bufp data : Nat)
  | read (address bufp : Nat)
  | raise (irq : Nat)
  | clear (irq : Nat)
  deriving DecidableEq, Repr

/-- The state after one call, or `none` when the call ends in `exit (1)`. -/
def io_call {β : Type} (H : Header) (B : Backend β) (s : State β) : IoCall → Option (State β)
  | .write address bufp data =>
    match io_write32 H B s address bufp data with
    | .ret _ s1 => some s1
    | .exit _ _ => none
  | .read address bufp =>
    match io_read32 H B s address bufp with
    | .ret _ _ s1 => some s1
    | .exit _ _ => none
  | .raise irq => some (irq_raise H B s irq)
  | .clear irq => some (irq_clear H B s irq)

/-- The state after a sequence of calls: the calls run in order until the
list ends or one of them exits. -/
def io_run {β : Type} (H : Header) (B : Backend β) : State β → List IoCall → State β
  | s, [] => s
  | s, c :: l =>
    match io_call H B s c with
    | some s1 => io_run H B s1 l
    | none => s

/-- The calls of the reset action of the `RSWRST` case: `soft_reset`,
`sdcard_reset`, and the `uart_reset` and `spi_reset` of `io_reset`. -/
def Call.isReset : Call → Bool
  | .soft_reset | .sdcard_reset | .uart_reset | .spi_reset => true
  | _ => false

/-- From a Locked state `s` the state `s1` is Locked and the calls made in
between contain no call of the reset action. -/
def State.LockedStep {β : Type} (s s1 : State β) : Prop :=
  s1.syskey_unlock = 0 ∧ ∃ t, s1.trace = s.trace ++ t ∧ ∀ c ∈ t, Call.isReset c = false

/-- The values of `cause_ripl` and `vector` at the call of `eic_level_vector`
in `update_irq_status`, on the register file as it is after
`VALUE(INTSTAT) = 0`. -/
def irq_result (H : Header) (mem : Nat → Nat) : Nat × Nat :=
  if irq_any H mem then irq_scan H mem else (0, 0)

/-- Source 40 pending and enabled as in `source40State`, with flags that are
not enabled besides: flags 0..7 of `IFS0` with `IEC0 = 0`, and flag 9 of
`IFS1`. -/
def maskedFlagsState : State Unit :=
  stateOf 0 [(.IFS 0, 0xFF), (.IFS 1, 0x300), (.IEC 1, 0x100), (.IPC 10, 6 <<< 2),
    (.IPC 0, 7 <<< 10)]

/-- The per-group description of the arbitration: the priority field
`f(n) = (IPC(n >> 2) >> (2 + 8 * (n & 3))) & 7` of group `n`. -/
def spec_group_field (H : Header) (mem : Nat → Nat) (n : Nat) : Nat :=
  (mem (H.addr (.IPC (n >>> 2))) >>> (2 + 8 * (n &&& 3))) &&& 7

/-- The per-group description of the arbitration: `IFS(n) & IEC(n)` has a set
bit `p` with `32 * n + p <= PIC32_IRQ_LAST`. -/
def spec_group_pending (H : Header) (mem : Nat → Nat) (n : Nat) : Bool :=
  (List.range 32).any (fun p =>
    (mem (H.addr (.IFS n)) &&& mem (H.addr (.IEC n))).testBit p &&
      decide (32 * n + p ≤ H.PIC32_IRQ_LAST))

/-- The per-group description of the arbitration: the set `G` of pending
groups among 0..5, in ascending order. -/
def spec_groups (H : Header) (mem : Nat → Nat) : List Nat :=
  (List.range 6).filter (spec_group_pending H mem)

/-- The per-group description of the arbitration: the maximum of `f` over
`G`, 0 when `G` is empty. -/
def spec_level (H : Header) (mem : Nat → Nat) : Nat :=
  ((spec_groups H mem).map (spec_group_field H mem)).foldr max 0

/-- The per-group description of the arbitration: the least group of `G`
whose field is the level when the level is positive, else 0. -/
def spec_vector (H : Header) (mem : Nat → Nat) : Nat :=
  if spec_level H mem = 0 then 0
  else ((spec_groups H mem).find?
    (fun n => spec_group_field H mem n == spec_level H mem)).getD 0

/-- The per-group description of the arbitration: `vector | (level << 8)`. -/
def spec_intstat (H : Header) (mem : Nat → Nat) : Nat :=
  spec_vector H mem ||| (spec_level H mem <<< 8)

/-- Strictly ascending list of numbers. -/
def ascending : List Nat → Bool
  | a :: b :: l => decide (a < b) && ascending (b :: l)
  | _ => true

/-! ## General lemmas -/

theorem chain_of_ascending : ∀ l : List Nat, ascending l = true → l.Chain' (fun a b => a < b)
  | [], _ => List.chain'_nil
  | [_], _ => List.chain'_singleton _
  | a :: b :: l, h => by
    simp only [ascending, Bool.and_eq_true, decide_eq_true_eq] at h
    exact List.chain'_cons.mpr ⟨h.1, chain_of_ascending (b :: l) h.2⟩

theorem nodup_of_sort_ascending (l : List Nat)
    (h : ascending (l.insertionSort (fun a b => a ≤ b)) = true) : l.Nodup := by
  have hp := List.perm_insertionSort (fun a b : Nat => a ≤ b) l
  have hn : (l.insertionSort (fun a b => a ≤ b)).Nodup :=
    (List.chain'_iff_pairwise.mp (chain_of_ascending _ h)).imp (fun hab => Nat.ne_of_lt hab)
  exact hp.nodup_iff.mp hn

set_option maxRecDepth 100000 in
theorem refHeader_writeLabelsDistinct : refHeader.WriteLabelsDistinct :=
  nodup_of_sort_ascending _ (by decide!)

set_option maxRecDepth 100000 in
theorem refHeader_readLabelsDistinct : refHeader.ReadLabelsDistinct :=
  nodup_of_sort_ascending _ (by decide!)

/-- In a list with pairwise distinct keys, looking up the key of a member
finds that member. -/
theorem find_of_mem_nodup {α : Type} (key : α → Nat) :
    ∀ (l : List α), (l.map key).Nodup → ∀ c ∈ l,
      l.find? (fun x => key x == key c) = some c
  | [], _, c, hc => by simp at hc
  | a :: l, hn, c, hc => by
    rw [List.map_cons, List.nodup_cons] at hn
    rcases List.mem_cons.mp hc with rfl | hcl
    · simp
    · have hne : key a ≠ key c := by
        intro h
        exact hn.1 (h ▸ List.mem_map_of_mem key hcl)
      rw [List.find?_cons_of_neg _ (by simpa using hne)]
      exact find_of_mem_nodup key l hn.2 c hcl

/-- A key that no member carries is not found. -/
theorem find_none_of_not_mem {α : Type} (key : α → Nat) (l : List α) (a : Nat)
    (h : ∀ c ∈ l, key c ≠ a) : l.find? (fun x => key x == a) = none := by
  rw [List.find?_eq_none]
  intro c hc
  simpa using h c hc

/-- With distinct labels, a write to the label of a case runs that case. -/
theorem io_write32_of_case {β : Type} (H : Header) (B : Backend β) (s : State β)
    (hd : H.WriteLabelsDistinct) (c : WCase) (hc : c ∈ writeCases H) (bufp data : Nat) :
    io_write32 H B s c.label bufp data = run_wcase H B s c c.label bufp data := by
  have h := find_of_mem_nodup (fun x : WCase => x.label) (writeCases H) hd c hc
  simp only [] at h
  unfold io_write32
  rw [h]

/-- A write to an address that is no case label ends in the fatal exit. -/
theorem io_write32_unmapped {β : Type} (H : Header) (B : Backend β) (s : State β)
    (address bufp data : Nat) (h : ∀ c ∈ writeCases H, c.label ≠ address) :
    io_write32 H B s address bufp data = .exit (.write_unsupported data address) s := by
  have e := find_none_of_not_mem (fun x : WCase => x.label) (writeCases H) address h
  simp only [] at e
  unfold io_write32
  rw [e]

/-- The case labels of the `IFS` registers are case labels of `io_write32`. -/
theorem mem_writeCases_IFS (H : Header) (n : Nat) (hn : n < 6) (c : WCase)
    (hc : c ∈ WRITEOP H (.IFS n) .irq) : c ∈ writeCases H := by
  unfold writeCases
  simp only [List.mem_append, List.mem_flatMap, List.mem_range]
  repeat (first | exact Or.inr ⟨n, hn, hc⟩ | apply Or.inl)

/-- The case labels of the GPIO banks are case labels of `io_write32`. -/
theorem mem_writeCases_gpio (H : Header) (p : Nat) (hp : p < 7) (c : WCase)
    (hc : c ∈ gpioWriteCases H p) : c ∈ writeCases H := by
  unfold writeCases
  simp only [List.mem_append, List.mem_flatMap, List.mem_range]
  repeat (first | exact Or.inr ⟨p, hp, hc⟩ | apply Or.inl)

/-- The case labels of the SPI controllers are case labels of `io_write32`. -/
theorem mem_writeCases_spi (H : Header) (k : Nat) (hk : k < 4) (c : WCase)
    (hc : c ∈ spiWriteCases H k) : c ∈ writeCases H := by
  unfold writeCases
  exact List.mem_append_right _ (List.mem_flatMap.mpr ⟨k, List.mem_range.mpr hk, hc⟩)

/-- The `IFS` registers are read as plain storage. -/
theorem mem_readCases_IFS (H : Header) (n : Nat) (hn : n < 6) :
    (⟨H.addr (.IFS n), (Reg.IFS n).name, .plain⟩ : RCase) ∈ readCases H := by
  have hc : (⟨H.addr (.IFS n), (Reg.IFS n).name, .plain⟩ : RCase) ∈
      RSTORAGE H (.IFS n) .plain := by simp [RSTORAGE]
  unfold readCases
  simp only [List.mem_append, List.mem_flatMap, List.mem_range]
  repeat (first | exact Or.inr ⟨n, hn, hc⟩ | apply Or.inl)

/-- The case labels of the GPIO banks are case labels of `io_read32`. -/
theorem mem_readCases_gpio (H : Header) (p : Nat) (hp : p < 7) (c : RCase)
    (hc : c ∈ gpioReadCases H p) : c ∈ readCases H := by
  unfold readCases
  simp only [List.mem_append, List.mem_flatMap, List.mem_range]
  repeat (first | exact Or.inr ⟨p, hp, hc⟩ | apply Or.inl)

/-- The case labels of the SPI controllers are case labels of `io_read32`. -/
theorem mem_readCases_spi (H : Header) (k : Nat) (hk : k < 4) (c : RCase)
    (hc : c ∈ spiReadCases H k) : c ∈ readCases H := by
  unfold readCases
  exact List.mem_append_right _ (List.mem_flatMap.mpr ⟨k, List.mem_range.mpr hk, hc⟩)

/-- The case labels of the UARTs are case labels of `io_write32`. -/
theorem mem_writeCases_uart (H : Header) (u : Nat) (hu : u < 6) (c : WCase)
    (hc : c ∈ uartWriteCases H u) : c ∈ writeCases H := by
  unfold writeCases
  exact List.mem_append_left _
    (List.mem_append_right _ (List.mem_flatMap.mpr ⟨u, List.mem_range.mpr hu, hc⟩))

/-- With distinct labels, a read of the label of a case runs that case. -/
theorem io_read32_of_case {β : Type} (H : Header) (B : Backend β) (s : State β)
    (hd : H.ReadLabelsDistinct) (c : RCase) (hc : c ∈ readCases H) (bufp : Nat) :
    io_read32 H B s c.label bufp = run_rcase B s c bufp := by
  have h := find_of_mem_nodup (fun x : RCase => x.label) (readCases H) hd c hc
  simp only [] at h
  unfold io_read32
  rw [h]

theorem store_same (m : Nat → Nat) (a v : Nat) : store m a v a = v := by
  simp [store]

theorem store_other (m : Nat → Nat) (a v x : Nat) (h : x ≠ a) : store m a v x = m x := by
  simp [store, h]

/-- The low two address bits select one of four operations. -/
theorem and_0xc_cases (a : Nat) :
    a &&& 0xc = 0x0 ∨ a &&& 0xc = 0x4 ∨ a &&& 0xc = 0x8 ∨ a &&& 0xc = 0xc := by
  have h16 : a &&& 0xc < 16 := lt_of_le_of_lt Nat.and_le_right (by norm_num)
  have hb : ∀ i, (a &&& 0xc).testBit i = (a.testBit i && (12 : Nat).testBit i) := by
    intro i; simp
  have e0 : (12 : Nat).testBit 0 = false := by decide
  have e1 : (12 : Nat).testBit 1 = false := by decide
  have h0 : (a &&& 0xc).testBit 0 = false := by rw [hb, e0]; simp
  have h1 : (a &&& 0xc).testBit 1 = false := by rw [hb, e1]; simp
  revert h0 h1
  generalize a &&& 0xc = x at h16 ⊢
  interval_cases x <;> decide

/-- The pending test of the scan is the test of one bit. -/
theorem shift_and_one_ne_zero (x k : Nat) : (x >>> k) &&& 1 ≠ 0 ↔ x.testBit k = true := by
  simp [Nat.testBit, Nat.and_comm]

/-- A fold whose every step keeps the accumulator returns it. -/
theorem foldl_fixed {α β : Type} (f : α → β → α) (a : α) :
    ∀ l : List β, (∀ x ∈ l, f a x = a) → l.foldl f a = a
  | [], _ => rfl
  | x :: l, h => by
    rw [List.foldl_cons, h x (List.mem_cons_self x l)]
    exact foldl_fixed f a l (fun y hy => h y (List.mem_cons_of_mem x hy))

/-- A bit of a slot after `VALUE(a) = 0` was a bit of the slot before. -/
theorem testBit_store_zero (m : Nat → Nat) (a x k : Nat)
    (h : (store m a 0 x).testBit k = true) : (m x).testBit k = true := by
  unfold store at h
  split_ifs at h
  · simp at h
  · exact h

/-- When no source in `0..PIC32_IRQ_LAST` is pending and enabled, the scan
ends with `cause_ripl = 0` and `vector = 0`. -/
theorem irq_scan_none (H : Header) (mem : Nat → Nat)
    (h : ∀ irq, irq ≤ H.PIC32_IRQ_LAST →
      ¬ ((mem (H.addr (.IFS (irq >>> 5)))).testBit (irq &&& 31) = true ∧
         (mem (H.addr (.IEC (irq >>> 5)))).testBit (irq &&& 31) = true)) :
    irq_scan H mem = (0, 0) := by
  unfold irq_scan
  apply foldl_fixed
  intro irq hirq
  have hle : irq ≤ H.PIC32_IRQ_LAST := by
    have := List.mem_range.mp hirq
    omega
  unfold irq_scan_step
  have hc : ¬ ((mem (H.addr (.IFS (irq >>> 5))) &&& mem (H.addr (.IEC (irq >>> 5))))
      >>> (irq &&& 31)) &&& 1 ≠ 0 := by
    rw [shift_and_one_ne_zero, Nat.testBit_and, Bool.and_eq_true]
    exact h irq hle
  simp only [hc, if_false]

@[simp] theorem set_syskey_unlock {β : Type} (s : State β) (a v : Nat) :
    (s.set a v).syskey_unlock = s.syskey_unlock := rfl

@[simp] theorem set_trace {β : Type} (s : State β) (a v : Nat) :
    (s.set a v).trace = s.trace := rfl

@[simp] theorem set_ext {β : Type} (s : State β) (a v : Nat) :
    (s.set a v).io.ext = s.io.ext := rfl

@[simp] theorem set_mem {β : Type} (s : State β) (a v : Nat) :
    (s.set a v).io.mem = store s.io.mem a v := rfl

@[simp] theorem hook_syskey_unlock {β : Type} (s : State β) (c : Call)
    (f : Machine β → Machine β) : (s.hook c f).syskey_unlock = s.syskey_unlock := rfl

@[simp] theorem hook_trace {β : Type} (s : State β) (c : Call)
    (f : Machine β → Machine β) : (s.hook c f).trace = s.trace ++ [c] := rfl

@[simp] theorem hook_io {β : Type} (s : State β) (c : Call)
    (f : Machine β → Machine β) : (s.hook c f).io = f s.io := rfl

@[simp] theorem hookExt_syskey_unlock {β : Type} (s : State β) (c : Call)
    (f : β → β) : (s.hookExt c f).syskey_unlock = s.syskey_unlock := rfl

@[simp] theorem hookExt_trace {β : Type} (s : State β) (c : Call)
    (f : β → β) : (s.hookExt c f).trace = s.trace ++ [c] := rfl

@[simp] theorem hookExt_mem {β : Type} (s : State β) (c : Call)
    (f : β → β) : (s.hookExt c f).io.mem = s.io.mem := rfl

@[simp] theorem hookExt_ext {β : Type} (s : State β) (c : Call)
    (f : β → β) : (s.hookExt c f).io.ext = f s.io.ext := rfl

@[simp] theorem log_syskey_unlock {β : Type} (s : State β) (c : Call) :
    (s.log c).syskey_unlock = s.syskey_unlock := rfl

@[simp] theorem log_trace {β : Type} (s : State β) (c : Call) :
    (s.log c).trace = s.trace ++ [c] := rfl

@[simp] theorem log_io {β : Type} (s : State β) (c : Call) : (s.log c).io = s.io := rfl

/-- `io_reset` leaves the sequencer Locked. -/
@[simp] theorem io_reset_syskey_unlock {β : Type} (H : Header) (B : Backend β) (s : State β) :
    (io_reset H B s).syskey_unlock = 0 := rfl

/-- From Locked the system-key state machine ends Locked, whatever
`VALUE(SYSKEY)` holds. -/
theorem syskey_step_locked (v : Nat) : syskey_step 0 v = 0 := by
  unfold syskey_step
  by_cases h1 : v = 0xaa996655
  · subst h1; simp
  · simp [h1]

/-- With distinct labels, a write to `SYSKEY` steps the state machine on the
stored value and then stores the data through `bufp`. -/
theorem io_write32_SYSKEY {β : Type} (H : Header) (B : Backend β) (s : State β)
    (hd : H.WriteLabelsDistinct) (bufp data : Nat) :
    io_write32 H B s (H.addr .SYSKEY) bufp data =
      .ret (some "SYSKEY")
        (({ s with syskey_unlock :=
            syskey_step s.syskey_unlock (s.io.mem (H.addr .SYSKEY)) } : State β).set bufp data) := by
  have h := io_write32_of_case H B s hd ⟨H.addr .SYSKEY, Reg.name .SYSKEY, .syskey⟩
    (by simp [writeCases, STORAGE]) bufp data
  simpa [run_wcase, Reg.name] using h

/-- With distinct labels, a write to `RSWRST` tests the stored value, resets
when unlocked, and then stores the data through `bufp`. -/
theorem io_write32_RSWRST {β : Type} (H : Header) (B : Backend β) (s : State β)
    (hd : H.WriteLabelsDistinct) (bufp data : Nat) :
    io_write32 H B s (H.addr .RSWRST) bufp data =
      .ret (some "RSWRST")
        ((if s.syskey_unlock = 2 ∧ s.io.mem (H.addr .RSWRST) &&& 1 ≠ 0 then
            (io_reset H B (s.hookExt .soft_reset B.soft_reset)).hookExt
              .sdcard_reset B.sdcard_reset
          else s).set bufp data) := by
  have h := io_write32_of_case H B s hd ⟨H.addr .RSWRST, Reg.name .RSWRST, .rswrst⟩
    (by simp [writeCases, STORAGE]) bufp data
  simpa [run_wcase, Reg.name] using h

/-- Two cases of a list with distinct labels that carry the same label are
the same case. -/
theorem case_unique {α : Type} (key : α → Nat) (l : List α) (hn : (l.map key).Nodup)
    (c1 c2 : α) (h1 : c1 ∈ l) (h2 : c2 ∈ l) (h : key c1 = key c2) : c1 = c2 := by
  have e1 := find_of_mem_nodup key l hn c1 h1
  have e2 := find_of_mem_nodup key l hn c2 h2
  rw [h, e2] at e1
  exact (Option.some.inj e1).symm

theorem and_12_mod (x : Nat) : x &&& 12 = (x % 16) &&& 12 := by
  have h : x &&& 15 = x % 16 := by
    simpa using Nat.and_pow_two_sub_one_eq_mod x 4
  rw [← h, Nat.and_assoc]
  rfl

/-- At a 16-byte aligned base, offsets 0, 4, 8, 12 put 0x0, 0x4, 0x8, 0xC in
address bits 2..3. -/
theorem aligned_offset_bits (a : Nat) (ha : a % 16 = 0) :
    a &&& 0xc = 0x0 ∧ (a + 4) &&& 0xc = 0x4 ∧ (a + 8) &&& 0xc = 0x8 ∧
    (a + 12) &&& 0xc = 0xc := by
  have h0 : a % 16 = 0 := ha
  have h4 : (a + 4) % 16 = 4 := by omega
  have h8 : (a + 8) % 16 = 8 := by omega
  have h12 : (a + 12) % 16 = 12 := by omega
  refine ⟨?_, ?_, ?_, ?_⟩
  · show a &&& 12 = 0
    rw [and_12_mod, h0]; rfl
  · show (a + 4) &&& 12 = 4
    rw [and_12_mod, h4]; rfl
  · show (a + 8) &&& 12 = 8
    rw [and_12_mod, h8]; rfl
  · show (a + 12) &&& 12 = 12
    rw [and_12_mod, h12]; rfl

/-- `update_irq_status` writes no register but `INTSTAT`. -/
theorem update_irq_status_mem_other {β : Type} (H : Header) (B : Backend β) (s : State β)
    (x : Nat) (hx : x ≠ H.addr .INTSTAT) :
    (update_irq_status H B s).io.mem x = s.io.mem x := by
  unfold update_irq_status
  simp only []
  split_ifs <;> simp [store_other _ _ _ _ hx]

/-- `update_irq_status` leaves the sequencer state alone. -/
theorem update_irq_status_syskey_unlock {β : Type} (H : Header) (B : Backend β)
    (s : State β) : (update_irq_status H B s).syskey_unlock = s.syskey_unlock := by
  unfold update_irq_status
  simp only []
  split_ifs <;> simp

/-- `gpio_write` writes no register. -/
theorem gpio_write_mem {β : Type} (H : Header) (B : Backend β) (s : State β)
    (p v : Nat) : (gpio_write H B s p v).io.mem = s.io.mem := by
  unfold gpio_write
  simp only []
  split_ifs <;> simp

/-- With distinct labels, a read of a register that `io_read32` declares as
plain storage returns the stored value and changes nothing. -/
theorem io_read32_plain {β : Type} (H : Header) (B : Backend β) (s : State β)
    (hd : H.ReadLabelsDistinct) (r : Reg)
    (hr : (⟨H.addr r, r.name, .plain⟩ : RCase) ∈ readCases H) :
    io_read32 H B s (H.addr r) (H.addr r) = .ret (s.io.mem (H.addr r)) (some r.name) s := by
  have h := io_read32_of_case H B s hd ⟨H.addr r, r.name, .plain⟩ hr (H.addr r)
  simpa [run_rcase] using h

/-- With distinct labels, a write to an alias label of a `WRITEOP` group
applies `write_op` to the register of the group and runs the tail. -/
theorem io_write32_op {β : Type} (H : Header) (B : Backend β) (s : State β)
    (hd : H.WriteLabelsDistinct) (c : WCase) (hc : c ∈ writeCases H) (r : Reg) (t : WTail)
    (hb : c.body = .op r t) (bufp data : Nat) :
    io_write32 H B s c.label bufp data =
      .ret (some c.name)
        (run_tail H B (s.set (H.addr r) (write_op (s.io.mem (H.addr r)) data c.label)) t) := by
  rw [io_write32_of_case H B s hd c hc]
  unfold run_wcase
  rw [hb]

/-- The statements after the storage update of a `WRITEOP` group keep the
register of the group, when the UART and SPI functions they may call do. -/
theorem run_tail_keeps {β : Type} (H : Header) (B : Backend β) (s : State β)
    (hd : H.WriteLabelsDistinct) (r : Reg) (t : WTail)
    (hw : ∀ c ∈ WRITEOP H r t, c ∈ writeCases H)
    (hB1 : ∀ u m, (B.uart_update_mode u m).mem (H.addr r) = m.mem (H.addr r))
    (hB2 : ∀ u m, (B.uart_update_status u m).mem (H.addr r) = m.mem (H.addr r))
    (hB3 : ∀ c m, (B.spi_control c m).mem (H.addr r) = m.mem (H.addr r)) :
    (run_tail H B s t).io.mem (H.addr r) = s.io.mem (H.addr r) := by
  cases t with
  | ret => rfl
  | irq =>
    have hne : H.addr r ≠ H.addr .INTSTAT := by
      intro e
      have h1 : (⟨H.addr r, r.name, .op r .irq⟩ : WCase) ∈ writeCases H :=
        hw _ (by simp [WRITEOP, aliasGroup])
      have h2 : (⟨H.addr .INTSTAT, Reg.name .INTSTAT, .readonly⟩ : WCase) ∈ writeCases H := by
        simp [writeCases, READONLY]
      have := case_unique (fun x : WCase => x.label) (writeCases H) hd _ _ h1 h2 e
      simp at this
    exact update_irq_status_mem_other H B s _ hne
  | gpio p =>
    show (gpio_write H B s p _).io.mem (H.addr r) = _
    rw [gpio_write_mem]
  | uart_update_mode u => exact hB1 u s.io
  | uart_update_status u => exact hB2 u s.io
  | spi_control c => exact hB3 c s.io

/-! ## Claims -/

/-- C1: for 32-bit words `v` and `d` and every address `a`, `write_op v d a`
is a 32-bit word; bits 2..3 of `a` take one of the four values 0x0, 0x4, 0x8,
0xC, and the result is `d` for 0x0 (assign), `v AND NOT d` for 0x4 (clear),
`v OR d` for 0x8 (set) and `v XOR d` for 0xC (invert), bit by bit. -/
theorem write_op_spec (v d a : Nat) (hv : v < 2 ^ 32) (hd : d < 2 ^ 32) :
    write_op v d a < 2 ^ 32 ∧
    (a &&& 0xC = 0x0 ∨ a &&& 0xC = 0x4 ∨ a &&& 0xC = 0x8 ∨ a &&& 0xC = 0xC) ∧
    (a &&& 0xC = 0x0 → write_op v d a = d) ∧
    (a &&& 0xC = 0x4 → ∀ i, (write_op v d a).testBit i = (v.testBit i && !d.testBit i)) ∧
    (a &&& 0xC = 0x8 → ∀ i, (write_op v d a).testBit i = (v.testBit i || d.testBit i)) ∧
    (a &&& 0xC = 0xC → ∀ i, (write_op v d a).testBit i = xor (v.testBit i) (d.testBit i)) := by
  have hones : ∀ i, Nat.testBit 4294967295 i = decide (i < 32) := by
    intro i
    have h := Nat.testBit_two_pow_sub_one 32 i
    norm_num at h
    exact h
  refine ⟨?_, and_0xc_cases a, ?_, ?_, ?_, ?_⟩
  · unfold write_op
    split_ifs
    · exact hd
    · exact lt_of_le_of_lt Nat.and_le_left hv
    · exact Nat.or_lt_two_pow hv hd
    · exact Nat.xor_lt_two_pow hv hd
  · intro h; simp [write_op, h]
  · intro h i
    have hvi : i < 32 ∨ v.testBit i = false := by
      by_cases hi : i < 32
      · exact Or.inl hi
      · exact Or.inr (Nat.testBit_lt_two_pow
          (lt_of_lt_of_le hv (Nat.pow_le_pow_right (by norm_num) (by omega))))
    simp only [write_op, h]
    norm_num
    rw [hones]
    rcases hvi with hi | hi <;> simp [hi]
  · intro h i; simp [write_op, h]
  · intro h i; simp [write_op, h]

/-- Witness for C1: the clear alias of a register at a 16-byte aligned base. -/
theorem write_op_spec_witness :
    write_op 0xF0F0 0xFF00 0x1F810044 < 2 ^ 32 ∧
    (0x1F810044 &&& 0xC = 0x0 ∨ 0x1F810044 &&& 0xC = 0x4 ∨ 0x1F810044 &&& 0xC = 0x8 ∨
      0x1F810044 &&& 0xC = 0xC) ∧
    (0x1F810044 &&& 0xC = 0x0 → write_op 0xF0F0 0xFF00 0x1F810044 = 0xFF00) ∧
    (0x1F810044 &&& 0xC = 0x4 → ∀ i, (write_op 0xF0F0 0xFF00 0x1F810044).testBit i =
      ((0xF0F0 : Nat).testBit i && !(0xFF00 : Nat).testBit i)) ∧
    (0x1F810044 &&& 0xC = 0x8 → ∀ i, (write_op 0xF0F0 0xFF00 0x1F810044).testBit i =
      ((0xF0F0 : Nat).testBit i || (0xFF00 : Nat).testBit i)) ∧
    (0x1F810044 &&& 0xC = 0xC → ∀ i, (write_op 0xF0F0 0xFF00 0x1F810044).testBit i =
      xor ((0xF0F0 : Nat).testBit i) ((0xFF00 : Nat).testBit i)) :=
  write_op_spec 0xF0F0 0xFF00 0x1F810044 (by decide) (by decide)

/-- C2, amended: for every register `R` whose four alias labels are declared
with `WRITEOP` in `io_write32`, whose base address is 16-byte aligned and
which `io_read32` declares as plain storage: if `io_read32(R)` returns `v`,
then after `io_write32` to `R+4` / `R+8` / `R+12` with any data `d`,
`io_read32(R)` returns `v & ~d` / `v | d` / `v ^ d` (the UART and SPI
functions called after the update assumed not to alter `R`). -/
theorem alias_write_then_read {β : Type} (H : Header) (B : Backend β) (s : State β)
    (r : Reg) (t : WTail) (d : Nat)
    (hdw : H.WriteLabelsDistinct) (hdr : H.ReadLabelsDistinct)
    (hw : ∀ c ∈ WRITEOP H r t, c ∈ writeCases H)
    (hr : (⟨H.addr r, r.name, .plain⟩ : RCase) ∈ readCases H)
    (ha : H.addr r % 16 = 0)
    (hB1 : ∀ u m, (B.uart_update_mode u m).mem (H.addr r) = m.mem (H.addr r))
    (hB2 : ∀ u m, (B.uart_update_status u m).mem (H.addr r) = m.mem (H.addr r))
    (hB3 : ∀ c m, (B.spi_control c m).mem (H.addr r) = m.mem (H.addr r))
    (v : Nat) (n0 : Option String) (s0 : State β)
    (h0 : io_read32 H B s (H.addr r) (H.addr r) = .ret v n0 s0) :
      (∃ s1 s2,
        io_write32 H B s0 (H.addr r + 4) (H.addr r + 4) d = .ret (some (r.name ++ "CLR")) s1 ∧
        io_read32 H B s1 (H.addr r) (H.addr r) =
          .ret (v &&& (0xFFFFFFFF ^^^ d)) (some r.name) s2) ∧
      (∃ s1 s2,
        io_write32 H B s0 (H.addr r + 8) (H.addr r + 8) d = .ret (some (r.name ++ "SET")) s1 ∧
        io_read32 H B s1 (H.addr r) (H.addr r) = .ret (v ||| d) (some r.name) s2) ∧
      (∃ s1 s2,
        io_write32 H B s0 (H.addr r + 12) (H.addr r + 12) d = .ret (some (r.name ++ "INV")) s1 ∧
        io_read32 H B s1 (H.addr r) (H.addr r) = .ret (v ^^^ d) (some r.name) s2) := by
  rw [io_read32_plain H B s hdr r hr] at h0
  injection h0 with hv hn hs
  subst hv hs
  obtain ⟨_, b4, b8, b12⟩ := aligned_offset_bits (H.addr r) ha
  have key : ∀ (a : Nat) (nm : String), (⟨a, nm, .op r t⟩ : WCase) ∈ writeCases H →
      ∀ val, write_op (s.io.mem (H.addr r)) d a = val →
      ∃ s1 s2, io_write32 H B s a a d = .ret (some nm) s1 ∧
        io_read32 H B s1 (H.addr r) (H.addr r) = .ret val (some r.name) s2 := by
    intro a nm hc val hval
    refine ⟨run_tail H B (s.set (H.addr r) (write_op (s.io.mem (H.addr r)) d a)) t,
      run_tail H B (s.set (H.addr r) (write_op (s.io.mem (H.addr r)) d a)) t,
      io_write32_op H B s hdw ⟨a, nm, .op r t⟩ hc r t rfl a d, ?_⟩
    rw [io_read32_plain H B _ hdr r hr, run_tail_keeps H B _ hdw r t hw hB1 hB2 hB3]
    simp only [set_mem, store_same, hval]
  refine ⟨key _ _ (hw _ (by simp [WRITEOP, aliasGroup])) _ ?_,
    key _ _ (hw _ (by simp [WRITEOP, aliasGroup])) _ ?_,
    key _ _ (hw _ (by simp [WRITEOP, aliasGroup])) _ ?_⟩
  · simp only [write_op, b4]
    norm_num
  · simp only [write_op, b8]
    norm_num
  · simp only [write_op, b12]
    norm_num

/-- Witness for C2: the alias group of `IFS0`, whose update is followed by the
recomputation of the interrupt status; `IFS0` reads 0x294 before the writes. -/
theorem alias_write_then_read_witness :
    io_read32 refHeader nullBackend tieState (refHeader.addr (.IFS 0))
      (refHeader.addr (.IFS 0)) = .ret 0x294 (some (Reg.IFS 0).name) tieState ∧
    ((∃ s1 s2,
        io_write32 refHeader nullBackend tieState (refHeader.addr (.IFS 0) + 4)
          (refHeader.addr (.IFS 0) + 4) 0x90 = .ret (some ((Reg.IFS 0).name ++ "CLR")) s1 ∧
        io_read32 refHeader nullBackend s1 (refHeader.addr (.IFS 0)) (refHeader.addr (.IFS 0)) =
          .ret (0x294 &&& (0xFFFFFFFF ^^^ 0x90)) (some (Reg.IFS 0).name) s2) ∧
      (∃ s1 s2,
        io_write32 refHeader nullBackend tieState (refHeader.addr (.IFS 0) + 8)
          (refHeader.addr (.IFS 0) + 8) 0x90 = .ret (some ((Reg.IFS 0).name ++ "SET")) s1 ∧
        io_read32 refHeader nullBackend s1 (refHeader.addr (.IFS 0)) (refHeader.addr (.IFS 0)) =
          .ret (0x294 ||| 0x90) (some (Reg.IFS 0).name) s2) ∧
      (∃ s1 s2,
        io_write32 refHeader nullBackend tieState (refHeader.addr (.IFS 0) + 12)
          (refHeader.addr (.IFS 0) + 12) 0x90 = .ret (some ((Reg.IFS 0).name ++ "INV")) s1 ∧
        io_read32 refHeader nullBackend s1 (refHeader.addr (.IFS 0)) (refHeader.addr (.IFS 0)) =
          .ret (0x294 ^^^ 0x90) (some (Reg.IFS 0).name) s2)) :=
  have h0 : io_read32 refHeader nullBackend tieState (refHeader.addr (.IFS 0))
      (refHeader.addr (.IFS 0)) = .ret 0x294 (some (Reg.IFS 0).name) tieState :=
    io_read32_plain refHeader nullBackend tieState refHeader_readLabelsDistinct (.IFS 0)
      (mem_readCases_IFS refHeader 0 (by decide))
  ⟨h0, alias_write_then_read refHeader nullBackend tieState (.IFS 0) .irq 0x90
    refHeader_writeLabelsDistinct refHeader_readLabelsDistinct
    (mem_writeCases_IFS refHeader 0 (by decide)) (mem_readCases_IFS refHeader 0 (by decide))
    (by decide) (fun _ _ => rfl) (fun _ _ => rfl) (fun _ _ => rfl)
    0x294 (some (Reg.IFS 0).name) tieState h0⟩

set_option maxRecDepth 100000 in
/-- C2 as stated fails on `PORTA` and on `SPI1STAT`: with `PORTA = 0xFFFF`, a
write of 0xFFFFFFFF to the clear address `PORTA + 4` is followed by a read of
0xFFFF, not of `0xFFFF & ~0xFFFFFFFF = 0`; with `SPI1STAT = 1`, a write of 1
to the clear address `SPI1STAT + 4` is followed by a read of 1, not of
`1 & ~1 = 0`. -/
theorem alias_write_counterexample :
    (∃ n0 s0 n1 s1 n2 s2,
      io_read32 refHeader nullBackend portState (refHeader.addr (.PORT 0))
        (refHeader.addr (.PORT 0)) = .ret 0xFFFF n0 s0 ∧
      io_write32 refHeader nullBackend s0 (refHeader.addr (.PORT 0) + 4)
        (refHeader.addr (.PORT 0) + 4) 0xFFFFFFFF = .ret n1 s1 ∧
      io_read32 refHeader nullBackend s1 (refHeader.addr (.PORT 0))
        (refHeader.addr (.PORT 0)) = .ret 0xFFFF n2 s2 ∧
      0xFFFF &&& (0xFFFFFFFF ^^^ 0xFFFFFFFF) ≠ 0xFFFF) ∧
    (∃ n0 s0 n1 s1 n2 s2,
      io_read32 refHeader nullBackend spiStatState (refHeader.addr (.SPIxSTAT 0))
        (refHeader.addr (.SPIxSTAT 0)) = .ret 1 n0 s0 ∧
      io_write32 refHeader nullBackend s0 (refHeader.addr (.SPIxSTAT 0) + 4)
        (refHeader.addr (.SPIxSTAT 0) + 4) 1 = .ret n1 s1 ∧
      io_read32 refHeader nullBackend s1 (refHeader.addr (.SPIxSTAT 0))
        (refHeader.addr (.SPIxSTAT 0)) = .ret 1 n2 s2 ∧
      1 &&& (0xFFFFFFFF ^^^ 1) ≠ 1) := by
  have hP : (⟨refHeader.addr (.PORT 0), (Reg.PORT 0).name, .plain⟩ : RCase) ∈
      readCases refHeader :=
    mem_readCases_gpio refHeader 0 (by decide) _ (by simp [gpioReadCases, RSTORAGE])
  have hS : (⟨refHeader.addr (.SPIxSTAT 0), (Reg.SPIxSTAT 0).name, .plain⟩ : RCase) ∈
      readCases refHeader :=
    mem_readCases_spi refHeader 0 (by decide) _ (by simp [spiReadCases, RSTORAGE])
  have wP := io_write32_op refHeader nullBackend portState refHeader_writeLabelsDistinct
    ⟨refHeader.addr (.PORT 0) + 4, (Reg.PORT 0).name ++ "CLR", .op (.LAT 0) (.gpio 0)⟩
    (mem_writeCases_gpio refHeader 0 (by decide) _
      (by simp [gpioWriteCases, WRITEOPX, aliasGroup]))
    (.LAT 0) (.gpio 0) rfl (refHeader.addr (.PORT 0) + 4) 0xFFFFFFFF
  have wS := io_write32_of_case refHeader nullBackend spiStatState
    refHeader_writeLabelsDistinct
    ⟨refHeader.addr (.SPIxSTAT 0) + 4, (Reg.SPIxSTAT 0).name ++ "CLR",
      .opr (.SPIxSTAT 0) (spistat_romask refHeader) .ret⟩
    (mem_writeCases_spi refHeader 0 (by decide) _
      (by simp [spiWriteCases, WRITEOPR, aliasGroup]))
    (refHeader.addr (.SPIxSTAT 0) + 4) 1
  obtain ⟨nP, sP, hwP, hvP⟩ : ∃ n1 s1,
      io_write32 refHeader nullBackend portState (refHeader.addr (.PORT 0) + 4)
        (refHeader.addr (.PORT 0) + 4) 0xFFFFFFFF = .ret n1 s1 ∧
      s1.io.mem (refHeader.addr (.PORT 0)) = 0xFFFF := ⟨_, _, wP, by decide⟩
  obtain ⟨nS, sS, hwS, hvS⟩ : ∃ n1 s1,
      io_write32 refHeader nullBackend spiStatState (refHeader.addr (.SPIxSTAT 0) + 4)
        (refHeader.addr (.SPIxSTAT 0) + 4) 1 = .ret n1 s1 ∧
      s1.io.mem (refHeader.addr (.SPIxSTAT 0)) = 1 := ⟨_, _, wS.trans rfl, by decide⟩
  have rP0 := io_read32_plain refHeader nullBackend portState refHeader_readLabelsDistinct _ hP
  have rP1 := io_read32_plain refHeader nullBackend sP refHeader_readLabelsDistinct _ hP
  have rS0 := io_read32_plain refHeader nullBackend spiStatState refHeader_readLabelsDistinct _ hS
  have rS1 := io_read32_plain refHeader nullBackend sS refHeader_readLabelsDistinct _ hS
  have eP : portState.io.mem (refHeader.addr (.PORT 0)) = 0xFFFF := by decide
  have eS : spiStatState.io.mem (refHeader.addr (.SPIxSTAT 0)) = 1 := by decide
  rw [eP] at rP0
  rw [hvP] at rP1
  rw [eS] at rS0
  rw [hvS] at rS1
  exact ⟨⟨_, _, _, _, _, _, rP0, hwP, rP1, by decide⟩,
    ⟨_, _, _, _, _, _, rS0, hwS, rS1, by decide⟩⟩

set_option maxRecDepth 100000 in
/-- C3 (code evaluated at the claim's own example): with the flags of sources
2, 7, 4, 9 set, all enables on and priorities 3, 5, 5, 1 in the fields of
those sources, `update_irq_status` notifies `(level 0, vector 0)` and leaves
`INTSTAT = 0`, not vector 4 at level 5. -/
theorem update_irq_status_tie_example :
    (tieState.io.mem (refHeader.addr (.IFS 0)) = (1 <<< 2) ||| (1 <<< 7) ||| (1 <<< 4) ||| (1 <<< 9)) ∧
    ((tieState.io.mem (refHeader.addr (.IPC (2 >>> 2))) >>> (2 + 8 * (2 &&& 3))) &&& 7 = 3) ∧
    ((tieState.io.mem (refHeader.addr (.IPC (7 >>> 2))) >>> (2 + 8 * (7 &&& 3))) &&& 7 = 5) ∧
    ((tieState.io.mem (refHeader.addr (.IPC (4 >>> 2))) >>> (2 + 8 * (4 &&& 3))) &&& 7 = 5) ∧
    ((tieState.io.mem (refHeader.addr (.IPC (9 >>> 2))) >>> (2 + 8 * (9 &&& 3))) &&& 7 = 1) ∧
    (update_irq_status refHeader nullBackend tieState).trace = [Call.eic_level_vector 0 0] ∧
    (update_irq_status refHeader nullBackend tieState).io.mem (refHeader.addr .INTSTAT) = 0 := by
  decide

set_option maxRecDepth 100000 in
/-- C4 (code evaluated at a failing input): source 40 is pending and enabled
and the field of `IPC(40 >> 2)` at offset `2 + 8 * (40 & 3)` holds 6, yet
`update_irq_status` reports level 7, the field of `IPC(0)` at offset 10, with
vector 1. -/
theorem update_irq_status_source40_example :
    ((source40State.io.mem (refHeader.addr (.IFS (40 >>> 5)))).testBit (40 &&& 31) = true) ∧
    ((source40State.io.mem (refHeader.addr (.IEC (40 >>> 5)))).testBit (40 &&& 31) = true) ∧
    ((source40State.io.mem (refHeader.addr (.IPC (40 >>> 2))) >>> (2 + 8 * (40 &&& 3))) &&& 7 = 6) ∧
    ((source40State.io.mem (refHeader.addr (.IPC 0)) >>> 10) &&& 7 = 7) ∧
    (update_irq_status refHeader nullBackend source40State).trace = [Call.eic_level_vector 7 1] ∧
    (update_irq_status refHeader nullBackend source40State).io.mem (refHeader.addr .INTSTAT) =
      1 ||| (7 <<< 8) := by
  decide

/-- C5: every call of `update_irq_status` makes exactly one notification
`eic_level_vector (level, vector)` and leaves `INTSTAT = vector | (level << 8)`
for that same pair; when no source in `0..PIC32_IRQ_LAST` is both pending and
enabled, the pair is `(0, 0)` and `INTSTAT` is 0. -/
theorem update_irq_status_publishes {β : Type} (H : Header) (B : Backend β) (s : State β) :
    ∃ level vector,
      (update_irq_status H B s).trace = s.trace ++ [Call.eic_level_vector level vector] ∧
      (update_irq_status H B s).io.ext = B.eic_level_vector level vector s.io.ext ∧
      (update_irq_status H B s).io.mem (H.addr .INTSTAT) = vector ||| (level <<< 8) ∧
      ((∀ irq, irq ≤ H.PIC32_IRQ_LAST →
          ¬ ((s.io.mem (H.addr (.IFS (irq >>> 5)))).testBit (irq &&& 31) = true ∧
             (s.io.mem (H.addr (.IEC (irq >>> 5)))).testBit (irq &&& 31) = true)) →
        level = 0 ∧ vector = 0 ∧ (update_irq_status H B s).io.mem (H.addr .INTSTAT) = 0) := by
  by_cases hany : irq_any H (store s.io.mem (H.addr .INTSTAT) 0) = true
  · refine ⟨(irq_scan H (store s.io.mem (H.addr .INTSTAT) 0)).1,
      (irq_scan H (store s.io.mem (H.addr .INTSTAT) 0)).2, ?_, ?_, ?_, ?_⟩
    · simp [update_irq_status, State.set, State.hookExt, hany]
    · simp [update_irq_status, State.set, State.hookExt, hany]
    · simp [update_irq_status, State.set, State.hookExt, hany, store_same]
    · intro hnone
      have hz : irq_scan H (store s.io.mem (H.addr .INTSTAT) 0) = (0, 0) := by
        apply irq_scan_none
        intro irq hle hboth
        exact hnone irq hle
          ⟨testBit_store_zero _ _ _ _ hboth.1, testBit_store_zero _ _ _ _ hboth.2⟩
      simp [update_irq_status, State.set, State.hookExt, hany, store_same, hz]
  · refine ⟨0, 0, ?_, ?_, ?_, ?_⟩
    · simp [update_irq_status, State.set, State.hookExt, hany]
    · simp [update_irq_status, State.set, State.hookExt, hany]
    · simp [update_irq_status, State.set, State.hookExt, hany, store_same]
    · intro _
      simp [update_irq_status, State.set, State.hookExt, hany, store_same]

/-- Witness for C5: in the all-zero state nothing is pending, the notification
is `(0, 0)` and `INTSTAT` stays 0. -/
theorem update_irq_status_publishes_witness :
    ∃ level vector,
      (update_irq_status refHeader nullBackend zeroState).trace =
        zeroState.trace ++ [Call.eic_level_vector level vector] ∧
      (update_irq_status refHeader nullBackend zeroState).io.ext =
        nullBackend.eic_level_vector level vector zeroState.io.ext ∧
      (update_irq_status refHeader nullBackend zeroState).io.mem (refHeader.addr .INTSTAT) =
        vector ||| (level <<< 8) ∧
      ((∀ irq, irq ≤ refHeader.PIC32_IRQ_LAST →
          ¬ ((zeroState.io.mem (refHeader.addr (.IFS (irq >>> 5)))).testBit (irq &&& 31) = true ∧
             (zeroState.io.mem (refHeader.addr (.IEC (irq >>> 5)))).testBit (irq &&& 31) = true)) →
        level = 0 ∧ vector = 0 ∧
        (update_irq_status refHeader nullBackend zeroState).io.mem (refHeader.addr .INTSTAT) = 0) :=
  update_irq_status_publishes refHeader nullBackend zeroState

/-- C6 (code evaluated at the failing input): from the state left by
`io_reset`, where the sequencer is Locked, the write of 0xAA996655 to `SYSKEY`
leaves `syskey_unlock = 0`, not 1, and the following write of 0x556699AA
leaves it 0 as well, not 2. -/
theorem syskey_unlock_sequence_example :
    (io_reset refHeader nullBackend zeroState).syskey_unlock = 0 ∧
    ∃ n1 s1 n2 s2,
      io_write32 refHeader nullBackend (io_reset refHeader nullBackend zeroState)
        (refHeader.addr .SYSKEY) (refHeader.addr .SYSKEY) 0xAA996655 = .ret n1 s1 ∧
      s1.syskey_unlock = 0 ∧
      io_write32 refHeader nullBackend s1
        (refHeader.addr .SYSKEY) (refHeader.addr .SYSKEY) 0x556699AA = .ret n2 s2 ∧
      s2.syskey_unlock = 0 := by
  refine ⟨rfl, _, _, _, _,
    io_write32_SYSKEY refHeader nullBackend _ refHeader_writeLabelsDistinct _ _, ?_,
    io_write32_SYSKEY refHeader nullBackend _ refHeader_writeLabelsDistinct _ _, ?_⟩
  · simp [syskey_step_locked]
  · simp [syskey_step_locked]

/-- C8: with the sequencer Locked or in Stage1, a write of any data `d` to
`RSWRST` returns with the name `RSWRST`, stores `d` in `RSWRST`, leaves every
other register, the sequencer state and the collaborators unchanged, and
makes no call. -/
theorem rswrst_write_locked {β : Type} (H : Header) (B : Backend β) (s : State β) (d : Nat)
    (hd : H.WriteLabelsDistinct) (hs : s.syskey_unlock = 0 ∨ s.syskey_unlock = 1) :
    ∃ s1,
      io_write32 H B s (H.addr .RSWRST) (H.addr .RSWRST) d = .ret (some "RSWRST") s1 ∧
      s1.io.mem (H.addr .RSWRST) = d ∧
      (∀ a, a ≠ H.addr .RSWRST → s1.io.mem a = s.io.mem a) ∧
      s1.syskey_unlock = s.syskey_unlock ∧
      s1.io.ext = s.io.ext ∧
      s1.trace = s.trace := by
  have hne : ¬ (s.syskey_unlock = 2 ∧ s.io.mem (H.addr .RSWRST) &&& 1 ≠ 0) := by
    rintro ⟨h2, _⟩
    omega
  refine ⟨_, io_write32_RSWRST H B s hd _ _, ?_, ?_, ?_, ?_, ?_⟩
  · rw [if_neg hne]; simp [store_same]
  · intro a ha
    rw [if_neg hne]; simp [store_other _ _ _ _ ha]
  · rw [if_neg hne]; simp
  · rw [if_neg hne]; simp
  · rw [if_neg hne]; simp

/-- Witness for C8: the write of 1 to `RSWRST` in the all-zero, Locked state. -/
theorem rswrst_write_locked_witness :
    ∃ s1,
      io_write32 refHeader nullBackend zeroState
        (refHeader.addr .RSWRST) (refHeader.addr .RSWRST) 1 = .ret (some "RSWRST") s1 ∧
      s1.io.mem (refHeader.addr .RSWRST) = 1 ∧
      (∀ a, a ≠ refHeader.addr .RSWRST → s1.io.mem a = zeroState.io.mem a) ∧
      s1.syskey_unlock = zeroState.syskey_unlock ∧
      s1.io.ext = zeroState.io.ext ∧
      s1.trace = zeroState.trace :=
  rswrst_write_locked refHeader nullBackend zeroState 1 refHeader_writeLabelsDistinct
    (Or.inl rfl)

/-- C10, amended: for every read-only register `R` (`INTSTAT`, `DEVID`,
`U1RXREG..U6RXREG`) and every data word, a write at the address of `R` itself
returns normally with the name cleared, leaves every register, the
collaborators and the sequencer state unchanged and only reports the
violation; an address `R+4`, `R+8`, `R+12` that is no case label ends in the
fatal unmapped-address exit with the state untouched. -/
theorem readonly_write {β : Type} (H : Header) (B : Backend β) (s : State β) (r : Reg)
    (bufp d : Nat) (hd : H.WriteLabelsDistinct)
    (hr : r = .INTSTAT ∨ r = .DEVID ∨ ∃ u, u < 6 ∧ r = .UxRXREG u) :
    (∃ s1,
      io_write32 H B s (H.addr r) bufp d = .ret none s1 ∧
      s1.io = s.io ∧ s1.syskey_unlock = s.syskey_unlock ∧
      s1.trace = s.trace ++ [Call.readonly_report d (some r.name)]) ∧
    (∀ off, (off = 4 ∨ off = 8 ∨ off = 12) →
      (∀ c ∈ writeCases H, c.label ≠ H.addr r + off) →
      io_write32 H B s (H.addr r + off) bufp d =
        .exit (.write_unsupported d (H.addr r + off)) s) := by
  constructor
  · have hc : (⟨H.addr r, r.name, .readonly⟩ : WCase) ∈ writeCases H := by
      rcases hr with rfl | rfl | ⟨u, hu, rfl⟩
      · simp [writeCases, READONLY]
      · simp [writeCases, READONLY]
      · exact mem_writeCases_uart H u hu _ (by simp [uartWriteCases, READONLY])
    have h := io_write32_of_case H B s hd (⟨H.addr r, r.name, .readonly⟩ : WCase) hc bufp d
    have e : run_wcase H B s (⟨H.addr r, r.name, .readonly⟩ : WCase) (H.addr r) bufp d =
        .ret none (s.log (.readonly_report d (some r.name))) := rfl
    exact ⟨_, h.trans e, rfl, rfl, rfl⟩
  · intro off _ hno
    exact io_write32_unmapped H B s _ bufp d hno

/-- Witness for C10: a write to `INTSTAT` in the all-zero state. -/
theorem readonly_write_witness :
    (∃ s1,
      io_write32 refHeader nullBackend zeroState (refHeader.addr .INTSTAT)
        (refHeader.addr .INTSTAT) 0x1234 = .ret none s1 ∧
      s1.io = zeroState.io ∧ s1.syskey_unlock = zeroState.syskey_unlock ∧
      s1.trace = zeroState.trace ++ [Call.readonly_report 0x1234 (some Reg.INTSTAT.name)]) ∧
    (∀ off, (off = 4 ∨ off = 8 ∨ off = 12) →
      (∀ c ∈ writeCases refHeader, c.label ≠ refHeader.addr .INTSTAT + off) →
      io_write32 refHeader nullBackend zeroState (refHeader.addr .INTSTAT + off)
          (refHeader.addr .INTSTAT) 0x1234 =
        .exit (.write_unsupported 0x1234 (refHeader.addr .INTSTAT + off)) zeroState) :=
  readonly_write refHeader nullBackend zeroState .INTSTAT (refHeader.addr .INTSTAT) 0x1234
    refHeader_writeLabelsDistinct (Or.inl rfl)

set_option maxRecDepth 100000 in
/-- C10 as stated fails: a write to `INTSTAT + 4` does not report a read-only
violation and return; it ends in the fatal unmapped-address exit. -/
theorem readonly_alias_write_exits :
    io_write32 refHeader nullBackend zeroState (refHeader.addr .INTSTAT + 4)
        (refHeader.addr .INTSTAT + 4) 0 =
      .exit (.write_unsupported 0 (refHeader.addr .INTSTAT + 4)) zeroState :=
  io_write32_unmapped refHeader nullBackend zeroState _ _ _ (by decide)

/-! ## Unmapped addresses -/

/-- A read of an address that is no case label ends in the fatal exit. -/
theorem io_read32_unmapped {β : Type} (H : Header) (B : Backend β) (s : State β)
    (address bufp : Nat) (h : ∀ c ∈ readCases H, c.label ≠ address) :
    io_read32 H B s address bufp = .exit (.read_unsupported address) s := by
  have e := find_none_of_not_mem (fun x : RCase => x.label) (readCases H) address h
  simp only [] at e
  unfold io_read32
  rw [e]

/-- Every case of `io_write32` returns. -/
theorem run_wcase_ret {β : Type} (H : Header) (B : Backend β) (s : State β) (c : WCase)
    (address bufp data : Nat) :
    ∃ n s1, run_wcase H B s c address bufp data = .ret n s1 := by
  unfold run_wcase
  split <;> exact ⟨_, _, rfl⟩

/-- Every case of `io_read32` returns. -/
theorem run_rcase_ret {β : Type} (B : Backend β) (s : State β) (c : RCase) (bufp : Nat) :
    ∃ v n s1, run_rcase B s c bufp = .ret v n s1 :=
  ⟨_, _, _, rfl⟩

/-- C11: `io_write32` and `io_read32` end in the fatal exit exactly when the
address equals no case label of their `switch`; the diagnostic then carries
the address (and the data for a write) and the direction, and the state at
the exit is the state at the call: no register, sequencer state, collaborator
or trace entry has changed. -/
theorem unmapped_access {β : Type} (H : Header) (B : Backend β) (s : State β)
    (address bufp data : Nat) :
    ((∃ d s1, io_write32 H B s address bufp data = .exit d s1) ↔
      ∀ c ∈ writeCases H, c.label ≠ address) ∧
    ((∀ c ∈ writeCases H, c.label ≠ address) →
      io_write32 H B s address bufp data = .exit (.write_unsupported data address) s) ∧
    ((∃ d s1, io_read32 H B s address bufp = .exit d s1) ↔
      ∀ c ∈ readCases H, c.label ≠ address) ∧
    ((∀ c ∈ readCases H, c.label ≠ address) →
      io_read32 H B s address bufp = .exit (.read_unsupported address) s) := by
  refine ⟨⟨?_, fun h => ⟨_, _, io_write32_unmapped H B s address bufp data h⟩⟩,
    io_write32_unmapped H B s address bufp data,
    ⟨?_, fun h => ⟨_, _, io_read32_unmapped H B s address bufp h⟩⟩,
    io_read32_unmapped H B s address bufp⟩
  · rintro ⟨d, s1, he⟩ c hc hl
    unfold io_write32 at he
    cases hf : (writeCases H).find? (fun c => c.label == address) with
    | none =>
      have := List.find?_eq_none.mp hf c hc
      simp [hl] at this
    | some c1 =>
      rw [hf] at he
      obtain ⟨n, s2, hr⟩ := run_wcase_ret H B s c1 address bufp data
      simp only [] at he
      rw [hr] at he
      cases he
  · rintro ⟨d, s1, he⟩ c hc hl
    unfold io_read32 at he
    cases hf : (readCases H).find? (fun c => c.label == address) with
    | none =>
      have := List.find?_eq_none.mp hf c hc
      simp [hl] at this
    | some c1 =>
      rw [hf] at he
      obtain ⟨v, n, s2, hr⟩ := run_rcase_ret B s c1 bufp
      simp only [] at he
      rw [hr] at he
      cases he

/-! ## Power-up values of `io_reset` -/

theorem foldl_set_io {β : Type} (H : Header) :
    ∀ (l : List (Reg × Nat)) (s : State β),
      (l.foldl (fun t rv => t.set (H.addr rv.1) rv.2) s) =
        { s with io := { s.io with
            mem := l.foldl (fun m rv => store m (H.addr rv.1) rv.2) s.io.mem } }
  | [], _ => rfl
  | rv :: l, s => by
    rw [List.foldl_cons, foldl_set_io H l]
    rfl

/-- `io_reset` as one update of the register file followed by the two
collaborator resets. -/
theorem io_reset_io {β : Type} (H : Header) (B : Backend β) (s : State β) :
    (io_reset H B s).io =
      B.spi_reset (B.uart_reset { mem := reset_mem H s.io.mem, ext := s.io.ext }) := by
  unfold io_reset
  simp only [hook_io]
  rw [foldl_set_io]
  rfl

/-- Assignments to other addresses leave a slot alone. -/
theorem foldl_store_not_mem (H : Header) :
    ∀ (l : List (Reg × Nat)) (m : Nat → Nat) (a : Nat),
      a ∉ l.map (fun rv => H.addr rv.1) →
      l.foldl (fun m rv => store m (H.addr rv.1) rv.2) m a = m a
  | [], _, _, _ => rfl
  | rv :: l, m, a, h => by
    rw [List.map_cons, List.mem_cons, not_or] at h
    rw [List.foldl_cons, foldl_store_not_mem H l _ a h.2, store_other _ _ _ _ h.1]

/-- With distinct addresses every assigned slot holds its assigned value. -/
theorem foldl_store_mem (H : Header) :
    ∀ (l : List (Reg × Nat)) (m : Nat → Nat),
      (l.map (fun rv => H.addr rv.1)).Nodup → ∀ rv ∈ l,
      l.foldl (fun m rv => store m (H.addr rv.1) rv.2) m (H.addr rv.1) = rv.2
  | [], _, _, rv, h => by simp at h
  | x :: l, m, hn, rv, h => by
    rw [List.map_cons, List.nodup_cons] at hn
    rw [List.foldl_cons]
    rcases List.mem_cons.mp h with rfl | hl
    · rw [foldl_store_not_mem H l _ _ hn.1, store_same]
    · exact foldl_store_mem H l _ hn.2 rv hl

/-- The value of an assigned slot does not depend on the file before. -/
theorem foldl_store_indep (H : Header) :
    ∀ (l : List (Reg × Nat)) (m m1 : Nat → Nat) (a : Nat),
      a ∈ l.map (fun rv => H.addr rv.1) →
      l.foldl (fun m rv => store m (H.addr rv.1) rv.2) m a =
        l.foldl (fun m rv => store m (H.addr rv.1) rv.2) m1 a
  | [], _, _, _, h => by simp at h
  | x :: l, m, m1, a, h => by
    rw [List.foldl_cons, List.foldl_cons]
    by_cases hl : a ∈ l.map (fun rv => H.addr rv.1)
    · exact foldl_store_indep H l _ _ a hl
    · rw [foldl_store_not_mem H l _ a hl, foldl_store_not_mem H l _ a hl]
      rw [List.map_cons, List.mem_cons] at h
      rcases h with rfl | h
      · rw [store_same, store_same]
      · exact absurd h hl

theorem reset_mem_value (H : Header) (hd : H.ResetAddrsDistinct) (m : Nat → Nat)
    (r : Reg) (v : Nat) (h : (r, v) ∈ io_reset_values) : reset_mem H m (H.addr r) = v :=
  foldl_store_mem H io_reset_values m hd (r, v) h

theorem mem_io_reset_values_gpio (p : Nat) (hp : p < 7) (rv : Reg × Nat)
    (h : rv ∈ [(Reg.TRIS p, 0xFFFF), (.PORT p, 0xFFFF), (.LAT p, 0xFFFF), (.ODC p, 0),
      (.CNPU p, 0), (.CNPD p, 0), (.CNCON p, 0), (.CNEN p, 0), (.CNSTAT p, 0)]) :
    rv ∈ io_reset_values := by
  unfold io_reset_values
  exact List.mem_append_right _ (List.mem_flatMap.mpr ⟨p, List.mem_range.mpr hp, h⟩)

/-- After `io_reset` a register of its table holds the value of the table,
when the table addresses are distinct and the collaborator resets keep them. -/
theorem io_reset_value {β : Type} (H : Header) (B : Backend β) (s : State β)
    (hd : H.ResetAddrsDistinct)
    (hU : ∀ rv ∈ io_reset_values, ∀ m, (B.uart_reset m).mem (H.addr rv.1) = m.mem (H.addr rv.1))
    (hP : ∀ rv ∈ io_reset_values, ∀ m, (B.spi_reset m).mem (H.addr rv.1) = m.mem (H.addr rv.1))
    (r : Reg) (v : Nat) (h : (r, v) ∈ io_reset_values) :
    (io_reset H B s).io.mem (H.addr r) = v := by
  rw [io_reset_io, hP (r, v) h, hU (r, v) h]
  exact reset_mem_value H hd _ r v h

theorem refHeader_resetAddrsDistinct : refHeader.ResetAddrsDistinct :=
  nodup_of_sort_ascending _ (by decide!)

/-- `io_reset` leaves a register outside its table as it was, when the
collaborator resets do. -/
theorem io_reset_other {β : Type} (H : Header) (B : Backend β) (s : State β) (a : Nat)
    (ha : a ∉ io_reset_values.map (fun rv => H.addr rv.1))
    (hU : ∀ m, (B.uart_reset m).mem a = m.mem a)
    (hP : ∀ m, (B.spi_reset m).mem a = m.mem a) :
    (io_reset H B s).io.mem a = s.io.mem a := by
  rw [io_reset_io, hP, hU]
  exact foldl_store_not_mem H io_reset_values s.io.mem a ha

set_option maxRecDepth 100000 in
/-- C12 (code evaluated at a failing input): `io_reset` from `dirtyState`
leaves `INTCON = 1`, `IFS0 = 0x294`, `IEC0 = 0xFFFFFFFF`, `IPC1 = 0x14`,
`PRECON = 0x12` and `PRESTAT = 0x34` as they were, while from the all-zero
state these registers are 0 after `io_reset`: the register files after the
reset differ with the state before it. -/
theorem io_reset_keeps_interrupt_registers_example :
    (io_reset refHeader nullBackend dirtyState).io.mem (refHeader.addr .INTCON) = 1 ∧
    (io_reset refHeader nullBackend dirtyState).io.mem (refHeader.addr (.IFS 0)) = 0x294 ∧
    (io_reset refHeader nullBackend dirtyState).io.mem (refHeader.addr (.IEC 0)) = 0xFFFFFFFF ∧
    (io_reset refHeader nullBackend dirtyState).io.mem (refHeader.addr (.IPC 1)) = 0x14 ∧
    (io_reset refHeader nullBackend dirtyState).io.mem (refHeader.addr .PRECON) = 0x12 ∧
    (io_reset refHeader nullBackend dirtyState).io.mem (refHeader.addr .PRESTAT) = 0x34 ∧
    (io_reset refHeader nullBackend zeroState).io.mem (refHeader.addr .INTCON) = 0 ∧
    (io_reset refHeader nullBackend zeroState).io.mem (refHeader.addr (.IFS 0)) = 0 ∧
    (io_reset refHeader nullBackend zeroState).io.mem (refHeader.addr (.IEC 0)) = 0 ∧
    (io_reset refHeader nullBackend zeroState).io.mem (refHeader.addr (.IPC 1)) = 0 ∧
    (io_reset refHeader nullBackend zeroState).io.mem (refHeader.addr .PRECON) = 0 ∧
    (io_reset refHeader nullBackend zeroState).io.mem (refHeader.addr .PRESTAT) = 0 := by
  have k : ∀ (s : State Unit) (a : Nat),
      a ∉ io_reset_values.map (fun rv => refHeader.addr rv.1) →
      (io_reset refHeader nullBackend s).io.mem a = s.io.mem a :=
    fun s a ha => io_reset_other refHeader nullBackend s a ha (fun _ => rfl) (fun _ => rfl)
  refine ⟨(k _ _ (by decide)).trans (by decide), (k _ _ (by decide)).trans (by decide),
    (k _ _ (by decide)).trans (by decide), (k _ _ (by decide)).trans (by decide),
    (k _ _ (by decide)).trans (by decide), (k _ _ (by decide)).trans (by decide),
    (k _ _ (by decide)).trans rfl, (k _ _ (by decide)).trans rfl,
    (k _ _ (by decide)).trans rfl, (k _ _ (by decide)).trans rfl,
    (k _ _ (by decide)).trans rfl, (k _ _ (by decide)).trans rfl⟩

/-- C13: after `io_reset` from any state `OSCCON = 0x01453320`,
`DEVID = 0x04307053`, `CHECON = 7`, `OSCTUN = SYSKEY = RCON = RSWRST = 0`, the
sequencer is Locked, and for every GPIO bank `TRISx = PORTx = LATx = 0xFFFF`
and the six other registers of the bank are 0 (the registers assigned by
`io_reset` having distinct addresses, and `uart_reset` and `spi_reset` leaving
them alone). -/
theorem io_reset_power_up {β : Type} (H : Header) (B : Backend β) (s : State β)
    (hd : H.ResetAddrsDistinct)
    (hU : ∀ rv ∈ io_reset_values, ∀ m, (B.uart_reset m).mem (H.addr rv.1) = m.mem (H.addr rv.1))
    (hP : ∀ rv ∈ io_reset_values, ∀ m, (B.spi_reset m).mem (H.addr rv.1) = m.mem (H.addr rv.1)) :
    (io_reset H B s).io.mem (H.addr .OSCCON) = 0x01453320 ∧
    (io_reset H B s).io.mem (H.addr .DEVID) = 0x04307053 ∧
    (io_reset H B s).io.mem (H.addr .CHECON) = 0x00000007 ∧
    (io_reset H B s).io.mem (H.addr .OSCTUN) = 0 ∧
    (io_reset H B s).io.mem (H.addr .SYSKEY) = 0 ∧
    (io_reset H B s).io.mem (H.addr .RCON) = 0 ∧
    (io_reset H B s).io.mem (H.addr .RSWRST) = 0 ∧
    (io_reset H B s).syskey_unlock = 0 ∧
    ∀ p, p < 7 →
      (io_reset H B s).io.mem (H.addr (.TRIS p)) = 0xFFFF ∧
      (io_reset H B s).io.mem (H.addr (.PORT p)) = 0xFFFF ∧
      (io_reset H B s).io.mem (H.addr (.LAT p)) = 0xFFFF ∧
      (io_reset H B s).io.mem (H.addr (.ODC p)) = 0 ∧
      (io_reset H B s).io.mem (H.addr (.CNPU p)) = 0 ∧
      (io_reset H B s).io.mem (H.addr (.CNPD p)) = 0 ∧
      (io_reset H B s).io.mem (H.addr (.CNCON p)) = 0 ∧
      (io_reset H B s).io.mem (H.addr (.CNEN p)) = 0 ∧
      (io_reset H B s).io.mem (H.addr (.CNSTAT p)) = 0 := by
  have k := io_reset_value H B s hd hU hP
  refine ⟨k _ _ (by simp [io_reset_values]), k _ _ (by simp [io_reset_values]),
    k _ _ (by simp [io_reset_values]), k _ _ (by simp [io_reset_values]),
    k _ _ (by simp [io_reset_values]), k _ _ (by simp [io_reset_values]),
    k _ _ (by simp [io_reset_values]), rfl, ?_⟩
  intro p hp
  have g := fun rv h => mem_io_reset_values_gpio p hp rv h
  refine ⟨k _ _ (g _ (by simp)), k _ _ (g _ (by simp)), k _ _ (g _ (by simp)),
    k _ _ (g _ (by simp)), k _ _ (g _ (by simp)), k _ _ (g _ (by simp)),
    k _ _ (g _ (by simp)), k _ _ (g _ (by simp)), k _ _ (g _ (by simp))⟩

/-- Witness for C13: `io_reset` from the state `dirtyState`. -/
theorem io_reset_power_up_witness :
    (io_reset refHeader nullBackend dirtyState).io.mem (refHeader.addr .OSCCON) = 0x01453320 ∧
    (io_reset refHeader nullBackend dirtyState).io.mem (refHeader.addr .DEVID) = 0x04307053 ∧
    (io_reset refHeader nullBackend dirtyState).io.mem (refHeader.addr .CHECON) = 0x00000007 ∧
    (io_reset refHeader nullBackend dirtyState).io.mem (refHeader.addr .OSCTUN) = 0 ∧
    (io_reset refHeader nullBackend dirtyState).io.mem (refHeader.addr .SYSKEY) = 0 ∧
    (io_reset refHeader nullBackend dirtyState).io.mem (refHeader.addr .RCON) = 0 ∧
    (io_reset refHeader nullBackend dirtyState).io.mem (refHeader.addr .RSWRST) = 0 ∧
    (io_reset refHeader nullBackend dirtyState).syskey_unlock = 0 ∧
    ∀ p, p < 7 →
      (io_reset refHeader nullBackend dirtyState).io.mem (refHeader.addr (.TRIS p)) = 0xFFFF ∧
      (io_reset refHeader nullBackend dirtyState).io.mem (refHeader.addr (.PORT p)) = 0xFFFF ∧
      (io_reset refHeader nullBackend dirtyState).io.mem (refHeader.addr (.LAT p)) = 0xFFFF ∧
      (io_reset refHeader nullBackend dirtyState).io.mem (refHeader.addr (.ODC p)) = 0 ∧
      (io_reset refHeader nullBackend dirtyState).io.mem (refHeader.addr (.CNPU p)) = 0 ∧
      (io_reset refHeader nullBackend dirtyState).io.mem (refHeader.addr (.CNPD p)) = 0 ∧
      (io_reset refHeader nullBackend dirtyState).io.mem (refHeader.addr (.CNCON p)) = 0 ∧
      (io_reset refHeader nullBackend dirtyState).io.mem (refHeader.addr (.CNEN p)) = 0 ∧
      (io_reset refHeader nullBackend dirtyState).io.mem (refHeader.addr (.CNSTAT p)) = 0 :=
  io_reset_power_up refHeader nullBackend dirtyState refHeader_resetAddrsDistinct
    (fun _ _ _ => rfl) (fun _ _ _ => rfl)

/-- A second run of the assignments of `io_reset` changes nothing in a file
whose assigned slots still hold what the first run left. -/
theorem reset_mem_fixed (H : Header) (m m1 : Nat → Nat)
    (h : ∀ rv ∈ io_reset_values, m1 (H.addr rv.1) = reset_mem H m (H.addr rv.1)) :
    reset_mem H m1 = m1 := by
  funext a
  by_cases ha : a ∈ io_reset_values.map (fun rv => H.addr rv.1)
  · obtain ⟨rv, hrv, rfl⟩ := List.mem_map.mp ha
    rw [h rv hrv]
    exact foldl_store_indep H io_reset_values m1 m _ ha
  · exact foldl_store_not_mem H io_reset_values m1 a ha

/-- C14: `io_reset(); io_reset()` leaves the same register file, collaborator
state and sequencer state as a single `io_reset()`, when `uart_reset` and
`spi_reset` are idempotent, independent of each other, and leave the
registers that `io_reset` assigns alone. -/
theorem io_reset_idempotent {β : Type} (H : Header) (B : Backend β) (s : State β)
    (hUU : ∀ m, B.uart_reset (B.uart_reset m) = B.uart_reset m)
    (hPP : ∀ m, B.spi_reset (B.spi_reset m) = B.spi_reset m)
    (hUP : ∀ m, B.uart_reset (B.spi_reset m) = B.spi_reset (B.uart_reset m))
    (hU : ∀ rv ∈ io_reset_values, ∀ m, (B.uart_reset m).mem (H.addr rv.1) = m.mem (H.addr rv.1))
    (hP : ∀ rv ∈ io_reset_values, ∀ m, (B.spi_reset m).mem (H.addr rv.1) = m.mem (H.addr rv.1)) :
    (io_reset H B (io_reset H B s)).io = (io_reset H B s).io ∧
    (io_reset H B (io_reset H B s)).syskey_unlock = (io_reset H B s).syskey_unlock := by
  refine ⟨?_, by rw [io_reset_syskey_unlock, io_reset_syskey_unlock]⟩
  rw [io_reset_io H B (io_reset H B s), io_reset_io H B s]
  have hfix : reset_mem H
      (B.spi_reset (B.uart_reset { mem := reset_mem H s.io.mem, ext := s.io.ext })).mem =
      (B.spi_reset (B.uart_reset { mem := reset_mem H s.io.mem, ext := s.io.ext })).mem := by
    apply reset_mem_fixed H s.io.mem
    intro rv hrv
    rw [hP rv hrv, hU rv hrv]
  rw [hfix, hUP, hPP, hUU]

/-- Witness for C14: two resets from `dirtyState` with collaborators that do
nothing. -/
theorem io_reset_idempotent_witness :
    (io_reset refHeader nullBackend (io_reset refHeader nullBackend dirtyState)).io =
      (io_reset refHeader nullBackend dirtyState).io ∧
    (io_reset refHeader nullBackend (io_reset refHeader nullBackend dirtyState)).syskey_unlock =
      (io_reset refHeader nullBackend dirtyState).syskey_unlock :=
  io_reset_idempotent refHeader nullBackend dirtyState (fun _ => rfl) (fun _ => rfl)
    (fun _ => rfl) (fun _ _ _ => rfl) (fun _ _ _ => rfl)


/-! ## Raising and clearing interrupt flags -/

/-- The flag test of `irq_raise` and `irq_clear` is the test of one bit. -/
theorem and_one_shiftLeft_ne_zero (x k : Nat) : x &&& (1 <<< k) ≠ 0 ↔ x.testBit k = true := by
  rw [Nat.one_shiftLeft]
  constructor
  · intro h
    by_contra hb
    apply h
    apply Nat.eq_of_testBit_eq
    intro j
    rw [Nat.testBit_and, Nat.testBit_two_pow, Nat.zero_testBit]
    by_cases hj : k = j
    · subst hj; simp [hb]
    · simp [hj]
  · intro hb h
    have : (x &&& 2 ^ k).testBit k = true := by
      rw [Nat.testBit_and, hb, Nat.testBit_two_pow_self]; rfl
    rw [h, Nat.zero_testBit] at this
    cases this

/-- Setting bit `k`. -/
theorem testBit_or_bit (x k j : Nat) :
    (x ||| (1 <<< k)).testBit j = (x.testBit j || decide (j = k)) := by
  rw [Nat.one_shiftLeft, Nat.testBit_or, Nat.testBit_two_pow]
  congr 1
  by_cases h : k = j
  · simp [h]
  · have h2 : ¬ j = k := fun e => h e.symm
    simp [h, h2]

/-- Clearing bit `k` of a 32-bit word, seen on bits 0..31. -/
theorem testBit_and_not_bit (x k j : Nat) (hj : j < 32) :
    (x &&& (0xFFFFFFFF ^^^ (1 <<< k))).testBit j = (x.testBit j && decide (j ≠ k)) := by
  have hones : Nat.testBit 4294967295 j = decide (j < 32) := by
    have h := Nat.testBit_two_pow_sub_one 32 j
    norm_num at h
    exact h
  rw [Nat.one_shiftLeft, Nat.testBit_and, Nat.testBit_xor, hones, Nat.testBit_two_pow]
  congr 1
  by_cases h : k = j
  · simp [h, hj]
  · have h2 : ¬ j = k := fun e => h e.symm
    simp [h, h2, hj]

/-- The case labels of the `IEC` registers are case labels of `io_write32`. -/
theorem mem_writeCases_IEC (H : Header) (n : Nat) (hn : n < 6) (c : WCase)
    (hc : c ∈ WRITEOP H (.IEC n) .irq) : c ∈ writeCases H := by
  unfold writeCases
  simp only [List.mem_append, List.mem_flatMap, List.mem_range]
  repeat (first | exact Or.inr ⟨n, hn, hc⟩ | apply Or.inl)

/-- The case labels of the `IPC` registers are case labels of `io_write32`. -/
theorem mem_writeCases_IPC (H : Header) (n : Nat) (hn : n < 48) (c : WCase)
    (hc : c ∈ WRITEOP H (.IPC n) .irq) : c ∈ writeCases H := by
  unfold writeCases
  simp only [List.mem_append, List.mem_flatMap, List.mem_range]
  repeat (first | exact Or.inr ⟨n, hn, hc⟩ | apply Or.inl)

/-- The base label of a `WRITEOP` group belongs to the group. -/
theorem base_mem_WRITEOP (H : Header) (r : Reg) (t : WTail) :
    (⟨H.addr r, r.name, .op r t⟩ : WCase) ∈ WRITEOP H r t := by
  simp [WRITEOP, aliasGroup]

/-- With distinct labels, the registers of two different `WRITEOP` groups
have different addresses. -/
theorem addr_ne_of_op {H : Header} (hd : H.WriteLabelsDistinct) {r r1 : Reg} {t t1 : WTail}
    {nm nm1 : String} (h : (⟨H.addr r, nm, .op r t⟩ : WCase) ∈ writeCases H)
    (h1 : (⟨H.addr r1, nm1, .op r1 t1⟩ : WCase) ∈ writeCases H) (hne : r ≠ r1) :
    H.addr r ≠ H.addr r1 := by
  intro e
  have := case_unique (fun x : WCase => x.label) (writeCases H) hd _ _ h h1 e
  simp only [WCase.mk.injEq, WBody.op.injEq] at this
  exact hne this.2.2.1

/-- With distinct labels, the register of a `WRITEOP` group is not at the
address of `INTSTAT`. -/
theorem addr_ne_INTSTAT_of_op {H : Header} (hd : H.WriteLabelsDistinct) {r : Reg} {t : WTail}
    {nm : String} (h : (⟨H.addr r, nm, .op r t⟩ : WCase) ∈ writeCases H) :
    H.addr r ≠ H.addr .INTSTAT := by
  intro e
  have h2 : (⟨H.addr .INTSTAT, Reg.name .INTSTAT, .readonly⟩ : WCase) ∈ writeCases H := by
    simp [writeCases, READONLY]
  have := case_unique (fun x : WCase => x.label) (writeCases H) hd _ _ h h2 e
  simp at this

theorem base_IFS (H : Header) (n : Nat) (hn : n < 6) :
    (⟨H.addr (.IFS n), (Reg.IFS n).name, .op (.IFS n) .irq⟩ : WCase) ∈ writeCases H :=
  mem_writeCases_IFS H n hn _ (base_mem_WRITEOP H _ _)

theorem base_IEC (H : Header) (n : Nat) (hn : n < 6) :
    (⟨H.addr (.IEC n), (Reg.IEC n).name, .op (.IEC n) .irq⟩ : WCase) ∈ writeCases H :=
  mem_writeCases_IEC H n hn _ (base_mem_WRITEOP H _ _)

theorem base_IPC (H : Header) (n : Nat) (hn : n < 48) :
    (⟨H.addr (.IPC n), (Reg.IPC n).name, .op (.IPC n) .irq⟩ : WCase) ∈ writeCases H :=
  mem_writeCases_IPC H n hn _ (base_mem_WRITEOP H _ _)

/-- A source index up to 191 lies in one of the flag registers `IFS0..IFS5`. -/
theorem shift5_lt (i : Nat) (h : i ≤ 191) : i >>> 5 < 6 := by
  rw [Nat.shiftRight_eq_div_pow]
  omega

/-- `update_irq_status` makes one notification. -/
theorem update_irq_status_trace {β : Type} (H : Header) (B : Backend β) (s : State β) :
    ∃ level vector,
      (update_irq_status H B s).trace = s.trace ++ [Call.eic_level_vector level vector] := by
  unfold update_irq_status
  simp only []
  split_ifs
  · exact ⟨_, _, rfl⟩
  · exact ⟨_, _, rfl⟩

/-- With all of `IFS0..IFS5` zero `update_irq_status` notifies `(0, 0)` and
leaves `INTSTAT = 0`. -/
theorem update_irq_status_idle {β : Type} (H : Header) (B : Backend β) (s : State β)
    (h : ∀ n, n < 6 → s.io.mem (H.addr (.IFS n)) = 0) :
    (update_irq_status H B s).io.mem (H.addr .INTSTAT) = 0 ∧
    (update_irq_status H B s).trace = s.trace ++ [Call.eic_level_vector 0 0] := by
  have hz : ∀ n, n < 6 → store s.io.mem (H.addr .INTSTAT) 0 (H.addr (.IFS n)) = 0 := by
    intro n hn
    unfold store
    split_ifs
    · rfl
    · exact h n hn
  have hany : irq_any H (store s.io.mem (H.addr .INTSTAT) 0) = false := by
    unfold irq_any
    rw [hz 0 (by omega), hz 1 (by omega), hz 2 (by omega), hz 3 (by omega), hz 4 (by omega),
      hz 5 (by omega)]
    simp
  constructor
  · simp [update_irq_status, State.set, State.hookExt, hany, store_same]
  · simp [update_irq_status, State.set, State.hookExt, hany]

/-- What a changed flag register and the recomputation that follows leave
alone: the other flag registers, the enable and priority registers, and the
sequencer state; the flag register itself keeps the stored value. -/
theorem flag_update_frame {β : Type} (H : Header) (B : Backend β) (s : State β)
    (hd : H.WriteLabelsDistinct) (n0 : Nat) (hn0 : n0 < 6) (w : Nat) :
    (update_irq_status H B (s.set (H.addr (.IFS n0)) w)).io.mem (H.addr (.IFS n0)) = w ∧
    (∀ n, n < 6 → n ≠ n0 →
      (update_irq_status H B (s.set (H.addr (.IFS n0)) w)).io.mem (H.addr (.IFS n)) =
        s.io.mem (H.addr (.IFS n))) ∧
    (∀ n, n < 6 →
      (update_irq_status H B (s.set (H.addr (.IFS n0)) w)).io.mem (H.addr (.IEC n)) =
        s.io.mem (H.addr (.IEC n))) ∧
    (∀ n, n < 48 →
      (update_irq_status H B (s.set (H.addr (.IFS n0)) w)).io.mem (H.addr (.IPC n)) =
        s.io.mem (H.addr (.IPC n))) ∧
    (update_irq_status H B (s.set (H.addr (.IFS n0)) w)).syskey_unlock = s.syskey_unlock := by
  have b0 := base_IFS H n0 hn0
  refine ⟨?_, ?_, ?_, ?_, ?_⟩
  · rw [update_irq_status_mem_other H B _ _ (addr_ne_INTSTAT_of_op hd b0), set_mem, store_same]
  · intro n hn hne
    have b := base_IFS H n hn
    rw [update_irq_status_mem_other H B _ _ (addr_ne_INTSTAT_of_op hd b), set_mem,
      store_other _ _ _ _ (addr_ne_of_op hd b b0 (by simpa using hne))]
  · intro n hn
    have b := base_IEC H n hn
    rw [update_irq_status_mem_other H B _ _ (addr_ne_INTSTAT_of_op hd b), set_mem,
      store_other _ _ _ _ (addr_ne_of_op hd b b0 (by simp))]
  · intro n hn
    have b := base_IPC H n hn
    rw [update_irq_status_mem_other H B _ _ (addr_ne_INTSTAT_of_op hd b), set_mem,
      store_other _ _ _ _ (addr_ne_of_op hd b b0 (by simp))]
  · rw [update_irq_status_syskey_unlock, set_syskey_unlock]

/-- C16: for a source `i` in `0..PIC32_IRQ_LAST` whose flag bit is clear,
`irq_raise(i)` stores the flag register with that bit set and then runs
`update_irq_status`: afterwards the register has exactly that bit more, every
other flag register and every enable and priority register is unchanged, and
one notification was made; when the bit is set already, `irq_raise(i)`
returns the state unchanged. -/
theorem irq_raise_frame {β : Type} (H : Header) (B : Backend β) (s : State β) (i : Nat)
    (hd : H.WriteLabelsDistinct) (hlast : H.PIC32_IRQ_LAST ≤ 191)
    (hi : i ≤ H.PIC32_IRQ_LAST) :
    ((s.io.mem (H.addr (.IFS (i >>> 5)))).testBit (i &&& 31) = false →
      irq_raise H B s i =
        update_irq_status H B (s.set (H.addr (.IFS (i >>> 5)))
          (s.io.mem (H.addr (.IFS (i >>> 5))) ||| (1 <<< (i &&& 31)))) ∧
      (∀ j, ((irq_raise H B s i).io.mem (H.addr (.IFS (i >>> 5)))).testBit j =
        ((s.io.mem (H.addr (.IFS (i >>> 5)))).testBit j || decide (j = i &&& 31))) ∧
      (∀ n, n < 6 → n ≠ i >>> 5 →
        (irq_raise H B s i).io.mem (H.addr (.IFS n)) = s.io.mem (H.addr (.IFS n))) ∧
      (∀ n, n < 6 →
        (irq_raise H B s i).io.mem (H.addr (.IEC n)) = s.io.mem (H.addr (.IEC n))) ∧
      (∀ n, n < 48 →
        (irq_raise H B s i).io.mem (H.addr (.IPC n)) = s.io.mem (H.addr (.IPC n))) ∧
      (irq_raise H B s i).syskey_unlock = s.syskey_unlock ∧
      ∃ level vector,
        (irq_raise H B s i).trace = s.trace ++ [Call.eic_level_vector level vector]) ∧
    ((s.io.mem (H.addr (.IFS (i >>> 5)))).testBit (i &&& 31) = true →
      irq_raise H B s i = s) := by
  have hn0 : i >>> 5 < 6 := shift5_lt i (le_trans hi hlast)
  constructor
  · intro hb
    have hc : ¬ s.io.mem (H.addr (.IFS (i >>> 5))) &&& (1 <<< (i &&& 31)) ≠ 0 := by
      rw [and_one_shiftLeft_ne_zero, hb]
      simp
    have e : irq_raise H B s i =
        update_irq_status H B (s.set (H.addr (.IFS (i >>> 5)))
          (s.io.mem (H.addr (.IFS (i >>> 5))) ||| (1 <<< (i &&& 31)))) := by
      unfold irq_raise
      simp only []
      rw [if_neg hc]
    obtain ⟨f1, f2, f3, f4, f5⟩ := flag_update_frame H B s hd (i >>> 5) hn0
      (s.io.mem (H.addr (.IFS (i >>> 5))) ||| (1 <<< (i &&& 31)))
    refine ⟨e, ?_, ?_, ?_, ?_, ?_, ?_⟩
    · intro j
      rw [e, f1, testBit_or_bit]
    · intro n hn hne
      rw [e, f2 n hn hne]
    · intro n hn
      rw [e, f3 n hn]
    · intro n hn
      rw [e, f4 n hn]
    · rw [e, f5]
    · rw [e]
      exact update_irq_status_trace H B _
  · intro hb
    have hc : s.io.mem (H.addr (.IFS (i >>> 5))) &&& (1 <<< (i &&& 31)) ≠ 0 :=
      (and_one_shiftLeft_ne_zero _ _).mpr hb
    unfold irq_raise
    simp only []
    rw [if_pos hc]

/-- C17: for a source `i` in `0..PIC32_IRQ_LAST` whose flag bit is set,
`irq_clear(i)` stores the flag register with that bit cleared and then runs
`update_irq_status`: afterwards the register has exactly that bit less, every
other flag register and every enable and priority register is unchanged, and
one notification was made; when the bit is clear already, `irq_clear(i)`
returns the state unchanged. -/
theorem irq_clear_frame {β : Type} (H : Header) (B : Backend β) (s : State β) (i : Nat)
    (hd : H.WriteLabelsDistinct) (hlast : H.PIC32_IRQ_LAST ≤ 191)
    (hi : i ≤ H.PIC32_IRQ_LAST) :
    ((s.io.mem (H.addr (.IFS (i >>> 5)))).testBit (i &&& 31) = true →
      irq_clear H B s i =
        update_irq_status H B (s.set (H.addr (.IFS (i >>> 5)))
          (s.io.mem (H.addr (.IFS (i >>> 5))) &&& (0xFFFFFFFF ^^^ (1 <<< (i &&& 31))))) ∧
      (∀ j, j < 32 → ((irq_clear H B s i).io.mem (H.addr (.IFS (i >>> 5)))).testBit j =
        ((s.io.mem (H.addr (.IFS (i >>> 5)))).testBit j && decide (j ≠ i &&& 31))) ∧
      (∀ n, n < 6 → n ≠ i >>> 5 →
        (irq_clear H B s i).io.mem (H.addr (.IFS n)) = s.io.mem (H.addr (.IFS n))) ∧
      (∀ n, n < 6 →
        (irq_clear H B s i).io.mem (H.addr (.IEC n)) = s.io.mem (H.addr (.IEC n))) ∧
      (∀ n, n < 48 →
        (irq_clear H B s i).io.mem (H.addr (.IPC n)) = s.io.mem (H.addr (.IPC n))) ∧
      (irq_clear H B s i).syskey_unlock = s.syskey_unlock ∧
      ∃ level vector,
        (irq_clear H B s i).trace = s.trace ++ [Call.eic_level_vector level vector]) ∧
    ((s.io.mem (H.addr (.IFS (i >>> 5)))).testBit (i &&& 31) = false →
      irq_clear H B s i = s) := by
  have hn0 : i >>> 5 < 6 := shift5_lt i (le_trans hi hlast)
  constructor
  · intro hb
    have hc : ¬ s.io.mem (H.addr (.IFS (i >>> 5))) &&& (1 <<< (i &&& 31)) = 0 :=
      (and_one_shiftLeft_ne_zero _ _).mpr hb
    have e : irq_clear H B s i =
        update_irq_status H B (s.set (H.addr (.IFS (i >>> 5)))
          (s.io.mem (H.addr (.IFS (i >>> 5))) &&& (0xFFFFFFFF ^^^ (1 <<< (i &&& 31))))) := by
      unfold irq_clear
      simp only []
      rw [if_neg hc]
    obtain ⟨f1, f2, f3, f4, f5⟩ := flag_update_frame H B s hd (i >>> 5) hn0
      (s.io.mem (H.addr (.IFS (i >>> 5))) &&& (0xFFFFFFFF ^^^ (1 <<< (i &&& 31))))
    refine ⟨e, ?_, ?_, ?_, ?_, ?_, ?_⟩
    · intro j hj
      rw [e, f1, testBit_and_not_bit _ _ _ hj]
    · intro n hn hne
      rw [e, f2 n hn hne]
    · intro n hn
      rw [e, f3 n hn]
    · intro n hn
      rw [e, f4 n hn]
    · rw [e, f5]
    · rw [e]
      exact update_irq_status_trace H B _
  · intro hb
    have hc : s.io.mem (H.addr (.IFS (i >>> 5))) &&& (1 <<< (i &&& 31)) = 0 := by
      by_contra hne
      rw [(and_one_shiftLeft_ne_zero _ _).mp hne] at hb
      cases hb
    unfold irq_clear
    simp only []
    rw [if_pos hc]

/-- Witness for C16: source 4 raised in the all-zero state. -/
theorem irq_raise_frame_witness :
    ((zeroState.io.mem (refHeader.addr (.IFS (4 >>> 5)))).testBit (4 &&& 31) = false →
      irq_raise refHeader nullBackend zeroState 4 =
        update_irq_status refHeader nullBackend (zeroState.set (refHeader.addr (.IFS (4 >>> 5)))
          (zeroState.io.mem (refHeader.addr (.IFS (4 >>> 5))) ||| (1 <<< (4 &&& 31)))) ∧
      (∀ j, ((irq_raise refHeader nullBackend zeroState 4).io.mem
          (refHeader.addr (.IFS (4 >>> 5)))).testBit j =
        ((zeroState.io.mem (refHeader.addr (.IFS (4 >>> 5)))).testBit j ||
          decide (j = 4 &&& 31))) ∧
      (∀ n, n < 6 → n ≠ 4 >>> 5 →
        (irq_raise refHeader nullBackend zeroState 4).io.mem (refHeader.addr (.IFS n)) =
          zeroState.io.mem (refHeader.addr (.IFS n))) ∧
      (∀ n, n < 6 →
        (irq_raise refHeader nullBackend zeroState 4).io.mem (refHeader.addr (.IEC n)) =
          zeroState.io.mem (refHeader.addr (.IEC n))) ∧
      (∀ n, n < 48 →
        (irq_raise refHeader nullBackend zeroState 4).io.mem (refHeader.addr (.IPC n)) =
          zeroState.io.mem (refHeader.addr (.IPC n))) ∧
      (irq_raise refHeader nullBackend zeroState 4).syskey_unlock = zeroState.syskey_unlock ∧
      ∃ level vector,
        (irq_raise refHeader nullBackend zeroState 4).trace =
          zeroState.trace ++ [Call.eic_level_vector level vector]) ∧
    ((zeroState.io.mem (refHeader.addr (.IFS (4 >>> 5)))).testBit (4 &&& 31) = true →
      irq_raise refHeader nullBackend zeroState 4 = zeroState) :=
  irq_raise_frame refHeader nullBackend zeroState 4 refHeader_writeLabelsDistinct
    (by decide) (by decide)

/-- Witness for C17: source 4 cleared in the state where it is pending. -/
theorem irq_clear_frame_witness :
    ((tieState.io.mem (refHeader.addr (.IFS (4 >>> 5)))).testBit (4 &&& 31) = true →
      irq_clear refHeader nullBackend tieState 4 =
        update_irq_status refHeader nullBackend (tieState.set (refHeader.addr (.IFS (4 >>> 5)))
          (tieState.io.mem (refHeader.addr (.IFS (4 >>> 5))) &&&
            (0xFFFFFFFF ^^^ (1 <<< (4 &&& 31))))) ∧
      (∀ j, j < 32 → ((irq_clear refHeader nullBackend tieState 4).io.mem
          (refHeader.addr (.IFS (4 >>> 5)))).testBit j =
        ((tieState.io.mem (refHeader.addr (.IFS (4 >>> 5)))).testBit j &&
          decide (j ≠ 4 &&& 31))) ∧
      (∀ n, n < 6 → n ≠ 4 >>> 5 →
        (irq_clear refHeader nullBackend tieState 4).io.mem (refHeader.addr (.IFS n)) =
          tieState.io.mem (refHeader.addr (.IFS n))) ∧
      (∀ n, n < 6 →
        (irq_clear refHeader nullBackend tieState 4).io.mem (refHeader.addr (.IEC n)) =
          tieState.io.mem (refHeader.addr (.IEC n))) ∧
      (∀ n, n < 48 →
        (irq_clear refHeader nullBackend tieState 4).io.mem (refHeader.addr (.IPC n)) =
          tieState.io.mem (refHeader.addr (.IPC n))) ∧
      (irq_clear refHeader nullBackend tieState 4).syskey_unlock = tieState.syskey_unlock ∧
      ∃ level vector,
        (irq_clear refHeader nullBackend tieState 4).trace =
          tieState.trace ++ [Call.eic_level_vector level vector]) ∧
    ((tieState.io.mem (refHeader.addr (.IFS (4 >>> 5)))).testBit (4 &&& 31) = false →
      irq_clear refHeader nullBackend tieState 4 = tieState) :=
  irq_clear_frame refHeader nullBackend tieState 4 refHeader_writeLabelsDistinct
    (by decide) (by decide)

/-- A word none of whose bits is set is zero. -/
theorem eq_zero_of_testBit (x : Nat) (h : ∀ j, x.testBit j = false) : x = 0 := by
  apply Nat.eq_of_testBit_eq
  intro j
  rw [h j, Nat.zero_testBit]

/-- A flag register in which at most bit `k` is set is zero once bit `k` is
cleared, whether or not the bit was set before. -/
theorem clear_only_bit (x y k : Nat) (hk : k < 32)
    (hy : ∀ j, y.testBit j = true → x.testBit j = true ∨ j = k)
    (hx : ∀ j, j ≠ k → x.testBit j = false) :
    y &&& (0xFFFFFFFF ^^^ (1 <<< k)) = 0 := by
  apply eq_zero_of_testBit
  intro j
  have hones : Nat.testBit 4294967295 j = decide (j < 32) := by
    have h := Nat.testBit_two_pow_sub_one 32 j
    norm_num at h
    exact h
  rw [Nat.one_shiftLeft, Nat.testBit_and, Nat.testBit_xor, hones, Nat.testBit_two_pow]
  by_cases hjk : j = k
  · subst hjk
    simp [hk]
  · have hyj : y.testBit j = false := by
      by_contra hne
      have ht : y.testBit j = true := by simpa using hne
      rcases hy j ht with h1 | h1
      · rw [hx j hjk] at h1; cases h1
      · exact hjk h1
    simp [hyj]

/-- After `irq_raise(i)` the flag bit of `i` is set, its register has no
other new bit, and the other flag registers are as before. -/
theorem irq_raise_frame_aux {β : Type} (H : Header) (B : Backend β) (s : State β) (i : Nat)
    (hd : H.WriteLabelsDistinct) (hn0 : i >>> 5 < 6) :
    ((irq_raise H B s i).io.mem (H.addr (.IFS (i >>> 5)))).testBit (i &&& 31) = true ∧
    (∀ j, ((irq_raise H B s i).io.mem (H.addr (.IFS (i >>> 5)))).testBit j = true →
      (s.io.mem (H.addr (.IFS (i >>> 5)))).testBit j = true ∨ j = i &&& 31) ∧
    (∀ n, n < 6 → n ≠ i >>> 5 →
      (irq_raise H B s i).io.mem (H.addr (.IFS n)) = s.io.mem (H.addr (.IFS n))) := by
  by_cases hb : (s.io.mem (H.addr (.IFS (i >>> 5)))).testBit (i &&& 31) = true
  · have e : irq_raise H B s i = s := by
      unfold irq_raise
      simp only []
      rw [if_pos ((and_one_shiftLeft_ne_zero _ _).mpr hb)]
    rw [e]
    exact ⟨hb, fun j hj => Or.inl hj, fun _ _ _ => rfl⟩
  · have hc : ¬ s.io.mem (H.addr (.IFS (i >>> 5))) &&& (1 <<< (i &&& 31)) ≠ 0 := by
      rw [and_one_shiftLeft_ne_zero]
      exact hb
    have e : irq_raise H B s i =
        update_irq_status H B (s.set (H.addr (.IFS (i >>> 5)))
          (s.io.mem (H.addr (.IFS (i >>> 5))) ||| (1 <<< (i &&& 31)))) := by
      unfold irq_raise
      simp only []
      rw [if_neg hc]
    obtain ⟨f1, f2, _, _, _⟩ := flag_update_frame H B s hd (i >>> 5) hn0
      (s.io.mem (H.addr (.IFS (i >>> 5))) ||| (1 <<< (i &&& 31)))
    rw [e, f1]
    refine ⟨by rw [testBit_or_bit]; simp, ?_, f2⟩
    intro j hj
    rw [testBit_or_bit, Bool.or_eq_true, decide_eq_true_eq] at hj
    exact hj

/-- C18: for a source `i` in `0..PIC32_IRQ_LAST` and a state in which no flag
bit of `IFS0..IFS5` other than that of source `i` is set, `irq_raise(i)`
followed by `irq_clear(i)` ends with `INTSTAT = 0` and with the notification
`(level 0, vector 0)` as the last call, whatever the enable and priority
registers hold. -/
theorem raise_then_clear {β : Type} (H : Header) (B : Backend β) (s : State β) (i : Nat)
    (hd : H.WriteLabelsDistinct) (hlast : H.PIC32_IRQ_LAST ≤ 191)
    (hi : i ≤ H.PIC32_IRQ_LAST)
    (hnone : ∀ n, n < 6 → ∀ j, (n ≠ i >>> 5 ∨ j ≠ i &&& 31) →
      (s.io.mem (H.addr (.IFS n))).testBit j = false) :
    (irq_clear H B (irq_raise H B s i) i).io.mem (H.addr .INTSTAT) = 0 ∧
    ∃ pre, (irq_clear H B (irq_raise H B s i) i).trace =
      pre ++ [Call.eic_level_vector 0 0] := by
  have hn0 : i >>> 5 < 6 := shift5_lt i (le_trans hi hlast)
  have hk : i &&& 31 < 32 := lt_of_le_of_lt Nat.and_le_right (by norm_num)
  obtain ⟨r1, r2⟩ := irq_raise_frame_aux H B s i hd hn0
  have hset : ((irq_raise H B s i).io.mem (H.addr (.IFS (i >>> 5)))).testBit (i &&& 31) = true :=
    r1
  have hc : ¬ (irq_raise H B s i).io.mem (H.addr (.IFS (i >>> 5))) &&& (1 <<< (i &&& 31)) = 0 :=
    (and_one_shiftLeft_ne_zero _ _).mpr hset
  have e : irq_clear H B (irq_raise H B s i) i =
      update_irq_status H B ((irq_raise H B s i).set (H.addr (.IFS (i >>> 5)))
        ((irq_raise H B s i).io.mem (H.addr (.IFS (i >>> 5))) &&&
          (0xFFFFFFFF ^^^ (1 <<< (i &&& 31))))) := by
    unfold irq_clear
    simp only []
    rw [if_neg hc]
  have hzero : ∀ n, n < 6 →
      ((irq_raise H B s i).set (H.addr (.IFS (i >>> 5)))
        ((irq_raise H B s i).io.mem (H.addr (.IFS (i >>> 5))) &&&
          (0xFFFFFFFF ^^^ (1 <<< (i &&& 31))))).io.mem (H.addr (.IFS n)) = 0 := by
    intro n hn
    rw [set_mem]
    by_cases hne : n = i >>> 5
    · subst hne
      rw [store_same]
      exact clear_only_bit (s.io.mem (H.addr (.IFS (i >>> 5)))) _ _ hk (r2.1)
        (fun j hj => hnone _ hn0 j (Or.inr hj))
    · rw [store_other _ _ _ _
        (addr_ne_of_op hd (base_IFS H n hn) (base_IFS H _ hn0) (by simpa using hne)),
        r2.2 n hn hne]
      exact eq_zero_of_testBit _ (fun j => hnone n hn j (Or.inl hne))
  obtain ⟨u1, u2⟩ := update_irq_status_idle H B _ hzero
  rw [e]
  exact ⟨u1, _, u2⟩

set_option maxRecDepth 100000 in
/-- Witness for C18: source 40 raised and cleared in the state where it is
the only pending source, enabled, with nonzero priority fields around. -/
theorem raise_then_clear_witness :
    (irq_clear refHeader nullBackend (irq_raise refHeader nullBackend source40State 40) 40).io.mem
        (refHeader.addr .INTSTAT) = 0 ∧
    ∃ pre, (irq_clear refHeader nullBackend
        (irq_raise refHeader nullBackend source40State 40) 40).trace =
      pre ++ [Call.eic_level_vector 0 0] :=
  raise_then_clear refHeader nullBackend source40State 40 refHeader_writeLabelsDistinct
    (by decide) (by decide)
    (by
      intro n hn j hj
      have e0 : ∀ k, k < 6 → k ≠ 1 → source40State.io.mem (refHeader.addr (.IFS k)) = 0 := by
        decide
      have e1 : source40State.io.mem (refHeader.addr (.IFS 1)) = 2 ^ 8 := by decide
      by_cases h1 : n = 1
      · subst h1
        rw [e1, Nat.testBit_two_pow]
        rcases hj with hj | hj
        · exact absurd rfl hj
        · have h8 : 40 &&& 31 = 8 := by decide
          rw [h8] at hj
          simp
          exact fun e => hj e.symm
      · rw [e0 n hn h1]
        exact Nat.zero_testBit j)

/-! ## The arbitration level -/

/-- A property that holds at the start of a fold and is kept by every step
holds at its end. -/
theorem foldl_invariant {α β : Type} (P : α → Prop) (f : α → β → α) :
    ∀ (l : List β) (a : α), P a → (∀ a x, P a → P (f a x)) → P (l.foldl f a)
  | [], _, h, _ => h
  | x :: l, a, h, hs => foldl_invariant P f l (f a x) (hs a x h) hs

/-- The scan keeps `cause_ripl` within 0..7 and `vector` at 0 while
`cause_ripl` is 0. -/
theorem irq_scan_level (H : Header) (mem : Nat → Nat) :
    (irq_scan H mem).1 ≤ 7 ∧ ((irq_scan H mem).1 = 0 → (irq_scan H mem).2 = 0) := by
  unfold irq_scan
  apply foldl_invariant (fun acc : Nat × Nat => acc.1 ≤ 7 ∧ (acc.1 = 0 → acc.2 = 0))
  · exact ⟨Nat.zero_le _, fun _ => rfl⟩
  · intro acc irq hacc
    unfold irq_scan_step
    simp only []
    split_ifs with h1 h2
    · refine ⟨Nat.and_le_right, fun h0 => ?_⟩
      simp only [] at h0
      omega
    · exact hacc
    · exact hacc

/-- C19: the level that `update_irq_status` notifies is within 0..7, and
whenever it is 0 the notified vector is 0 and `INTSTAT` is 0, whatever is
pending and enabled. -/
theorem update_irq_status_level {β : Type} (H : Header) (B : Backend β) (s : State β) :
    ∃ level vector,
      (update_irq_status H B s).trace = s.trace ++ [Call.eic_level_vector level vector] ∧
      level ≤ 7 ∧
      (level = 0 → vector = 0 ∧ (update_irq_status H B s).io.mem (H.addr .INTSTAT) = 0) := by
  by_cases hany : irq_any H (store s.io.mem (H.addr .INTSTAT) 0) = true
  · obtain ⟨h7, h0⟩ := irq_scan_level H (store s.io.mem (H.addr .INTSTAT) 0)
    refine ⟨(irq_scan H (store s.io.mem (H.addr .INTSTAT) 0)).1,
      (irq_scan H (store s.io.mem (H.addr .INTSTAT) 0)).2, ?_, h7, ?_⟩
    · simp [update_irq_status, State.set, State.hookExt, hany]
    · intro hl
      have hv := h0 hl
      refine ⟨hv, ?_⟩
      simp [update_irq_status, State.set, State.hookExt, hany, store_same, hl, hv]
  · refine ⟨0, 0, ?_, Nat.zero_le _, fun _ => ⟨rfl, ?_⟩⟩
    · simp [update_irq_status, State.set, State.hookExt, hany]
    · simp [update_irq_status, State.set, State.hookExt, hany, store_same]

/-! ## Masked status registers -/

/-- A set bit of a 32-bit mask is clear in its complement. -/
theorem testBit_not_mask (m j : Nat) (hm : m < 2 ^ 32) (hj : m.testBit j = true) :
    (0xFFFFFFFF ^^^ m).testBit j = false := by
  have hones : Nat.testBit 4294967295 j = decide (j < 32) := by
    have h := Nat.testBit_two_pow_sub_one 32 j
    norm_num at h
    exact h
  have hlt : j < 32 := by
    by_contra hge
    have : m.testBit j = false :=
      Nat.testBit_lt_two_pow (lt_of_lt_of_le hm (Nat.pow_le_pow_right (by norm_num) (by omega)))
    rw [this] at hj
    cases hj
  rw [Nat.testBit_xor, hones, hj]
  simp [hlt]

/-- The storage update of `WRITEOPR` keeps every bit of the read-only mask. -/
theorem masked_update_bits (v m w j : Nat) (hm : m < 2 ^ 32) (hj : m.testBit j = true) :
    ((v &&& m) ||| (w &&& (0xFFFFFFFF ^^^ m))).testBit j = v.testBit j := by
  rw [Nat.testBit_or, Nat.testBit_and, Nat.testBit_and, testBit_not_mask m j hm hj, hj]
  simp

/-- With distinct labels, a write to a label of a `WRITEOPR` group updates
the register of the group under its mask and runs the tail. -/
theorem io_write32_opr {β : Type} (H : Header) (B : Backend β) (s : State β)
    (hd : H.WriteLabelsDistinct) (c : WCase) (hc : c ∈ writeCases H) (r : Reg)
    (romask : Nat) (t : WTail) (hb : c.body = .opr r romask t) (bufp data : Nat) :
    io_write32 H B s c.label bufp data =
      .ret (some c.name)
        (run_tail H B
          (s.set (H.addr r)
            ((s.io.mem (H.addr r) &&& romask) |||
              (write_op (s.io.mem (H.addr r) &&& romask) data c.label &&&
                (0xFFFFFFFF ^^^ romask)))) t) := by
  rw [io_write32_of_case H B s hd c hc]
  unfold run_wcase
  rw [hb]
  simp only [set_mem, store_same]
  congr 2
  simp only [State.set]
  congr 2
  funext x
  simp only [store]
  split_ifs <;> rfl

/-- The four labels of an alias group are its base address plus 0, 4, 8, 12,
and all lead to the code of the group. -/
theorem aliasGroup_label (H : Header) (r : Reg) (b : WBody) (off : Nat)
    (hoff : off = 0 ∨ off = 4 ∨ off = 8 ∨ off = 12) :
    ∃ c ∈ aliasGroup H r b, c.label = H.addr r + off ∧ c.body = b := by
  rcases hoff with rfl | rfl | rfl | rfl
  · exact ⟨⟨H.addr r, r.name, b⟩, by simp [aliasGroup], rfl, rfl⟩
  · exact ⟨⟨H.addr r + 4, r.name ++ "CLR", b⟩, by simp [aliasGroup], rfl, rfl⟩
  · exact ⟨⟨H.addr r + 8, r.name ++ "SET", b⟩, by simp [aliasGroup], rfl, rfl⟩
  · exact ⟨⟨H.addr r + 12, r.name ++ "INV", b⟩, by simp [aliasGroup], rfl, rfl⟩

/-- C20: for `U1STA..U6STA` and `SPI1STAT..SPI4STAT`, every one of the four
alias addresses and every data word, the storage update of `io_write32`
leaves the bits of the register inside its read-only mask, and every other
register, as they were; for `UxSTA` the mask is
`URXDA|FERR|PERR|RIDLE|TRMT|UTXBF` and `uart_update_status` runs on the
updated state, for `SPIxSTAT` the mask is every bit of the word but `SPIROV`. -/
theorem masked_status_readonly_bits {β : Type} (H : Header) (B : Backend β) (s : State β)
    (bufp d : Nat) (hd : H.WriteLabelsDistinct)
    (hu : usta_romask H < 2 ^ 32) (hs : H.PIC32_SPISTAT_SPIROV < 2 ^ 32) :
    (∀ u, u < 6 → ∀ off, (off = 0 ∨ off = 4 ∨ off = 8 ∨ off = 12) →
      ∃ (nm : String) (s2 : State β),
        io_write32 H B s (H.addr (.UxSTA u) + off) bufp d =
          .ret (some nm) (s2.hook (.uart_update_status u) (B.uart_update_status u)) ∧
        (∀ j, (H.PIC32_USTA_URXDA ||| H.PIC32_USTA_FERR ||| H.PIC32_USTA_PERR |||
              H.PIC32_USTA_RIDLE ||| H.PIC32_USTA_TRMT ||| H.PIC32_USTA_UTXBF).testBit j = true →
          (s2.io.mem (H.addr (.UxSTA u))).testBit j =
            (s.io.mem (H.addr (.UxSTA u))).testBit j) ∧
        (∀ a, a ≠ H.addr (.UxSTA u) → s2.io.mem a = s.io.mem a)) ∧
    (∀ k, k < 4 → ∀ off, (off = 0 ∨ off = 4 ∨ off = 8 ∨ off = 12) →
      ∃ nm s2,
        io_write32 H B s (H.addr (.SPIxSTAT k) + off) bufp d = .ret (some nm) s2 ∧
        (∀ j, j < 32 → H.PIC32_SPISTAT_SPIROV.testBit j = false →
          (s2.io.mem (H.addr (.SPIxSTAT k))).testBit j =
            (s.io.mem (H.addr (.SPIxSTAT k))).testBit j) ∧
        (∀ a, a ≠ H.addr (.SPIxSTAT k) → s2.io.mem a = s.io.mem a)) := by
  constructor
  · intro u hu6 off hoff
    obtain ⟨c, hc, hl, hb⟩ := aliasGroup_label H (.UxSTA u)
      (.opr (.UxSTA u) (usta_romask H) (.uart_update_status u)) off hoff
    have hm : c ∈ writeCases H :=
      mem_writeCases_uart H u hu6 c (by simp [uartWriteCases, WRITEOPR, hc])
    have hw := io_write32_opr H B s hd c hm _ _ _ hb bufp d
    rw [hl] at hw
    refine ⟨_, _, hw, ?_, ?_⟩
    · intro j hj
      rw [set_mem, store_same]
      exact masked_update_bits _ _ _ j hu hj
    · intro a ha
      rw [set_mem, store_other _ _ _ _ ha]
  · intro k hk4 off hoff
    obtain ⟨c, hc, hl, hb⟩ := aliasGroup_label H (.SPIxSTAT k)
      (.opr (.SPIxSTAT k) (spistat_romask H) .ret) off hoff
    have hm : c ∈ writeCases H :=
      mem_writeCases_spi H k hk4 c (by simp [spiWriteCases, WRITEOPR, hc])
    have hw := io_write32_opr H B s hd c hm _ _ _ hb bufp d
    rw [hl] at hw
    have hlt : spistat_romask H < 2 ^ 32 :=
      Nat.xor_lt_two_pow (by norm_num) hs
    refine ⟨_, _, hw, ?_, ?_⟩
    · intro j hj32 hj
      show ((run_tail H B _ WTail.ret).io.mem _).testBit j = _
      unfold run_tail
      rw [set_mem, store_same]
      apply masked_update_bits _ _ _ j hlt
      have hones : Nat.testBit 4294967295 j = decide (j < 32) := by
        have h := Nat.testBit_two_pow_sub_one 32 j
        norm_num at h
        exact h
      unfold spistat_romask
      rw [Nat.testBit_xor, hones, hj]
      simp [hj32]
    · intro a ha
      show (run_tail H B _ WTail.ret).io.mem a = _
      unfold run_tail
      rw [set_mem, store_other _ _ _ _ ha]

/-- Witness for C20: the status registers of `refHeader` in the state where
`SPI1STAT` holds 1. -/
theorem masked_status_readonly_bits_witness :
    (∀ u, u < 6 → ∀ off, (off = 0 ∨ off = 4 ∨ off = 8 ∨ off = 12) →
      ∃ (nm : String) (s2 : State Unit),
        io_write32 refHeader nullBackend spiStatState (refHeader.addr (.UxSTA u) + off)
            (refHeader.addr (.SPIxSTAT 0)) 0xFFFFFFFF =
          .ret (some nm) (s2.hook (.uart_update_status u) (nullBackend.uart_update_status u)) ∧
        (∀ j, (refHeader.PIC32_USTA_URXDA ||| refHeader.PIC32_USTA_FERR |||
              refHeader.PIC32_USTA_PERR ||| refHeader.PIC32_USTA_RIDLE |||
              refHeader.PIC32_USTA_TRMT ||| refHeader.PIC32_USTA_UTXBF).testBit j = true →
          (s2.io.mem (refHeader.addr (.UxSTA u))).testBit j =
            (spiStatState.io.mem (refHeader.addr (.UxSTA u))).testBit j) ∧
        (∀ a, a ≠ refHeader.addr (.UxSTA u) → s2.io.mem a = spiStatState.io.mem a)) ∧
    (∀ k, k < 4 → ∀ off, (off = 0 ∨ off = 4 ∨ off = 8 ∨ off = 12) →
      ∃ nm s2,
        io_write32 refHeader nullBackend spiStatState (refHeader.addr (.SPIxSTAT k) + off)
            (refHeader.addr (.SPIxSTAT 0)) 0xFFFFFFFF = .ret (some nm) s2 ∧
        (∀ j, j < 32 → refHeader.PIC32_SPISTAT_SPIROV.testBit j = false →
          (s2.io.mem (refHeader.addr (.SPIxSTAT k))).testBit j =
            (spiStatState.io.mem (refHeader.addr (.SPIxSTAT k))).testBit j) ∧
        (∀ a, a ≠ refHeader.addr (.SPIxSTAT k) → s2.io.mem a = spiStatState.io.mem a)) :=
  masked_status_readonly_bits refHeader nullBackend spiStatState
    (refHeader.addr (.SPIxSTAT 0)) 0xFFFFFFFF
    refHeader_writeLabelsDistinct (by decide) (by decide)

/-! ## `INTSTAT` is the arbitration result -/

/-- Folds whose steps agree on the members of the list agree. -/
theorem foldl_congr_mem {α β : Type} (f g : α → β → α) :
    ∀ (l : List β) (a : α), (∀ x ∈ l, ∀ b, f b x = g b x) → l.foldl f a = l.foldl g a
  | [], _, _ => rfl
  | x :: l, a, h => by
    rw [List.foldl_cons, List.foldl_cons, h x (List.mem_cons_self x l)]
    exact foldl_congr_mem f g l _ (fun y hy => h y (List.mem_cons_of_mem x hy))

/-- With at most 192 sources the arbitration reads `IFS0..IFS5`, `IEC0..IEC5`
and the priority registers only. -/
theorem irq_status_word_congr (H : Header) (hlast : H.PIC32_IRQ_LAST ≤ 191)
    (m m1 : Nat → Nat)
    (hF : ∀ n, n < 6 → m1 (H.addr (.IFS n)) = m (H.addr (.IFS n)))
    (hE : ∀ n, n < 6 → m1 (H.addr (.IEC n)) = m (H.addr (.IEC n)))
    (hP : ∀ n, n < 48 → m1 (H.addr (.IPC n)) = m (H.addr (.IPC n))) :
    irq_status_word H m1 = irq_status_word H m := by
  have hany : irq_any H m1 = irq_any H m := by
    unfold irq_any
    rw [hF 0 (by omega), hF 1 (by omega), hF 2 (by omega), hF 3 (by omega), hF 4 (by omega),
      hF 5 (by omega), hE 0 (by omega), hE 1 (by omega), hE 2 (by omega), hE 3 (by omega),
      hE 4 (by omega), hE 5 (by omega)]
  have hscan : irq_scan H m1 = irq_scan H m := by
    unfold irq_scan
    apply foldl_congr_mem
    intro irq hirq acc
    have hle : irq ≤ 191 := by
      have := List.mem_range.mp hirq
      omega
    have hn : irq >>> 5 < 6 := shift5_lt irq hle
    have hn2 : (irq >>> 5) >>> 2 < 48 := by
      rw [Nat.shiftRight_eq_div_pow (irq >>> 5)]
      omega
    unfold irq_scan_step
    simp only []
    rw [hF _ hn, hE _ hn, hP _ hn2]
  unfold irq_status_word
  rw [hany, hscan]

/-- A store outside the interrupt registers keeps the invariant. -/
theorem store_consistent (H : Header) (hlast : H.PIC32_IRQ_LAST ≤ 191) (m : Nat → Nat)
    (a v : Nat) (ha : ¬ irqAddr H a) (h : irq_consistent H m) :
    irq_consistent H (store m a v) := by
  have hne : ∀ x, irqAddr H x → store m a v x = m x := by
    intro x hx
    apply store_other
    intro e
    exact ha (e ▸ hx)
  unfold irq_consistent
  rw [hne _ (Or.inl rfl), h]
  symm
  apply irq_status_word_congr H hlast
  · exact fun n hn => hne _ (Or.inr (Or.inl ⟨n, hn, Or.inl rfl⟩))
  · exact fun n hn => hne _ (Or.inr (Or.inl ⟨n, hn, Or.inr rfl⟩))
  · exact fun n hn => hne _ (Or.inr (Or.inr ⟨n, hn, rfl⟩))

/-- The register file after `update_irq_status`: only `INTSTAT` is assigned. -/
theorem update_irq_status_mem {β : Type} (H : Header) (B : Backend β) (s : State β) :
    (update_irq_status H B s).io.mem =
      store (store s.io.mem (H.addr .INTSTAT) 0) (H.addr .INTSTAT)
        (irq_status_word H (store s.io.mem (H.addr .INTSTAT) 0)) := by
  unfold update_irq_status irq_status_word
  simp only [set_mem]
  split_ifs
  · rfl
  · funext x
    simp only [hookExt_mem, set_mem, store]
    split_ifs <;> rfl

/-- The word `update_irq_status` leaves in `INTSTAT` is the status word of the
registers it was called with. -/
theorem update_irq_status_word {β : Type} (H : Header) (B : Backend β) (s : State β)
    (hd : H.WriteLabelsDistinct) (hlast : H.PIC32_IRQ_LAST ≤ 191) :
    (update_irq_status H B s).io.mem (H.addr .INTSTAT) = irq_status_word H s.io.mem := by
  rw [update_irq_status_mem, store_same]
  apply irq_status_word_congr H hlast
  · intro n hn
    exact store_other _ _ _ _ (addr_ne_INTSTAT_of_op hd (base_IFS H n hn))
  · intro n hn
    exact store_other _ _ _ _ (addr_ne_INTSTAT_of_op hd (base_IEC H n hn))
  · intro n hn
    exact store_other _ _ _ _ (addr_ne_INTSTAT_of_op hd (base_IPC H n hn))

/-- With distinct labels, `update_irq_status` establishes the invariant. -/
theorem update_consistent {β : Type} (H : Header) (B : Backend β) (s : State β)
    (hd : H.WriteLabelsDistinct) (hlast : H.PIC32_IRQ_LAST ≤ 191) :
    irq_consistent H (update_irq_status H B s).io.mem := by
  rw [update_irq_status_mem]
  unfold irq_consistent
  rw [store_same]
  symm
  apply irq_status_word_congr H hlast
  · intro n hn
    exact store_other _ _ _ _ (addr_ne_INTSTAT_of_op hd (base_IFS H n hn))
  · intro n hn
    exact store_other _ _ _ _ (addr_ne_INTSTAT_of_op hd (base_IEC H n hn))
  · intro n hn
    exact store_other _ _ _ _ (addr_ne_INTSTAT_of_op hd (base_IPC H n hn))

/-- With distinct labels, a case label whose code is not the update of an
interrupt register and which is not the label of `INTSTAT` is not the address
of an interrupt register. -/
theorem label_not_irq {H : Header} (hd : H.WriteLabelsDistinct) (c : WCase)
    (hc : c ∈ writeCases H) (hirq : ∀ f, c.body ≠ .op f .irq)
    (hint : c.body ≠ .readonly ∨ c.name ≠ Reg.name .INTSTAT) : ¬ irqAddr H c.label := by
  have u := case_unique (fun x : WCase => x.label) (writeCases H) hd c
  rintro (e | ⟨n, hn, e | e⟩ | ⟨n, hn, e⟩)
  · have h2 : (⟨H.addr .INTSTAT, Reg.name .INTSTAT, .readonly⟩ : WCase) ∈ writeCases H := by
      simp [writeCases, READONLY]
    have := u _ hc h2 e
    rcases hint with h | h
    · exact h (by rw [this])
    · exact h (by rw [this])
  · have := u _ hc (base_IFS H n hn) e
    exact hirq (.IFS n) (by rw [this])
  · have := u _ hc (base_IEC H n hn) e
    exact hirq (.IEC n) (by rw [this])
  · have := u _ hc (base_IPC H n hn) e
    exact hirq (.IPC n) (by rw [this])

theorem aliasGroup_body (H : Header) (r : Reg) (b : WBody) (c : WCase)
    (hc : c ∈ aliasGroup H r b) : c.body = b := by
  simp only [aliasGroup, List.mem_cons, List.mem_singleton, List.not_mem_nil, or_false] at hc
  rcases hc with rfl | rfl | rfl | rfl <;> rfl

theorem target_WRITEOP (H : Header) (M : List WCase) (r : Reg) (t : WTail)
    (hsub : ∀ c ∈ WRITEOP H r t, c ∈ M) : ∀ c ∈ WRITEOP H r t, TargetIn H M c := by
  intro c hc
  have hb := aliasGroup_body H r _ c hc
  constructor
  · intro r1 t1 e
    rw [hb] at e
    injection e with e1 e2
    subst e1 e2
    exact ⟨_, hsub _ (base_mem_WRITEOP H r t), rfl, rfl⟩
  · intro r1 m1 t1 e
    rw [hb] at e
    cases e

theorem target_WRITEOPX (H : Header) (M : List WCase) (r lab : Reg) (t : WTail)
    (hsub : ∀ c ∈ WRITEOP H lab t, c ∈ M) : ∀ c ∈ WRITEOPX H r lab t, TargetIn H M c := by
  intro c hc
  have hb := aliasGroup_body H r _ c hc
  constructor
  · intro r1 t1 e
    rw [hb] at e
    injection e with e1 e2
    subst e1 e2
    exact ⟨_, hsub _ (base_mem_WRITEOP H lab t), rfl, rfl⟩
  · intro r1 m1 t1 e
    rw [hb] at e
    cases e

theorem target_WRITEOPR (H : Header) (M : List WCase) (r : Reg) (m : Nat) (t : WTail)
    (hsub : ∀ c ∈ WRITEOPR H r m t, c ∈ M) : ∀ c ∈ WRITEOPR H r m t, TargetIn H M c := by
  intro c hc
  have hb := aliasGroup_body H r _ c hc
  constructor
  · intro r1 t1 e
    rw [hb] at e
    cases e
  · intro r1 m1 t1 e
    rw [hb] at e
    injection e with e1 e2 e3
    subst e1 e2 e3
    have hb0 : (⟨H.addr r, r.name, .opr r m t⟩ : WCase) ∈ WRITEOPR H r m t := by
      simp [WRITEOPR, aliasGroup]
    exact ⟨_, hsub _ hb0, rfl, rfl⟩

theorem target_other (H : Header) (M : List WCase) (c : WCase)
    (h1 : ∀ r t, c.body ≠ .op r t) (h2 : ∀ r m t, c.body ≠ .opr r m t) : TargetIn H M c :=
  ⟨fun r t e => absurd e (h1 r t), fun r m t e => absurd e (h2 r m t)⟩

theorem target_STORAGE (H : Header) (M : List WCase) (r : Reg) (b : WBody)
    (h1 : ∀ r t, b ≠ .op r t) (h2 : ∀ r m t, b ≠ .opr r m t) :
    ∀ c ∈ STORAGE H r b, TargetIn H M c := by
  intro c hc
  simp only [STORAGE, List.mem_singleton] at hc
  subst hc
  exact target_other H M _ h1 h2

theorem target_READONLY (H : Header) (M : List WCase) (r : Reg) :
    ∀ c ∈ READONLY H r, TargetIn H M c := by
  intro c hc
  simp only [READONLY, List.mem_singleton] at hc
  subst hc
  exact target_other H M _ (fun _ _ e => by cases e) (fun _ _ _ e => by cases e)

theorem target_gpio (H : Header) (M : List WCase) (p : Nat)
    (hsub : ∀ c ∈ gpioWriteCases H p, c ∈ M) : ∀ c ∈ gpioWriteCases H p, TargetIn H M c := by
  intro c hc
  have hc1 := hc
  unfold gpioWriteCases at hc1
  simp only [List.mem_append] at hc1
  rcases hc1 with (((((((h | h) | h) | h) | h) | h) | h) | h) | h
  · exact target_WRITEOP H M _ _ (fun c hc => hsub c (by simp [gpioWriteCases, hc])) c h
  · exact target_WRITEOPX H M _ _ _ (fun c hc => hsub c (by simp [gpioWriteCases, hc])) c h
  · exact target_WRITEOP H M _ _ (fun c hc => hsub c (by simp [gpioWriteCases, hc])) c h
  · exact target_WRITEOP H M _ _ (fun c hc => hsub c (by simp [gpioWriteCases, hc])) c h
  · exact target_WRITEOP H M _ _ (fun c hc => hsub c (by simp [gpioWriteCases, hc])) c h
  · exact target_WRITEOP H M _ _ (fun c hc => hsub c (by simp [gpioWriteCases, hc])) c h
  · exact target_WRITEOP H M _ _ (fun c hc => hsub c (by simp [gpioWriteCases, hc])) c h
  · exact target_WRITEOP H M _ _ (fun c hc => hsub c (by simp [gpioWriteCases, hc])) c h
  · exact target_WRITEOP H M _ _ (fun c hc => hsub c (by simp [gpioWriteCases, hc])) c h

theorem target_uart (H : Header) (M : List WCase) (u : Nat)
    (hsub : ∀ c ∈ uartWriteCases H u, c ∈ M) : ∀ c ∈ uartWriteCases H u, TargetIn H M c := by
  intro c hc
  have hc1 := hc
  unfold uartWriteCases at hc1
  simp only [List.mem_append] at hc1
  rcases hc1 with (((h | h) | h) | h) | h
  · exact target_STORAGE H M _ _ (fun _ _ e => by cases e) (fun _ _ _ e => by cases e) c h
  · exact target_WRITEOP H M _ _ (fun c hc => hsub c (by simp [uartWriteCases, hc])) c h
  · exact target_WRITEOPR H M _ _ _ (fun c hc => hsub c (by simp [uartWriteCases, hc])) c h
  · exact target_WRITEOP H M _ _ (fun c hc => hsub c (by simp [uartWriteCases, hc])) c h
  · exact target_READONLY H M _ c h

theorem target_spi (H : Header) (M : List WCase) (k : Nat)
    (hsub : ∀ c ∈ spiWriteCases H k, c ∈ M) : ∀ c ∈ spiWriteCases H k, TargetIn H M c := by
  intro c hc
  have hc1 := hc
  unfold spiWriteCases at hc1
  simp only [List.mem_append] at hc1
  rcases hc1 with ((h | h) | h) | h
  · exact target_WRITEOP H M _ _ (fun c hc => hsub c (by simp [spiWriteCases, hc])) c h
  · exact target_WRITEOPR H M _ _ _ (fun c hc => hsub c (by simp [spiWriteCases, hc])) c h
  · exact target_STORAGE H M _ _ (fun _ _ e => by cases e) (fun _ _ _ e => by cases e) c h
  · exact target_WRITEOP H M _ _ (fun c hc => hsub c (by simp [spiWriteCases, hc])) c h

/-- Every register that a case of `io_write32` updates has its own base
label, with the same code, among the cases. -/
theorem target_writeCases (H : Header) : ∀ c ∈ writeCases H, TargetIn H (writeCases H) c := by
  intro c hc
  have hc1 := hc
  unfold writeCases at hc1
  simp only [List.mem_append, List.mem_flatMap, List.mem_range] at hc1
  rcases hc1 with ((((((((((((((((h | h) | h) | ⟨n, hn, h⟩) | ⟨n, hn, h⟩) | ⟨n, hn, h⟩) | h) | h) | h) | h) | h) | h) | h) | h) | ⟨n, hn, h⟩) | ⟨n, hn, h⟩) | ⟨n, hn, h⟩)
  · exact target_WRITEOP H _ _ _ (fun c hc => by simp [writeCases, hc]) c h
  · exact target_READONLY H _ _ c h
  · exact target_WRITEOP H _ _ _ (fun c hc => by simp [writeCases, hc]) c h
  · exact target_WRITEOP H _ _ _ (mem_writeCases_IFS H n hn) c h
  · exact target_WRITEOP H _ _ _ (mem_writeCases_IEC H n hn) c h
  · exact target_WRITEOP H _ _ _ (mem_writeCases_IPC H n hn) c h
  · exact target_WRITEOP H _ _ _ (fun c hc => by simp [writeCases, hc]) c h
  · exact target_WRITEOP H _ _ _ (fun c hc => by simp [writeCases, hc]) c h
  · exact target_STORAGE H _ _ _ (fun _ _ e => by cases e) (fun _ _ _ e => by cases e) c h
  · exact target_STORAGE H _ _ _ (fun _ _ e => by cases e) (fun _ _ _ e => by cases e) c h
  · exact target_READONLY H _ _ c h
  · exact target_STORAGE H _ _ _ (fun _ _ e => by cases e) (fun _ _ _ e => by cases e) c h
  · exact target_STORAGE H _ _ _ (fun _ _ e => by cases e) (fun _ _ _ e => by cases e) c h
  · exact target_STORAGE H _ _ _ (fun _ _ e => by cases e) (fun _ _ _ e => by cases e) c h
  · exact target_gpio H _ n (mem_writeCases_gpio H n hn) c h
  · exact target_uart H _ n (mem_writeCases_uart H n hn) c h
  · exact target_spi H _ n (mem_writeCases_spi H n hn) c h

/-- With distinct labels, the register updated behind a case whose tail is
not the recomputation of the interrupt status is no interrupt register. -/
theorem op_target_not_irq {H : Header} (hd : H.WriteLabelsDistinct) (c : WCase)
    (hc : c ∈ writeCases H) (r : Reg) (t : WTail) (hb : c.body = .op r t) (ht : t ≠ .irq) :
    ¬ irqAddr H (H.addr r) := by
  obtain ⟨c1, hc1, hl, hb1⟩ := (target_writeCases H c hc).1 r t hb
  rw [← hl]
  apply label_not_irq hd c1 hc1
  · intro f e
    rw [hb1] at e
    injection e with _ e2
    exact ht e2
  · left
    rw [hb1]
    intro e
    cases e

/-- With distinct labels, a masked status register is no interrupt register. -/
theorem opr_target_not_irq {H : Header} (hd : H.WriteLabelsDistinct) (c : WCase)
    (hc : c ∈ writeCases H) (r : Reg) (m : Nat) (t : WTail) (hb : c.body = .opr r m t) :
    ¬ irqAddr H (H.addr r) := by
  obtain ⟨c1, hc1, hl, hb1⟩ := (target_writeCases H c hc).2 r m t hb
  rw [← hl]
  apply label_not_irq hd c1 hc1
  · intro f e
    rw [hb1] at e
    cases e
  · left
    rw [hb1]
    intro e
    cases e

/-- The `IEC` registers are read as plain storage. -/
theorem mem_readCases_IEC (H : Header) (n : Nat) (hn : n < 6) :
    (⟨H.addr (.IEC n), (Reg.IEC n).name, .plain⟩ : RCase) ∈ readCases H := by
  have hc : (⟨H.addr (.IEC n), (Reg.IEC n).name, .plain⟩ : RCase) ∈
      RSTORAGE H (.IEC n) .plain := by simp [RSTORAGE]
  unfold readCases
  simp only [List.mem_append, List.mem_flatMap, List.mem_range]
  repeat (first | exact Or.inr ⟨n, hn, hc⟩ | apply Or.inl)

/-- The `IPC` registers are read as plain storage. -/
theorem mem_readCases_IPC (H : Header) (n : Nat) (hn : n < 48) :
    (⟨H.addr (.IPC n), (Reg.IPC n).name, .plain⟩ : RCase) ∈ readCases H := by
  have hc : (⟨H.addr (.IPC n), (Reg.IPC n).name, .plain⟩ : RCase) ∈
      RSTORAGE H (.IPC n) .plain := by simp [RSTORAGE]
  unfold readCases
  simp only [List.mem_append, List.mem_flatMap, List.mem_range]
  repeat (first | exact Or.inr ⟨n, hn, hc⟩ | apply Or.inl)

/-- With distinct labels, a case label of `io_read32` whose code is not the
plain read is not the address of an interrupt register. -/
theorem read_label_not_irq {H : Header} (hd : H.ReadLabelsDistinct) (c : RCase)
    (hc : c ∈ readCases H) (hb : c.body ≠ .plain) : ¬ irqAddr H c.label := by
  have u := case_unique (fun x : RCase => x.label) (readCases H) hd c
  rintro (e | ⟨n, hn, e | e⟩ | ⟨n, hn, e⟩)
  · have h2 : (⟨H.addr .INTSTAT, Reg.name .INTSTAT, .plain⟩ : RCase) ∈ readCases H := by
      simp [readCases, RSTORAGE]
    have := u _ hc h2 e
    exact hb (by rw [this])
  · have := u _ hc (mem_readCases_IFS H n hn) e
    exact hb (by rw [this])
  · have := u _ hc (mem_readCases_IEC H n hn) e
    exact hb (by rw [this])
  · have := u _ hc (mem_readCases_IPC H n hn) e
    exact hb (by rw [this])

/-- With distinct labels and `CHECON` apart from the interrupt registers,
`io_reset` assigns no interrupt register. -/
theorem reset_addr_not_irq {H : Header} (hd : H.WriteLabelsDistinct)
    (hck : ¬ irqAddr H (H.addr .CHECON)) :
    ∀ rv ∈ io_reset_values, ¬ irqAddr H (H.addr rv.1) := by
  have plain : ∀ (r : Reg) (b : WBody), (⟨H.addr r, r.name, b⟩ : WCase) ∈ writeCases H →
      (∀ f, b ≠ .op f .irq) → (b ≠ .readonly ∨ r.name ≠ Reg.name .INTSTAT) →
      ¬ irqAddr H (H.addr r) :=
    fun r b hc h1 h2 => label_not_irq hd ⟨H.addr r, r.name, b⟩ hc h1 h2
  have gp : ∀ p, p < 7 → ∀ (r : Reg) (b : WBody),
      (⟨H.addr r, r.name, b⟩ : WCase) ∈ gpioWriteCases H p →
      (∀ f, b ≠ .op f .irq) → b ≠ .readonly → ¬ irqAddr H (H.addr r) :=
    fun p hp r b hc h1 h2 => plain r b (mem_writeCases_gpio H p hp _ hc) h1 (Or.inl h2)
  intro rv hrv
  unfold io_reset_values at hrv
  simp only [List.mem_append, List.mem_cons, List.mem_singleton, List.not_mem_nil, or_false,
    List.mem_flatMap, List.mem_range] at hrv
  rcases hrv with (rfl | rfl | rfl | rfl | rfl | rfl | rfl) |
    ⟨p, hp, rfl | rfl | rfl | rfl | rfl | rfl | rfl | rfl | rfl⟩
  · exact hck
  · exact plain .OSCCON .plain (by simp [writeCases, STORAGE]) (fun _ e => by cases e)
      (Or.inl (fun e => by cases e))
  · exact plain .OSCTUN .plain (by simp [writeCases, STORAGE]) (fun _ e => by cases e)
      (Or.inl (fun e => by cases e))
  · exact plain .DEVID .readonly (by simp [writeCases, READONLY]) (fun _ e => by cases e)
      (Or.inr (by decide))
  · exact plain .SYSKEY .syskey (by simp [writeCases, STORAGE]) (fun _ e => by cases e)
      (Or.inl (fun e => by cases e))
  · exact plain .RCON .plain (by simp [writeCases, STORAGE]) (fun _ e => by cases e)
      (Or.inl (fun e => by cases e))
  · exact plain .RSWRST .rswrst (by simp [writeCases, STORAGE]) (fun _ e => by cases e)
      (Or.inl (fun e => by cases e))
  · exact gp p hp (.TRIS p) (.op (.TRIS p) .ret) (by simp [gpioWriteCases, WRITEOP, aliasGroup])
      (fun _ e => by cases e) (fun e => by cases e)
  · exact gp p hp (.PORT p) (.op (.LAT p) (.gpio p))
      (by simp [gpioWriteCases, WRITEOPX, aliasGroup]) (fun _ e => by cases e)
      (fun e => by cases e)
  · exact gp p hp (.LAT p) (.op (.LAT p) (.gpio p))
      (by simp [gpioWriteCases, WRITEOP, aliasGroup]) (fun _ e => by cases e)
      (fun e => by cases e)
  · exact gp p hp (.ODC p) (.op (.ODC p) .ret) (by simp [gpioWriteCases, WRITEOP, aliasGroup])
      (fun _ e => by cases e) (fun e => by cases e)
  · exact gp p hp (.CNPU p) (.op (.CNPU p) .ret) (by simp [gpioWriteCases, WRITEOP, aliasGroup])
      (fun _ e => by cases e) (fun e => by cases e)
  · exact gp p hp (.CNPD p) (.op (.CNPD p) .ret) (by simp [gpioWriteCases, WRITEOP, aliasGroup])
      (fun _ e => by cases e) (fun e => by cases e)
  · exact gp p hp (.CNCON p) (.op (.CNCON p) .ret)
      (by simp [gpioWriteCases, WRITEOP, aliasGroup]) (fun _ e => by cases e)
      (fun e => by cases e)
  · exact gp p hp (.CNEN p) (.op (.CNEN p) .ret) (by simp [gpioWriteCases, WRITEOP, aliasGroup])
      (fun _ e => by cases e) (fun e => by cases e)
  · exact gp p hp (.CNSTAT p) (.op (.CNSTAT p) .ret)
      (by simp [gpioWriteCases, WRITEOP, aliasGroup]) (fun _ e => by cases e)
      (fun e => by cases e)

/-- Assignments outside the interrupt registers keep the invariant. -/
theorem foldl_store_consistent (H : Header) (hlast : H.PIC32_IRQ_LAST ≤ 191) :
    ∀ (l : List (Reg × Nat)) (m : Nat → Nat), (∀ rv ∈ l, ¬ irqAddr H (H.addr rv.1)) →
      irq_consistent H m →
      irq_consistent H (l.foldl (fun m rv => store m (H.addr rv.1) rv.2) m)
  | [], _, _, h => h
  | rv :: l, m, hl, h => by
    rw [List.foldl_cons]
    exact foldl_store_consistent H hlast l _
      (fun x hx => hl x (List.mem_cons_of_mem rv hx))
      (store_consistent H hlast m _ _ (hl rv (List.mem_cons_self rv l)) h)

/-- `io_reset` keeps the invariant. -/
theorem io_reset_consistent {β : Type} (H : Header) (B : Backend β) (s : State β)
    (hd : H.WriteLabelsDistinct) (hlast : H.PIC32_IRQ_LAST ≤ 191)
    (hck : ¬ irqAddr H (H.addr .CHECON))
    (hB : B.Keeps (irq_consistent H)) (h : irq_consistent H s.io.mem) :
    irq_consistent H (io_reset H B s).io.mem := by
  rw [io_reset_io]
  apply hB.2.1
  apply hB.1
  exact foldl_store_consistent H hlast io_reset_values s.io.mem (reset_addr_not_irq hd hck) h

/-- The statements after a storage update keep the invariant, and the
recomputation of the interrupt status establishes it. -/
theorem run_tail_consistent {β : Type} (H : Header) (B : Backend β) (s : State β)
    (hd : H.WriteLabelsDistinct) (hlast : H.PIC32_IRQ_LAST ≤ 191)
    (hB : B.Keeps (irq_consistent H)) (t : WTail)
    (h : t ≠ .irq → irq_consistent H s.io.mem) :
    irq_consistent H (run_tail H B s t).io.mem := by
  obtain ⟨_, _, _, _, _, k6, k7, k8, _, _⟩ := hB
  cases t with
  | ret => exact h (fun e => by cases e)
  | irq => exact update_consistent H B s hd hlast
  | gpio p =>
    show irq_consistent H (gpio_write H B s p _).io.mem
    rw [gpio_write_mem]
    exact h (fun e => by cases e)
  | uart_update_mode u => exact k6 u s.io (h (fun e => by cases e))
  | uart_update_status u => exact k7 u s.io (h (fun e => by cases e))
  | spi_control c => exact k8 c s.io (h (fun e => by cases e))

/-- Every case of `io_write32` keeps the invariant. -/
theorem run_wcase_consistent {β : Type} (H : Header) (B : Backend β) (s : State β)
    (hd : H.WriteLabelsDistinct) (hlast : H.PIC32_IRQ_LAST ≤ 191)
    (hck : ¬ irqAddr H (H.addr .CHECON))
    (hB : B.Keeps (irq_consistent H)) (c : WCase) (hc : c ∈ writeCases H) (data : Nat)
    (h : irq_consistent H s.io.mem) (n : Option String) (s1 : State β)
    (hr : run_wcase H B s c c.label c.label data = .ret n s1) :
    irq_consistent H s1.io.mem := by
  have hlab : (∀ f, c.body ≠ .op f .irq) → c.body ≠ .readonly → ¬ irqAddr H c.label :=
    fun h1 h2 => label_not_irq hd c hc h1 (Or.inl h2)
  unfold run_wcase at hr
  split at hr
  next r t hb =>
    cases hr
    apply run_tail_consistent H B _ hd hlast hB
    intro ht
    rw [set_mem]
    exact store_consistent H hlast _ _ _ (op_target_not_irq hd c hc r t hb ht) h
  next r m t hb =>
    cases hr
    apply run_tail_consistent H B _ hd hlast hB
    intro _
    have hn := opr_target_not_irq hd c hc r m t hb
    rw [set_mem, set_mem]
    exact store_consistent H hlast _ _ _ hn (store_consistent H hlast _ _ _ hn h)
  next hb =>
    cases hr
    exact h
  next hb =>
    cases hr
    rw [set_mem]
    exact store_consistent H hlast _ _ _
      (hlab (fun f e => by rw [hb] at e; cases e) (fun e => by rw [hb] at e; cases e)) h
  next hb =>
    cases hr
    rw [set_mem]
    exact store_consistent H hlast _ _ _
      (hlab (fun f e => by rw [hb] at e; cases e) (fun e => by rw [hb] at e; cases e)) h
  next hb =>
    cases hr
    rw [set_mem]
    apply store_consistent H hlast _ _ _
      (hlab (fun f e => by rw [hb] at e; cases e) (fun e => by rw [hb] at e; cases e))
    split_ifs
    · rw [hookExt_mem]
      apply io_reset_consistent H B _ hd hlast hck hB
      rw [hookExt_mem]
      exact h
    · exact h
  next u hb =>
    cases hr
    rw [set_mem]
    apply store_consistent H hlast _ _ _
      (hlab (fun f e => by rw [hb] at e; cases e) (fun e => by rw [hb] at e; cases e))
    rw [hook_io]
    exact hB.2.2.1 u data s.io h
  next k hb =>
    cases hr
    rw [hook_io]
    exact hB.2.2.2.2.2.2.2.2.2 k data s.io h

/-- Every case of `io_read32` keeps the invariant. -/
theorem run_rcase_consistent {β : Type} (H : Header) (B : Backend β) (s : State β)
    (hd : H.ReadLabelsDistinct) (hlast : H.PIC32_IRQ_LAST ≤ 191)
    (hB : B.Keeps (irq_consistent H)) (c : RCase) (hc : c ∈ readCases H)
    (h : irq_consistent H s.io.mem) (v : Nat) (n : Option String) (s1 : State β)
    (hr : run_rcase B s c c.label = .ret v n s1) :
    irq_consistent H s1.io.mem := by
  have hlab : c.body ≠ .plain → ¬ irqAddr H c.label := read_label_not_irq hd c hc
  unfold run_rcase at hr
  simp only [] at hr
  injection hr with _ _ hs
  subst hs
  split
  next hb => exact h
  next u hb =>
    rw [set_mem]
    apply store_consistent H hlast _ _ _ (hlab (fun e => by rw [hb] at e; cases e))
    exact hB.2.2.2.1 u s.io h
  next u hb =>
    rw [hook_io]
    exact hB.2.2.2.2.1 u s.io h
  next hb =>
    rw [set_mem]
    exact store_consistent H hlast _ _ _ (hlab (fun e => by rw [hb] at e; cases e)) h
  next k hb =>
    rw [set_mem]
    apply store_consistent H hlast _ _ _ (hlab (fun e => by rw [hb] at e; cases e))
    exact hB.2.2.2.2.2.2.2.2.1 k s.io h

/-- `irq_raise` keeps the invariant. -/
theorem irq_raise_consistent {β : Type} (H : Header) (B : Backend β) (s : State β) (i : Nat)
    (hd : H.WriteLabelsDistinct) (hlast : H.PIC32_IRQ_LAST ≤ 191)
    (h : irq_consistent H s.io.mem) : irq_consistent H (irq_raise H B s i).io.mem := by
  unfold irq_raise
  simp only []
  split_ifs
  · exact h
  · exact update_consistent H B _ hd hlast

/-- `irq_clear` keeps the invariant. -/
theorem irq_clear_consistent {β : Type} (H : Header) (B : Backend β) (s : State β) (i : Nat)
    (hd : H.WriteLabelsDistinct) (hlast : H.PIC32_IRQ_LAST ≤ 191)
    (h : irq_consistent H s.io.mem) : irq_consistent H (irq_clear H B s i).io.mem := by
  unfold irq_clear
  simp only []
  split_ifs
  · exact h
  · exact update_consistent H B _ hd hlast

/-- Every returning `io_write32` keeps the invariant. -/
theorem io_write32_consistent {β : Type} (H : Header) (B : Backend β) (s : State β)
    (hd : H.WriteLabelsDistinct) (hlast : H.PIC32_IRQ_LAST ≤ 191)
    (hck : ¬ irqAddr H (H.addr .CHECON))
    (hB : B.Keeps (irq_consistent H)) (address data : Nat)
    (h : irq_consistent H s.io.mem) (n : Option String) (s1 : State β)
    (hr : io_write32 H B s address address data = .ret n s1) :
    irq_consistent H s1.io.mem := by
  unfold io_write32 at hr
  split at hr
  · cases hr
  next c hf =>
    have hc := List.mem_of_find?_eq_some hf
    have hl : c.label = address := by simpa using List.find?_some hf
    subst hl
    exact run_wcase_consistent H B s hd hlast hck hB c hc data h n s1 hr

/-- Every returning `io_read32` keeps the invariant. -/
theorem io_read32_consistent {β : Type} (H : Header) (B : Backend β) (s : State β)
    (hd : H.ReadLabelsDistinct) (hlast : H.PIC32_IRQ_LAST ≤ 191)
    (hB : B.Keeps (irq_consistent H)) (address : Nat)
    (h : irq_consistent H s.io.mem) (v : Nat) (n : Option String) (s1 : State β)
    (hr : io_read32 H B s address address = .ret v n s1) :
    irq_consistent H s1.io.mem := by
  unfold io_read32 at hr
  split at hr
  · cases hr
  next c hf =>
    have hc := List.mem_of_find?_eq_some hf
    have hl : c.label = address := by simpa using List.find?_some hf
    subst hl
    exact run_rcase_consistent H B s hd hlast hB c hc h v n s1 hr

/-- A write to an `IFSn`, `IECn` or `IPCn` address, through any alias, updates
the storage word and then calls `update_irq_status`. -/
theorem io_write32_irq_register {β : Type} (H : Header) (B : Backend β) (s : State β)
    (hd : H.WriteLabelsDistinct) (r : Reg)
    (hr : (∃ n, n < 6 ∧ (r = .IFS n ∨ r = .IEC n)) ∨ ∃ n, n < 48 ∧ r = .IPC n)
    (off : Nat) (hoff : off = 0 ∨ off = 4 ∨ off = 8 ∨ off = 12) (data : Nat) :
    ∃ nm, io_write32 H B s (H.addr r + off) (H.addr r + off) data =
      .ret nm (update_irq_status H B
        (s.set (H.addr r) (write_op (s.io.mem (H.addr r)) data (H.addr r + off)))) := by
  obtain ⟨c, hc, hl, hb⟩ := aliasGroup_label H r (.op r .irq) off hoff
  have hm : c ∈ writeCases H := by
    rcases hr with ⟨n, hn, rfl | rfl⟩ | ⟨n, hn, rfl⟩
    · exact mem_writeCases_IFS H n hn c hc
    · exact mem_writeCases_IEC H n hn c hc
    · exact mem_writeCases_IPC H n hn c hc
  have e := io_write32_op H B s hd c hm r .irq hb (H.addr r + off) data
  rw [hl] at e
  exact ⟨some c.name, e⟩

/-- C15: with `INTSTAT` consistent meaning that it holds the word
`vector | level << 8` that the scan of `update_irq_status` yields on the
current `IFS0..5`, `IEC0..5` and `IPC` registers (0 when nothing is pending):
the all-zero register file is consistent; `update_irq_status` stores that word
and leaves a consistent file; every returning `io_write32` keeps consistency,
and a write to an `IFSn`, `IECn` or `IPCn` address through any of the four
alias offsets updates the storage word and then runs `update_irq_status`;
`irq_raise`, `irq_clear`, every returning `io_read32`, and `io_reset` keep
consistency. The header is taken with distinct case labels, sources up to 191
and `CHECON` apart from the interrupt registers, the backend hooks as keeping
consistency, and both decoders are called with the slot of the address. -/
theorem intstat_invariant {β : Type} (H : Header) (B : Backend β)
    (hdw : H.WriteLabelsDistinct) (hdr : H.ReadLabelsDistinct)
    (hlast : H.PIC32_IRQ_LAST ≤ 191) (hck : ¬ irqAddr H (H.addr .CHECON))
    (hB : B.Keeps (irq_consistent H)) :
    irq_consistent H (fun _ => 0) ∧
    (∀ s : State β,
      (update_irq_status H B s).io.mem (H.addr .INTSTAT) = irq_status_word H s.io.mem ∧
      irq_consistent H (update_irq_status H B s).io.mem) ∧
    (∀ (s : State β) (address data : Nat) (n : Option String) (s1 : State β),
      irq_consistent H s.io.mem → io_write32 H B s address address data = .ret n s1 →
      irq_consistent H s1.io.mem) ∧
    (∀ (s : State β) (r : Reg) (off data : Nat),
      ((∃ n, n < 6 ∧ (r = .IFS n ∨ r = .IEC n)) ∨ ∃ n, n < 48 ∧ r = .IPC n) →
      (off = 0 ∨ off = 4 ∨ off = 8 ∨ off = 12) →
      ∃ nm, io_write32 H B s (H.addr r + off) (H.addr r + off) data =
        .ret nm (update_irq_status H B
          (s.set (H.addr r) (write_op (s.io.mem (H.addr r)) data (H.addr r + off))))) ∧
    (∀ (s : State β) (i : Nat), irq_consistent H s.io.mem →
      irq_consistent H (irq_raise H B s i).io.mem) ∧
    (∀ (s : State β) (i : Nat), irq_consistent H s.io.mem →
      irq_consistent H (irq_clear H B s i).io.mem) ∧
    (∀ (s : State β) (address v : Nat) (n : Option String) (s1 : State β),
      irq_consistent H s.io.mem → io_read32 H B s address address = .ret v n s1 →
      irq_consistent H s1.io.mem) ∧
    (∀ s : State β, irq_consistent H s.io.mem → irq_consistent H (io_reset H B s).io.mem) :=
  ⟨by simp [irq_consistent, irq_status_word, irq_any],
   fun s => ⟨update_irq_status_word H B s hdw hlast, update_consistent H B s hdw hlast⟩,
   fun s address data n s1 h hr =>
     io_write32_consistent H B s hdw hlast hck hB address data h n s1 hr,
   fun s r off data hr hoff => io_write32_irq_register H B s hdw r hr off hoff data,
   fun s i h => irq_raise_consistent H B s i hdw hlast h,
   fun s i h => irq_clear_consistent H B s i hdw hlast h,
   fun s address v n s1 h hr => io_read32_consistent H B s hdr hlast hB address h v n s1 hr,
   fun s h => io_reset_consistent H B s hdw hlast hck hB h⟩

/-- In the reference header `CHECON` is none of the interrupt registers. -/
theorem refHeader_CHECON_not_irq : ¬ irqAddr refHeader (refHeader.addr .CHECON) := by
  rintro (e | ⟨n, hn, e | e⟩ | ⟨n, hn, e⟩)
  · revert e
    decide
  · revert e
    interval_cases n <;> decide
  · revert e
    interval_cases n <;> decide
  · revert e
    interval_cases n <;> decide

/-- The backend whose hooks do nothing keeps every property of the register
file. -/
theorem nullBackend_keeps (P : (Nat → Nat) → Prop) : nullBackend.Keeps P :=
  ⟨fun _ h => h, fun _ h => h, fun _ _ _ h => h, fun _ _ h => h, fun _ _ h => h,
   fun _ _ h => h, fun _ _ h => h, fun _ _ h => h, fun _ _ h => h, fun _ _ _ h => h⟩

/-- Witness for C15: the reference header with the backend whose hooks do
nothing. -/
theorem intstat_invariant_witness :
    irq_consistent refHeader (fun _ => 0) ∧
    (∀ s : State Unit,
      (update_irq_status refHeader nullBackend s).io.mem (refHeader.addr .INTSTAT) =
        irq_status_word refHeader s.io.mem ∧
      irq_consistent refHeader (update_irq_status refHeader nullBackend s).io.mem) ∧
    (∀ (s : State Unit) (address data : Nat) (n : Option String) (s1 : State Unit),
      irq_consistent refHeader s.io.mem →
      io_write32 refHeader nullBackend s address address data = .ret n s1 →
      irq_consistent refHeader s1.io.mem) ∧
    (∀ (s : State Unit) (r : Reg) (off data : Nat),
      ((∃ n, n < 6 ∧ (r = .IFS n ∨ r = .IEC n)) ∨ ∃ n, n < 48 ∧ r = .IPC n) →
      (off = 0 ∨ off = 4 ∨ off = 8 ∨ off = 12) →
      ∃ nm, io_write32 refHeader nullBackend s (refHeader.addr r + off)
          (refHeader.addr r + off) data =
        .ret nm (update_irq_status refHeader nullBackend
          (s.set (refHeader.addr r)
            (write_op (s.io.mem (refHeader.addr r)) data (refHeader.addr r + off))))) ∧
    (∀ (s : State Unit) (i : Nat), irq_consistent refHeader s.io.mem →
      irq_consistent refHeader (irq_raise refHeader nullBackend s i).io.mem) ∧
    (∀ (s : State Unit) (i : Nat), irq_consistent refHeader s.io.mem →
      irq_consistent refHeader (irq_clear refHeader nullBackend s i).io.mem) ∧
    (∀ (s : State Unit) (address v : Nat) (n : Option String) (s1 : State Unit),
      irq_consistent refHeader s.io.mem →
      io_read32 refHeader nullBackend s address address = .ret v n s1 →
      irq_consistent refHeader s1.io.mem) ∧
    (∀ s : State Unit, irq_consistent refHeader s.io.mem →
      irq_consistent refHeader (io_reset refHeader nullBackend s).io.mem) :=
  intstat_invariant refHeader nullBackend refHeader_writeLabelsDistinct
    refHeader_readLabelsDistinct (by decide) refHeader_CHECON_not_irq
    (nullBackend_keeps (irq_consistent refHeader))

/-! ## Writable bits of the masked status registers -/

set_option maxRecDepth 100000 in
/-- C21 (code evaluated at the claim's own example): with `SPIROV` set in
`SPI1STAT`, a write of 0 to the set address `SPI1STAT + 8` and a write of 0 to
the clear address `SPI1STAT + 4` both leave `SPI1STAT = 0`, so `SPIROV` is
cleared; `(v & m) | ((v | d) & ~m)` and `(v & m) | ((v & ~d) & ~m)` are 0x40
there.  Likewise with the writable bit `UTXEN = 0x400` set in `U1STA`, a write
of 0x1000 to the set address `U1STA + 8` leaves `U1STA = 0x1000`, not
0x1400. -/
theorem masked_status_set_zero_example :
    spiRovState.io.mem (refHeader.addr (.SPIxSTAT 0)) = refHeader.PIC32_SPISTAT_SPIROV ∧
    (∃ n s1,
      io_write32 refHeader nullBackend spiRovState (refHeader.addr (.SPIxSTAT 0) + 8)
        (refHeader.addr (.SPIxSTAT 0) + 8) 0 = .ret n s1 ∧
      s1.io.mem (refHeader.addr (.SPIxSTAT 0)) = 0) ∧
    (∃ n s1,
      io_write32 refHeader nullBackend spiRovState (refHeader.addr (.SPIxSTAT 0) + 4)
        (refHeader.addr (.SPIxSTAT 0) + 4) 0 = .ret n s1 ∧
      s1.io.mem (refHeader.addr (.SPIxSTAT 0)) = 0) ∧
    (0x40 &&& spistat_romask refHeader) |||
      ((0x40 ||| 0) &&& (0xFFFFFFFF ^^^ spistat_romask refHeader)) = 0x40 ∧
    (0x40 &&& spistat_romask refHeader) |||
      ((0x40 &&& (0xFFFFFFFF ^^^ 0)) &&& (0xFFFFFFFF ^^^ spistat_romask refHeader)) = 0x40 ∧
    ustaTxenState.io.mem (refHeader.addr (.UxSTA 0)) = 0x400 ∧
    0x400 &&& usta_romask refHeader = 0 ∧
    (∃ n s1,
      io_write32 refHeader nullBackend ustaTxenState (refHeader.addr (.UxSTA 0) + 8)
        (refHeader.addr (.UxSTA 0) + 8) 0x1000 = .ret n s1 ∧
      s1.io.mem (refHeader.addr (.UxSTA 0)) = 0x1000) ∧
    (0x400 &&& usta_romask refHeader) |||
      ((0x400 ||| 0x1000) &&& (0xFFFFFFFF ^^^ usta_romask refHeader)) = 0x1400 := by
  have wU := io_write32_of_case refHeader nullBackend ustaTxenState
    refHeader_writeLabelsDistinct
    ⟨refHeader.addr (.UxSTA 0) + 8, (Reg.UxSTA 0).name ++ "SET",
      .opr (.UxSTA 0) (usta_romask refHeader) (.uart_update_status 0)⟩
    (mem_writeCases_uart refHeader 0 (by decide) _
      (by simp [uartWriteCases, WRITEOPR, aliasGroup]))
    (refHeader.addr (.UxSTA 0) + 8) 0x1000
  have wS := io_write32_of_case refHeader nullBackend spiRovState
    refHeader_writeLabelsDistinct
    ⟨refHeader.addr (.SPIxSTAT 0) + 8, (Reg.SPIxSTAT 0).name ++ "SET",
      .opr (.SPIxSTAT 0) (spistat_romask refHeader) .ret⟩
    (mem_writeCases_spi refHeader 0 (by decide) _
      (by simp [spiWriteCases, WRITEOPR, aliasGroup]))
    (refHeader.addr (.SPIxSTAT 0) + 8) 0
  have wC := io_write32_of_case refHeader nullBackend spiRovState
    refHeader_writeLabelsDistinct
    ⟨refHeader.addr (.SPIxSTAT 0) + 4, (Reg.SPIxSTAT 0).name ++ "CLR",
      .opr (.SPIxSTAT 0) (spistat_romask refHeader) .ret⟩
    (mem_writeCases_spi refHeader 0 (by decide) _
      (by simp [spiWriteCases, WRITEOPR, aliasGroup]))
    (refHeader.addr (.SPIxSTAT 0) + 4) 0
  exact ⟨by decide, ⟨_, _, wS.trans rfl, by decide⟩, ⟨_, _, wC.trans rfl, by decide⟩,
    by decide, by decide, by decide, by decide, ⟨_, _, wU.trans rfl, by decide⟩, by decide⟩

/-! ## Side effects of register writes and reads -/

/-- The calls that `gpio_write` makes, and what it leaves alone. -/
theorem gpio_write_calls {β : Type} (H : Header) (B : Backend β) (s : State β)
    (port lat : Nat) :
    (gpio_write H B s port lat).trace =
      s.trace ++
        (if port = H.sdcard_gpio_port0 ∧ H.sdcard_gpio_cs0 ≠ 0
          then [Call.sdcard_select 0 (if lat &&& H.sdcard_gpio_cs0 = 0 then 1 else 0)]
          else []) ++
        (if port = H.sdcard_gpio_port1 ∧ H.sdcard_gpio_cs1 ≠ 0
          then [Call.sdcard_select 1 (if lat &&& H.sdcard_gpio_cs1 = 0 then 1 else 0)]
          else []) := by
  unfold gpio_write
  simp only []
  split_ifs <;> simp [State.hookExt]

/-- C22: for every GPIO bank `p = 0..6` (A..G), every one of the four alias
addresses of `LATp` and every data word, `io_write32` returns the state that
`gpio_write` yields when called once, with bank `p` and the new value of
`LATp`, on the state in which `LATp` has been updated by `write_op`. -/
theorem lat_write_notifies {β : Type} (H : Header) (B : Backend β) (s : State β)
    (hd : H.WriteLabelsDistinct) (p : Nat) (hp : p < 7) (off : Nat)
    (hoff : off = 0 ∨ off = 4 ∨ off = 8 ∨ off = 12) (bufp d : Nat) :
    ∃ nm, io_write32 H B s (H.addr (.LAT p) + off) bufp d =
      .ret (some nm)
        (gpio_write H B
          (s.set (H.addr (.LAT p))
            (write_op (s.io.mem (H.addr (.LAT p))) d (H.addr (.LAT p) + off)))
          p (write_op (s.io.mem (H.addr (.LAT p))) d (H.addr (.LAT p) + off))) := by
  obtain ⟨c, hc, hl, hb⟩ := aliasGroup_label H (.LAT p) (.op (.LAT p) (.gpio p)) off hoff
  have hm : c ∈ writeCases H :=
    mem_writeCases_gpio H p hp c (by simp [gpioWriteCases, WRITEOP, hc])
  have hw := io_write32_op H B s hd c hm _ _ hb bufp d
  rw [hl] at hw
  refine ⟨c.name, ?_⟩
  rw [hw]
  simp only [run_tail, set_mem, store_same]

/-- C23: `gpio_write (port, lat)` appends to the calls made so far, for SD
card 0 and then for SD card 1, one call `sdcard_select (u, on)` when the
chip-select port of card `u` is `port` and its chip-select mask is nonzero,
with `on = 1` when `lat & cs_u = 0` and `on = 0` otherwise, and no call for a
card on another port or with mask 0; the card state is what these calls leave,
and the register file and the sequencer state are as before. -/
theorem gpio_write_selects {β : Type} (H : Header) (B : Backend β) (s : State β)
    (port lat : Nat) :
    (gpio_write H B s port lat).trace =
      s.trace ++
        (if port = H.sdcard_gpio_port0 ∧ H.sdcard_gpio_cs0 ≠ 0
          then [Call.sdcard_select 0 (if lat &&& H.sdcard_gpio_cs0 = 0 then 1 else 0)]
          else []) ++
        (if port = H.sdcard_gpio_port1 ∧ H.sdcard_gpio_cs1 ≠ 0
          then [Call.sdcard_select 1 (if lat &&& H.sdcard_gpio_cs1 = 0 then 1 else 0)]
          else []) ∧
    (gpio_write H B s port lat).io.ext =
      (if port = H.sdcard_gpio_port1 ∧ H.sdcard_gpio_cs1 ≠ 0
        then B.sdcard_select 1 (if lat &&& H.sdcard_gpio_cs1 = 0 then 1 else 0)
        else id)
        ((if port = H.sdcard_gpio_port0 ∧ H.sdcard_gpio_cs0 ≠ 0
          then B.sdcard_select 0 (if lat &&& H.sdcard_gpio_cs0 = 0 then 1 else 0)
          else id) s.io.ext) ∧
    (gpio_write H B s port lat).io.mem = s.io.mem ∧
    (gpio_write H B s port lat).syskey_unlock = s.syskey_unlock := by
  refine ⟨gpio_write_calls H B s port lat, ?_, gpio_write_mem H B s port lat, ?_⟩
  · unfold gpio_write
    simp only []
    split_ifs <;> simp [State.hookExt]
  · unfold gpio_write
    simp only []
    split_ifs <;> simp [State.hookExt]

/-- The case labels of the UARTs are case labels of `io_read32`. -/
theorem mem_readCases_uart (H : Header) (u : Nat) (hu : u < 6) (c : RCase)
    (hc : c ∈ uartReadCases H u) : c ∈ readCases H := by
  unfold readCases
  exact List.mem_append_left _
    (List.mem_append_right _ (List.mem_flatMap.mpr ⟨u, List.mem_range.mpr hu, hc⟩))

/-- C24: for every UART `u = 0..5` (`U1..U6`) and every data word `d`,
`io_write32` to `UxTXREG` makes the one call `uart_put_char (u, d)` and then
stores `d` in the slot; `io_read32` of `UxTXREG` stores 0 in the slot and
returns 0 in every state, in particular in the state the write leaves. -/
theorem uart_txreg_access {β : Type} (H : Header) (B : Backend β) (s : State β)
    (hdw : H.WriteLabelsDistinct) (hdr : H.ReadLabelsDistinct) (u : Nat) (hu : u < 6)
    (d : Nat) :
    io_write32 H B s (H.addr (.UxTXREG u)) (H.addr (.UxTXREG u)) d =
      .ret (some (Reg.UxTXREG u).name)
        ((s.hook (.uart_put_char u d) (B.uart_put_char u d)).set (H.addr (.UxTXREG u)) d) ∧
    ((s.hook (.uart_put_char u d) (B.uart_put_char u d)).set (H.addr (.UxTXREG u)) d).trace =
      s.trace ++ [Call.uart_put_char u d] ∧
    (∀ s1 : State β,
      io_read32 H B s1 (H.addr (.UxTXREG u)) (H.addr (.UxTXREG u)) =
        .ret 0 (some (Reg.UxTXREG u).name) (s1.set (H.addr (.UxTXREG u)) 0)) := by
  refine ⟨?_, rfl, ?_⟩
  · have h := io_write32_of_case H B s hdw
      ⟨H.addr (.UxTXREG u), (Reg.UxTXREG u).name, .uart_tx u⟩
      (mem_writeCases_uart H u hu _ (by simp [uartWriteCases, STORAGE]))
      (H.addr (.UxTXREG u)) d
    exact h
  · intro s1
    have h := io_read32_of_case H B s1 hdr
      ⟨H.addr (.UxTXREG u), (Reg.UxTXREG u).name, .zero⟩
      (mem_readCases_uart H u hu _ (by simp [uartReadCases, RSTORAGE]))
      (H.addr (.UxTXREG u))
    simp only [] at h
    rw [h]
    unfold run_rcase
    simp only [set_mem, store_same]

/-- C25: for every UART `u = 0..5` (`U1..U6`), `io_read32` of `UxRXREG` makes
the one call `uart_get_char (u)`, stores its result in the slot and returns
that result; `io_read32` of `UxSTA` makes the one call `uart_poll_status (u)`
and returns the value that `UxSTA` holds in the register file the poll leaves. -/
theorem uart_rx_sta_read {β : Type} (H : Header) (B : Backend β) (s : State β)
    (hdr : H.ReadLabelsDistinct) (u : Nat) (hu : u < 6) :
    (∃ s1 : State β,
      io_read32 H B s (H.addr (.UxRXREG u)) (H.addr (.UxRXREG u)) =
        .ret (B.uart_get_char u s.io).1 (some (Reg.UxRXREG u).name) s1 ∧
      s1.trace = s.trace ++ [Call.uart_get_char u] ∧
      s1.io.mem = store (B.uart_get_char u s.io).2.mem (H.addr (.UxRXREG u))
        (B.uart_get_char u s.io).1 ∧
      s1.io.ext = (B.uart_get_char u s.io).2.ext) ∧
    (∃ s1 : State β,
      io_read32 H B s (H.addr (.UxSTA u)) (H.addr (.UxSTA u)) =
        .ret ((B.uart_poll_status u s.io).mem (H.addr (.UxSTA u)))
          (some (Reg.UxSTA u).name) s1 ∧
      s1.trace = s.trace ++ [Call.uart_poll_status u] ∧
      s1.io = B.uart_poll_status u s.io) := by
  constructor
  · have h := io_read32_of_case H B s hdr
      ⟨H.addr (.UxRXREG u), (Reg.UxRXREG u).name, .uart_rx u⟩
      (mem_readCases_uart H u hu _ (by simp [uartReadCases, RSTORAGE]))
      (H.addr (.UxRXREG u))
    simp only [] at h
    refine ⟨({ s with io := (B.uart_get_char u s.io).2,
                      trace := s.trace ++ [.uart_get_char u] } : State β).set
        (H.addr (.UxRXREG u)) (B.uart_get_char u s.io).1, ?_, rfl, rfl, rfl⟩
    rw [h]
    unfold run_rcase
    simp only [set_mem, store_same]
  · have h := io_read32_of_case H B s hdr
      ⟨H.addr (.UxSTA u), (Reg.UxSTA u).name, .uart_sta u⟩
      (mem_readCases_uart H u hu _ (by simp [uartReadCases, RSTORAGE]))
      (H.addr (.UxSTA u))
    simp only [] at h
    exact ⟨_, h, rfl, rfl⟩

/-- C26: for every SPI controller `k = 0..3` (`SPI1..SPI4`) and every data
word `d`, `io_write32` to `SPIxBUF` makes the one call `spi_writebuf (k, d)`
on the register file as it was and stores nothing afterwards; `io_read32` of
`SPIxBUF` makes the one call `spi_readbuf (k)` and returns its result. -/
theorem spi_buf_access {β : Type} (H : Header) (B : Backend β) (s : State β)
    (hdw : H.WriteLabelsDistinct) (hdr : H.ReadLabelsDistinct) (k : Nat) (hk : k < 4)
    (bufp d : Nat) :
    (∃ s1 : State β,
      io_write32 H B s (H.addr (.SPIxBUF k)) bufp d =
        .ret (some (Reg.SPIxBUF k).name) s1 ∧
      s1.trace = s.trace ++ [Call.spi_writebuf k d] ∧
      s1.io = B.spi_writebuf k d s.io ∧
      s1.syskey_unlock = s.syskey_unlock) ∧
    (∃ s1 : State β,
      io_read32 H B s (H.addr (.SPIxBUF k)) (H.addr (.SPIxBUF k)) =
        .ret (B.spi_readbuf k s.io).1 (some (Reg.SPIxBUF k).name) s1 ∧
      s1.trace = s.trace ++ [Call.spi_readbuf k]) := by
  constructor
  · have h := io_write32_of_case H B s hdw
      ⟨H.addr (.SPIxBUF k), (Reg.SPIxBUF k).name, .spi_buf k⟩
      (mem_writeCases_spi H k hk _ (by simp [spiWriteCases, STORAGE]))
      bufp d
    exact ⟨_, h, rfl, rfl, rfl⟩
  · have h := io_read32_of_case H B s hdr
      ⟨H.addr (.SPIxBUF k), (Reg.SPIxBUF k).name, .spi_buf k⟩
      (mem_readCases_spi H k hk _ (by simp [spiReadCases, RSTORAGE]))
      (H.addr (.SPIxBUF k))
    simp only [] at h
    refine ⟨({ s with io := (B.spi_readbuf k s.io).2,
                      trace := s.trace ++ [.spi_readbuf k] } : State β).set
        (H.addr (.SPIxBUF k)) (B.spi_readbuf k s.io).1, ?_, rfl⟩
    rw [h]
    unfold run_rcase
    simp only [set_mem, store_same]

/-- C27: for every SPI controller `k = 0..3` (`SPI1..SPI4`), every one of the
four alias addresses of `SPIxCON` and every data word, `io_write32` updates
`SPIxCON` by `write_op` and then makes the one call `spi_control (k)`, on the
register file that holds the new value. -/
theorem spi_con_write {β : Type} (H : Header) (B : Backend β) (s : State β)
    (hd : H.WriteLabelsDistinct) (k : Nat) (hk : k < 4) (off : Nat)
    (hoff : off = 0 ∨ off = 4 ∨ off = 8 ∨ off = 12) (bufp d : Nat) :
    ∃ (nm : String) (s1 : State β),
      io_write32 H B s (H.addr (.SPIxCON k) + off) bufp d =
        .ret (some nm) (s1.hook (.spi_control k) (B.spi_control k)) ∧
      s1 = s.set (H.addr (.SPIxCON k))
        (write_op (s.io.mem (H.addr (.SPIxCON k))) d (H.addr (.SPIxCON k) + off)) ∧
      s1.io.mem (H.addr (.SPIxCON k)) =
        write_op (s.io.mem (H.addr (.SPIxCON k))) d (H.addr (.SPIxCON k) + off) ∧
      (s1.hook (.spi_control k) (B.spi_control k)).trace = s.trace ++ [Call.spi_control k] := by
  obtain ⟨c, hc, hl, hb⟩ :=
    aliasGroup_label H (.SPIxCON k) (.op (.SPIxCON k) (.spi_control k)) off hoff
  have hm : c ∈ writeCases H :=
    mem_writeCases_spi H k hk c (by simp [spiWriteCases, WRITEOP, hc])
  have hw := io_write32_op H B s hd c hm _ _ hb bufp d
  rw [hl] at hw
  exact ⟨c.name, _, hw, rfl, by rw [set_mem, store_same], rfl⟩

/-- Witness for C22: a set-write of 0x10 to `LATD + 8` from the all-zero
state; bank D carries the chip select of SD card 0. -/
theorem lat_write_notifies_witness :
    ∃ nm, io_write32 refHeader nullBackend zeroState (refHeader.addr (.LAT 3) + 8)
        (refHeader.addr (.LAT 3) + 8) 0x10 =
      .ret (some nm)
        (gpio_write refHeader nullBackend
          (zeroState.set (refHeader.addr (.LAT 3))
            (write_op (zeroState.io.mem (refHeader.addr (.LAT 3))) 0x10
              (refHeader.addr (.LAT 3) + 8)))
          3 (write_op (zeroState.io.mem (refHeader.addr (.LAT 3))) 0x10
              (refHeader.addr (.LAT 3) + 8))) :=
  lat_write_notifies refHeader nullBackend zeroState refHeader_writeLabelsDistinct 3
    (by decide) 8 (Or.inr (Or.inr (Or.inl rfl))) (refHeader.addr (.LAT 3) + 8) 0x10

/-- Witness for C24: the byte 0x41 written to `U1TXREG` from the all-zero
state. -/
theorem uart_txreg_access_witness :
    io_write32 refHeader nullBackend zeroState (refHeader.addr (.UxTXREG 0))
        (refHeader.addr (.UxTXREG 0)) 0x41 =
      .ret (some (Reg.UxTXREG 0).name)
        ((zeroState.hook (.uart_put_char 0 0x41) (nullBackend.uart_put_char 0 0x41)).set
          (refHeader.addr (.UxTXREG 0)) 0x41) ∧
    ((zeroState.hook (.uart_put_char 0 0x41) (nullBackend.uart_put_char 0 0x41)).set
        (refHeader.addr (.UxTXREG 0)) 0x41).trace =
      zeroState.trace ++ [Call.uart_put_char 0 0x41] ∧
    (∀ s1 : State Unit,
      io_read32 refHeader nullBackend s1 (refHeader.addr (.UxTXREG 0))
          (refHeader.addr (.UxTXREG 0)) =
        .ret 0 (some (Reg.UxTXREG 0).name) (s1.set (refHeader.addr (.UxTXREG 0)) 0)) :=
  uart_txreg_access refHeader nullBackend zeroState refHeader_writeLabelsDistinct
    refHeader_readLabelsDistinct 0 (by decide) 0x41

/-- Witness for C25: UART 1 with collaborators that deliver the byte 0x41 and
set `URXDA` on a poll. -/
theorem uart_rx_sta_read_witness :
    (∃ s1 : State Unit,
      io_read32 refHeader pollBackend zeroState (refHeader.addr (.UxRXREG 0))
          (refHeader.addr (.UxRXREG 0)) =
        .ret (pollBackend.uart_get_char 0 zeroState.io).1 (some (Reg.UxRXREG 0).name) s1 ∧
      s1.trace = zeroState.trace ++ [Call.uart_get_char 0] ∧
      s1.io.mem = store (pollBackend.uart_get_char 0 zeroState.io).2.mem
        (refHeader.addr (.UxRXREG 0)) (pollBackend.uart_get_char 0 zeroState.io).1 ∧
      s1.io.ext = (pollBackend.uart_get_char 0 zeroState.io).2.ext) ∧
    (∃ s1 : State Unit,
      io_read32 refHeader pollBackend zeroState (refHeader.addr (.UxSTA 0))
          (refHeader.addr (.UxSTA 0)) =
        .ret ((pollBackend.uart_poll_status 0 zeroState.io).mem (refHeader.addr (.UxSTA 0)))
          (some (Reg.UxSTA 0).name) s1 ∧
      s1.trace = zeroState.trace ++ [Call.uart_poll_status 0] ∧
      s1.io = pollBackend.uart_poll_status 0 zeroState.io) :=
  uart_rx_sta_read refHeader pollBackend zeroState refHeader_readLabelsDistinct 0 (by decide)

/-- Witness for C26: SPI 1 with a collaborator whose `spi_readbuf` delivers
0x5A. -/
theorem spi_buf_access_witness :
    (∃ s1 : State Unit,
      io_write32 refHeader pollBackend zeroState (refHeader.addr (.SPIxBUF 0))
          (refHeader.addr (.SPIxBUF 0)) 0xA5 =
        .ret (some (Reg.SPIxBUF 0).name) s1 ∧
      s1.trace = zeroState.trace ++ [Call.spi_writebuf 0 0xA5] ∧
      s1.io = pollBackend.spi_writebuf 0 0xA5 zeroState.io ∧
      s1.syskey_unlock = zeroState.syskey_unlock) ∧
    (∃ s1 : State Unit,
      io_read32 refHeader pollBackend zeroState (refHeader.addr (.SPIxBUF 0))
          (refHeader.addr (.SPIxBUF 0)) =
        .ret (pollBackend.spi_readbuf 0 zeroState.io).1 (some (Reg.SPIxBUF 0).name) s1 ∧
      s1.trace = zeroState.trace ++ [Call.spi_readbuf 0]) :=
  spi_buf_access refHeader pollBackend zeroState refHeader_writeLabelsDistinct
    refHeader_readLabelsDistinct 0 (by decide) (refHeader.addr (.SPIxBUF 0)) 0xA5

/-- Witness for C27: a set-write of 0x8000 to `SPI1CON + 8` from the all-zero
state. -/
theorem spi_con_write_witness :
    ∃ (nm : String) (s1 : State Unit),
      io_write32 refHeader nullBackend zeroState (refHeader.addr (.SPIxCON 0) + 8)
          (refHeader.addr (.SPIxCON 0) + 8) 0x8000 =
        .ret (some nm) (s1.hook (.spi_control 0) (nullBackend.spi_control 0)) ∧
      s1 = zeroState.set (refHeader.addr (.SPIxCON 0))
        (write_op (zeroState.io.mem (refHeader.addr (.SPIxCON 0))) 0x8000
          (refHeader.addr (.SPIxCON 0) + 8)) ∧
      s1.io.mem (refHeader.addr (.SPIxCON 0)) =
        write_op (zeroState.io.mem (refHeader.addr (.SPIxCON 0))) 0x8000
          (refHeader.addr (.SPIxCON 0) + 8) ∧
      (s1.hook (.spi_control 0) (nullBackend.spi_control 0)).trace =
        zeroState.trace ++ [Call.spi_control 0] :=
  spi_con_write refHeader nullBackend zeroState refHeader_writeLabelsDistinct 0 (by decide) 8
    (Or.inr (Or.inr (Or.inl rfl))) (refHeader.addr (.SPIxCON 0) + 8) 0x8000

/-! ## One stored value per alias group -/

/-- Two assignments to the same slot are the last one. -/
theorem set_set {β : Type} (s : State β) (a v w : Nat) :
    (s.set a v).set a w = s.set a w := by
  simp only [State.set]
  congr 2
  funext x
  simp only [store]
  split_ifs <;> rfl

/-- With distinct labels, no label of a `WRITEOP` group followed by the
recomputation of the interrupt status is the address of `INTSTAT`. -/
theorem alias_label_ne_INTSTAT {H : Header} (hd : H.WriteLabelsDistinct) (c : WCase)
    (hc : c ∈ writeCases H) (hb : c.body ≠ .readonly) : c.label ≠ H.addr .INTSTAT := by
  intro e
  have h2 : (⟨H.addr .INTSTAT, Reg.name .INTSTAT, .readonly⟩ : WCase) ∈ writeCases H := by
    simp [writeCases, READONLY]
  have := case_unique (fun x : WCase => x.label) (writeCases H) hd c _ hc h2 e
  exact hb (by rw [this])

/-- What the statements after the storage update leave in the register file
when they call no UART or SPI function. -/
theorem run_tail_frame {β : Type} (H : Header) (B : Backend β) (s : State β) (t : WTail)
    (ht : t = .ret ∨ t = .irq ∨ ∃ p, t = .gpio p) (x : Nat)
    (hx : t = .irq → x ≠ H.addr .INTSTAT) :
    (run_tail H B s t).io.mem x = s.io.mem x := by
  rcases ht with rfl | rfl | ⟨p, rfl⟩
  · rfl
  · exact update_irq_status_mem_other H B s x (hx rfl)
  · show (gpio_write H B s p _).io.mem x = _
    rw [gpio_write_mem]

/-- C28: let `R` be declared with `WRITEOP (R)` or `WRITEOPR (R, m)`, followed
by the statements `t`.  A write to `R`, `R+4`, `R+8` or `R+12` returns the
state that `t` yields on the state that differs from the old one in the slot
of `R` only.  When `t` calls no UART or SPI function (it returns, calls
`gpio_write`, or recomputes the interrupt status), every slot other than `R`
(and other than `INTSTAT` for the recomputation) holds its old value
afterwards, the slots at `R+4`, `R+8` and `R+12` among them; when `t` is a
call of `uart_update_mode`, `uart_update_status` or `spi_control`, the
register file afterwards is the one that function returns. -/
theorem alias_group_frame {β : Type} (H : Header) (B : Backend β) (s : State β)
    (hd : H.WriteLabelsDistinct) (r : Reg) (t : WTail)
    (hg : (∀ c ∈ WRITEOP H r t, c ∈ writeCases H) ∨
      ∃ m, ∀ c ∈ WRITEOPR H r m t, c ∈ writeCases H)
    (off : Nat) (hoff : off = 0 ∨ off = 4 ∨ off = 8 ∨ off = 12) (bufp d : Nat) :
    ∃ (nm : String) (w : Nat) (s1 : State β),
      io_write32 H B s (H.addr r + off) bufp d = .ret (some nm) s1 ∧
      s1 = run_tail H B (s.set (H.addr r) w) t ∧
      (∀ x, x ≠ H.addr r → (s.set (H.addr r) w).io.mem x = s.io.mem x) ∧
      ((t = .ret ∨ t = .irq ∨ ∃ p, t = .gpio p) →
        (∀ x, x ≠ H.addr r → (t = .irq → x ≠ H.addr .INTSTAT) → s1.io.mem x = s.io.mem x) ∧
        s1.io.mem (H.addr r + 4) = s.io.mem (H.addr r + 4) ∧
        s1.io.mem (H.addr r + 8) = s.io.mem (H.addr r + 8) ∧
        s1.io.mem (H.addr r + 12) = s.io.mem (H.addr r + 12)) ∧
      (∀ u, t = .uart_update_mode u →
        s1.io = B.uart_update_mode u (s.set (H.addr r) w).io) ∧
      (∀ u, t = .uart_update_status u →
        s1.io = B.uart_update_status u (s.set (H.addr r) w).io) ∧
      (∀ k, t = .spi_control k → s1.io = B.spi_control k (s.set (H.addr r) w).io) := by
  -- the four labels of the group are case labels, none of them `INTSTAT`
  have hlab : ∃ b : WBody, b ≠ .readonly ∧ (∀ c ∈ aliasGroup H r b, c ∈ writeCases H) ∧
      ∀ c ∈ writeCases H, c.body = b → ∃ w,
        io_write32 H B s c.label bufp d =
          .ret (some c.name) (run_tail H B (s.set (H.addr r) w) t) := by
    rcases hg with hg | ⟨m, hg⟩
    · refine ⟨.op r t, (fun e => by cases e), hg, ?_⟩
      intro c hc hb
      exact ⟨_, io_write32_op H B s hd c hc r t hb bufp d⟩
    · refine ⟨.opr r m t, (fun e => by cases e), hg, ?_⟩
      intro c hc hb
      exact ⟨_, io_write32_opr H B s hd c hc r m t hb bufp d⟩
  obtain ⟨b, hbr, hsub, hrun⟩ := hlab
  have hne : ∀ k, (k = 0 ∨ k = 4 ∨ k = 8 ∨ k = 12) → H.addr r + k ≠ H.addr .INTSTAT := by
    intro k hk
    obtain ⟨c, hc, hl, hb⟩ := aliasGroup_label H r b k hk
    have := alias_label_ne_INTSTAT hd c (hsub c hc) (by rw [hb]; exact hbr)
    rwa [hl] at this
  obtain ⟨c, hc, hl, hb⟩ := aliasGroup_label H r b off hoff
  obtain ⟨w, hw⟩ := hrun c (hsub c hc) hb
  rw [hl] at hw
  refine ⟨c.name, w, _, hw, rfl, ?_, ?_, ?_, ?_, ?_⟩
  · intro x hx
    rw [set_mem, store_other _ _ _ _ hx]
  · intro ht
    have key : ∀ x, x ≠ H.addr r → (t = .irq → x ≠ H.addr .INTSTAT) →
        (run_tail H B (s.set (H.addr r) w) t).io.mem x = s.io.mem x := by
      intro x hx hi
      rw [run_tail_frame H B _ t ht x hi, set_mem, store_other _ _ _ _ hx]
    exact ⟨key,
      key _ (by omega) (fun _ => hne 4 (by omega)),
      key _ (by omega) (fun _ => hne 8 (by omega)),
      key _ (by omega) (fun _ => hne 12 (by omega))⟩
  · rintro u rfl
    rfl
  · rintro u rfl
    rfl
  · rintro k rfl
    rfl

/-- Witness for C28: an invert-write to `IFS0 + 12` in the state with four
flags pending. -/
theorem alias_group_frame_witness :
    ∃ (nm : String) (w : Nat) (s1 : State Unit),
      io_write32 refHeader nullBackend tieState (refHeader.addr (.IFS 0) + 12)
        (refHeader.addr (.IFS 0) + 12) 0x4 = .ret (some nm) s1 ∧
      s1 = run_tail refHeader nullBackend (tieState.set (refHeader.addr (.IFS 0)) w) .irq ∧
      (∀ x, x ≠ refHeader.addr (.IFS 0) →
        (tieState.set (refHeader.addr (.IFS 0)) w).io.mem x = tieState.io.mem x) ∧
      ((WTail.irq = .ret ∨ WTail.irq = .irq ∨ ∃ p, WTail.irq = .gpio p) →
        (∀ x, x ≠ refHeader.addr (.IFS 0) → (WTail.irq = .irq → x ≠ refHeader.addr .INTSTAT) →
          s1.io.mem x = tieState.io.mem x) ∧
        s1.io.mem (refHeader.addr (.IFS 0) + 4) = tieState.io.mem (refHeader.addr (.IFS 0) + 4) ∧
        s1.io.mem (refHeader.addr (.IFS 0) + 8) = tieState.io.mem (refHeader.addr (.IFS 0) + 8) ∧
        s1.io.mem (refHeader.addr (.IFS 0) + 12) =
          tieState.io.mem (refHeader.addr (.IFS 0) + 12)) ∧
      (∀ u, WTail.irq = .uart_update_mode u →
        s1.io = nullBackend.uart_update_mode u (tieState.set (refHeader.addr (.IFS 0)) w).io) ∧
      (∀ u, WTail.irq = .uart_update_status u →
        s1.io = nullBackend.uart_update_status u (tieState.set (refHeader.addr (.IFS 0)) w).io) ∧
      (∀ k, WTail.irq = .spi_control k →
        s1.io = nullBackend.spi_control k (tieState.set (refHeader.addr (.IFS 0)) w).io) :=
  alias_group_frame refHeader nullBackend tieState refHeader_writeLabelsDistinct (.IFS 0) .irq
    (Or.inl (mem_writeCases_IFS refHeader 0 (by decide))) 12 (Or.inr (Or.inr (Or.inr rfl)))
    (refHeader.addr (.IFS 0) + 12) 0x4

/-! ## The two decoders -/

set_option maxRecDepth 100000 in
/-- C29 (code evaluated at failing inputs): `io_write32` accepts `IPTMR`, the
clear address `INTCON + 4` and the set address `LATA + 8` and returns, while
`io_read32` at each of these addresses ends in the fatal exit. -/
theorem decoders_disagree_example :
    (∃ n s1, io_write32 refHeader nullBackend zeroState (refHeader.addr .IPTMR)
        (refHeader.addr .IPTMR) 0 = .ret n s1) ∧
    io_read32 refHeader nullBackend zeroState (refHeader.addr .IPTMR)
        (refHeader.addr .IPTMR) =
      .exit (.read_unsupported (refHeader.addr .IPTMR)) zeroState ∧
    (∃ n s1, io_write32 refHeader nullBackend zeroState (refHeader.addr .INTCON + 4)
        (refHeader.addr .INTCON + 4) 0 = .ret n s1) ∧
    io_read32 refHeader nullBackend zeroState (refHeader.addr .INTCON + 4)
        (refHeader.addr .INTCON + 4) =
      .exit (.read_unsupported (refHeader.addr .INTCON + 4)) zeroState ∧
    (∃ n s1, io_write32 refHeader nullBackend zeroState (refHeader.addr (.LAT 0) + 8)
        (refHeader.addr (.LAT 0) + 8) 0 = .ret n s1) ∧
    io_read32 refHeader nullBackend zeroState (refHeader.addr (.LAT 0) + 8)
        (refHeader.addr (.LAT 0) + 8) =
      .exit (.read_unsupported (refHeader.addr (.LAT 0) + 8)) zeroState := by
  have w1 := io_write32_op refHeader nullBackend zeroState refHeader_writeLabelsDistinct
    ⟨refHeader.addr .IPTMR, Reg.name .IPTMR, .op .IPTMR .ret⟩
    (by simp [writeCases, WRITEOP, aliasGroup]) .IPTMR .ret rfl (refHeader.addr .IPTMR) 0
  have w2 := io_write32_op refHeader nullBackend zeroState refHeader_writeLabelsDistinct
    ⟨refHeader.addr .INTCON + 4, Reg.name .INTCON ++ "CLR", .op .INTCON .ret⟩
    (by simp [writeCases, WRITEOP, aliasGroup]) .INTCON .ret rfl
    (refHeader.addr .INTCON + 4) 0
  have w3 := io_write32_op refHeader nullBackend zeroState refHeader_writeLabelsDistinct
    ⟨refHeader.addr (.LAT 0) + 8, (Reg.LAT 0).name ++ "SET", .op (.LAT 0) (.gpio 0)⟩
    (mem_writeCases_gpio refHeader 0 (by decide) _
      (by simp [gpioWriteCases, WRITEOP, aliasGroup])) (.LAT 0) (.gpio 0) rfl
    (refHeader.addr (.LAT 0) + 8) 0
  exact ⟨⟨_, _, w1⟩, io_read32_unmapped refHeader nullBackend zeroState _ _ (by decide),
    ⟨_, _, w2⟩, io_read32_unmapped refHeader nullBackend zeroState _ _ (by decide),
    ⟨_, _, w3⟩, io_read32_unmapped refHeader nullBackend zeroState _ _ (by decide)⟩

/-! ## Plain storage reads -/

/-- Every register of `Reg.plainRead` has its case `STORAGE (name); break;`
in `io_read32`. -/
theorem plainRead_mem (H : Header) (r : Reg) (hr : r.plainRead = true) :
    (⟨H.addr r, r.name, .plain⟩ : RCase) ∈ readCases H := by
  cases r <;> simp only [Reg.plainRead, decide_eq_true_eq] at hr <;>
    first
    | exact absurd hr (by decide)
    | exact mem_readCases_IFS H _ hr
    | exact mem_readCases_IEC H _ hr
    | exact mem_readCases_IPC H _ hr
    | exact mem_readCases_gpio H _ hr _ (by simp [gpioReadCases, RSTORAGE])
    | exact mem_readCases_uart H _ hr _ (by simp [uartReadCases, RSTORAGE])
    | exact mem_readCases_spi H _ hr _ (by simp [spiReadCases, RSTORAGE])
    | simp [readCases, RSTORAGE]

/-- Every case `STORAGE (name); break;` of `io_read32` is the case of a
register of `Reg.plainRead`. -/
theorem plain_case_reg (H : Header) (c : RCase) (hc : c ∈ readCases H) (hb : c.body = .plain) :
    ∃ r : Reg, r.plainRead = true ∧ c = ⟨H.addr r, r.name, .plain⟩ := by
  unfold readCases at hc
  simp only [List.mem_append, List.mem_flatMap, List.mem_range, RSTORAGE, gpioReadCases,
    uartReadCases, spiReadCases, List.mem_singleton, List.mem_cons, List.not_mem_nil,
    or_false] at hc
  rcases hc with ((((((((((((((( h | h) | ⟨n, hn, h⟩) | ⟨n, hn, h⟩) | ⟨n, hn, h⟩) | h) | h) |
    h) | h) | h) | h) | h) | h) | ⟨p, hp, h⟩) | ⟨u, hu, h⟩) | ⟨k, hk, h⟩)
  · exact ⟨.INTCON, rfl, h⟩
  · exact ⟨.INTSTAT, rfl, h⟩
  · exact ⟨.IFS n, by simpa [Reg.plainRead] using hn, h⟩
  · exact ⟨.IEC n, by simpa [Reg.plainRead] using hn, h⟩
  · exact ⟨.IPC n, by simpa [Reg.plainRead] using hn, h⟩
  · exact ⟨.PRECON, rfl, h⟩
  · exact ⟨.PRESTAT, rfl, h⟩
  · exact ⟨.OSCCON, rfl, h⟩
  · exact ⟨.OSCTUN, rfl, h⟩
  · exact ⟨.DEVID, rfl, h⟩
  · exact ⟨.SYSKEY, rfl, h⟩
  · exact ⟨.RCON, rfl, h⟩
  · exact ⟨.RSWRST, rfl, h⟩
  · simp only [or_assoc] at h
    rcases h with h | h | h | h | h | h | h | h | h
    · exact ⟨.TRIS p, by simpa [Reg.plainRead] using hp, h⟩
    · exact ⟨.PORT p, by simpa [Reg.plainRead] using hp, h⟩
    · exact ⟨.LAT p, by simpa [Reg.plainRead] using hp, h⟩
    · exact ⟨.ODC p, by simpa [Reg.plainRead] using hp, h⟩
    · exact ⟨.CNPU p, by simpa [Reg.plainRead] using hp, h⟩
    · exact ⟨.CNPD p, by simpa [Reg.plainRead] using hp, h⟩
    · exact ⟨.CNCON p, by simpa [Reg.plainRead] using hp, h⟩
    · exact ⟨.CNEN p, by simpa [Reg.plainRead] using hp, h⟩
    · exact ⟨.CNSTAT p, by simpa [Reg.plainRead] using hp, h⟩
  · simp only [or_assoc] at h
    rcases h with h | h | h | h | h | h | h | h | h | h | h | h | h | h <;>
      first
      | exact ⟨.UxBRG u, by simpa [Reg.plainRead] using hu, h⟩
      | exact ⟨.UxMODE u, by simpa [Reg.plainRead] using hu, h⟩
      | (rw [h] at hb; cases hb)
  · simp only [or_assoc] at h
    rcases h with h | h | h | h | h | h | h | h | h | h | h | h | h <;>
      first
      | exact ⟨.SPIxCON k, by simpa [Reg.plainRead] using hk, h⟩
      | exact ⟨.SPIxSTAT k, by simpa [Reg.plainRead] using hk, h⟩
      | exact ⟨.SPIxBRG k, by simpa [Reg.plainRead] using hk, h⟩
      | (rw [h] at hb; cases hb)

/-- C30: for every register whose case in `io_read32` is
`STORAGE (name); break;` (`INTCON`, `INTSTAT`, `IFS0..5`, `IEC0..5`,
`IPC0..47`, `PRECON`, `PRESTAT`, `OSCCON`, `OSCTUN`, `DEVID`, `SYSKEY`, `RCON`,
`RSWRST`, the nine registers of each GPIO bank A..G, `UxBRG`, `UxMODE`,
`SPIxCON`, `SPIxSTAT`, `SPIxBRG`), `io_read32` at the address of the register,
with the slot of that address, returns the stored value, leaves the name of
the register in `*namep`, and returns the state it was called in: register
file, collaborators, sequencer state and calls made are as before.  These are
all the cases of `io_read32` with no statement before `break`. -/
theorem plain_read {β : Type} (H : Header) (B : Backend β) (s : State β)
    (hd : H.ReadLabelsDistinct) :
    (∀ r : Reg, r.plainRead = true →
      io_read32 H B s (H.addr r) (H.addr r) = .ret (s.io.mem (H.addr r)) (some r.name) s) ∧
    (∀ c ∈ readCases H, c.body = .plain →
      ∃ r : Reg, r.plainRead = true ∧ c.label = H.addr r ∧ c.name = r.name) := by
  constructor
  · intro r hr
    exact io_read32_plain H B s hd r (plainRead_mem H r hr)
  · intro c hc hb
    obtain ⟨r, hr, e⟩ := plain_case_reg H c hc hb
    exact ⟨r, hr, by rw [e], by rw [e]⟩

/-- Witness for C30: the reads of the reference header in the state with
four flags pending; `IFS0` reads 0x294. -/
theorem plain_read_witness :
    ((∀ r : Reg, r.plainRead = true →
      io_read32 refHeader nullBackend tieState (refHeader.addr r) (refHeader.addr r) =
        .ret (tieState.io.mem (refHeader.addr r)) (some r.name) tieState) ∧
    (∀ c ∈ readCases refHeader, c.body = .plain →
      ∃ r : Reg, r.plainRead = true ∧ c.label = refHeader.addr r ∧ c.name = r.name)) ∧
    tieState.io.mem (refHeader.addr (.IFS 0)) = 0x294 :=
  ⟨plain_read refHeader nullBackend tieState refHeader_readLabelsDistinct, by decide⟩

/-! ## Writes to `PORTx` -/

/-- The names `PORTx` and `LATx` differ. -/
theorem name_PORT_ne_LAT (p : Nat) : (Reg.PORT p).name ≠ (Reg.LAT p).name := by
  intro h
  have := congrArg String.length h
  simp [Reg.name, String.length_append] at this
  exact absurd this (by decide)

/-- With distinct labels, `PORTx` and `LATx` are at different addresses. -/
theorem addr_PORT_ne_LAT {H : Header} (hd : H.WriteLabelsDistinct) (p : Nat) (hp : p < 7) :
    H.addr (.PORT p) ≠ H.addr (.LAT p) := by
  intro e
  have h1 : (⟨H.addr (.PORT p), (Reg.PORT p).name, .op (.LAT p) (.gpio p)⟩ : WCase) ∈
      writeCases H :=
    mem_writeCases_gpio H p hp _ (by simp [gpioWriteCases, WRITEOPX, aliasGroup])
  have h2 : (⟨H.addr (.LAT p), (Reg.LAT p).name, .op (.LAT p) (.gpio p)⟩ : WCase) ∈
      writeCases H :=
    mem_writeCases_gpio H p hp _ (by simp [gpioWriteCases, WRITEOP, aliasGroup])
  have := case_unique (fun x : WCase => x.label) (writeCases H) hd _ _ h1 h2 e
  exact name_PORT_ne_LAT p (congrArg WCase.name this)

/-- C35: for every GPIO bank `p = 0..6` (A..G), every one of the four alias
addresses of `PORTp` and every data word, `io_write32` returns the state that
`gpio_write (p, w)` yields, called once, on the state in which `LATp` holds
`w = write_op (LATp, data, address)`; `PORTp` holds the value it held before,
and `io_read32` of `PORTp` in that state returns that value. -/
theorem port_write_goes_to_lat {β : Type} (H : Header) (B : Backend β) (s : State β)
    (hdw : H.WriteLabelsDistinct) (hdr : H.ReadLabelsDistinct) (p : Nat) (hp : p < 7)
    (off : Nat) (hoff : off = 0 ∨ off = 4 ∨ off = 8 ∨ off = 12) (bufp d : Nat) :
    ∃ (nm : String) (s1 : State β),
      io_write32 H B s (H.addr (.PORT p) + off) bufp d = .ret (some nm) s1 ∧
      s1 = gpio_write H B
        (s.set (H.addr (.LAT p))
          (write_op (s.io.mem (H.addr (.LAT p))) d (H.addr (.PORT p) + off)))
        p (write_op (s.io.mem (H.addr (.LAT p))) d (H.addr (.PORT p) + off)) ∧
      s1.io.mem (H.addr (.LAT p)) =
        write_op (s.io.mem (H.addr (.LAT p))) d (H.addr (.PORT p) + off) ∧
      s1.io.mem (H.addr (.PORT p)) = s.io.mem (H.addr (.PORT p)) ∧
      io_read32 H B s1 (H.addr (.PORT p)) (H.addr (.PORT p)) =
        .ret (s.io.mem (H.addr (.PORT p))) (some (Reg.PORT p).name) s1 := by
  obtain ⟨c, hc, hl, hb⟩ := aliasGroup_label H (.PORT p) (.op (.LAT p) (.gpio p)) off hoff
  have hm : c ∈ writeCases H :=
    mem_writeCases_gpio H p hp c (by simp [gpioWriteCases, WRITEOPX, hc])
  have hw := io_write32_op H B s hdw c hm _ _ hb bufp d
  rw [hl] at hw
  have hP : (gpio_write H B
      (s.set (H.addr (.LAT p))
        (write_op (s.io.mem (H.addr (.LAT p))) d (H.addr (.PORT p) + off)))
      p (write_op (s.io.mem (H.addr (.LAT p))) d (H.addr (.PORT p) + off))).io.mem
        (H.addr (.PORT p)) = s.io.mem (H.addr (.PORT p)) := by
    rw [gpio_write_mem, set_mem, store_other _ _ _ _ (addr_PORT_ne_LAT hdw p hp)]
  refine ⟨c.name, _, ?_, rfl, ?_, hP, ?_⟩
  · rw [hw]
    simp only [run_tail, set_mem, store_same]
  · rw [gpio_write_mem, set_mem, store_same]
  · have hr := io_read32_plain H B
      (gpio_write H B
        (s.set (H.addr (.LAT p))
          (write_op (s.io.mem (H.addr (.LAT p))) d (H.addr (.PORT p) + off)))
        p (write_op (s.io.mem (H.addr (.LAT p))) d (H.addr (.PORT p) + off)))
      hdr (.PORT p)
      (mem_readCases_gpio H p hp _ (by simp [gpioReadCases, RSTORAGE]))
    rw [hP] at hr
    exact hr

/-- Witness for C35: a clear-write of 0x10 to `PORTD + 4` in the state that
`io_reset` leaves on port A and zero elsewhere. -/
theorem port_write_goes_to_lat_witness :
    ∃ (nm : String) (s1 : State Unit),
      io_write32 refHeader nullBackend portState (refHeader.addr (.PORT 3) + 4)
        (refHeader.addr (.PORT 3) + 4) 0x10 = .ret (some nm) s1 ∧
      s1 = gpio_write refHeader nullBackend
        (portState.set (refHeader.addr (.LAT 3))
          (write_op (portState.io.mem (refHeader.addr (.LAT 3))) 0x10
            (refHeader.addr (.PORT 3) + 4)))
        3 (write_op (portState.io.mem (refHeader.addr (.LAT 3))) 0x10
            (refHeader.addr (.PORT 3) + 4)) ∧
      s1.io.mem (refHeader.addr (.LAT 3)) =
        write_op (portState.io.mem (refHeader.addr (.LAT 3))) 0x10
          (refHeader.addr (.PORT 3) + 4) ∧
      s1.io.mem (refHeader.addr (.PORT 3)) = portState.io.mem (refHeader.addr (.PORT 3)) ∧
      io_read32 refHeader nullBackend s1 (refHeader.addr (.PORT 3)) (refHeader.addr (.PORT 3)) =
        .ret (portState.io.mem (refHeader.addr (.PORT 3))) (some (Reg.PORT 3).name) s1 :=
  port_write_goes_to_lat refHeader nullBackend portState refHeader_writeLabelsDistinct
    refHeader_readLabelsDistinct 3 (by decide) 4 (Or.inr (Or.inl rfl))
    (refHeader.addr (.PORT 3) + 4) 0x10

/-! ## Alias names and operations -/

/-- The operation of `write_op` depends on bits 2..3 of the address only. -/
theorem write_op_bits (v d a : Nat) : write_op v d a = write_op v d (a &&& 0xC) := by
  have e : (a &&& 0xC) &&& 0xC = a &&& 0xC := by
    rw [Nat.and_assoc]
    rfl
  unfold write_op
  rw [e]

/-- The four operations at a 16-byte aligned base. -/
theorem write_op_aligned (v d a : Nat) (ha : a % 16 = 0) :
    write_op v d a = d ∧ write_op v d (a + 4) = v &&& (0xFFFFFFFF ^^^ d) ∧
    write_op v d (a + 8) = v ||| d ∧ write_op v d (a + 12) = v ^^^ d := by
  obtain ⟨h0, h4, h8, h12⟩ := aligned_offset_bits a ha
  refine ⟨?_, ?_, ?_, ?_⟩
  · unfold write_op
    rw [h0]
    simp
  · unfold write_op
    rw [h4]
    simp
  · unfold write_op
    rw [h8]
    simp
  · unfold write_op
    rw [h12]
    simp

/-- With distinct labels, a write to a label of an alias group runs the code
of the group with the name of that label. -/
theorem io_write32_alias {β : Type} (H : Header) (B : Backend β) (s : State β)
    (hd : H.WriteLabelsDistinct) (r : Reg) (b : WBody)
    (hg : ∀ c ∈ aliasGroup H r b, c ∈ writeCases H) (bufp d : Nat) :
    io_write32 H B s (H.addr r) bufp d =
      run_wcase H B s ⟨H.addr r, r.name, b⟩ (H.addr r) bufp d ∧
    io_write32 H B s (H.addr r + 4) bufp d =
      run_wcase H B s ⟨H.addr r + 4, r.name ++ "CLR", b⟩ (H.addr r + 4) bufp d ∧
    io_write32 H B s (H.addr r + 8) bufp d =
      run_wcase H B s ⟨H.addr r + 8, r.name ++ "SET", b⟩ (H.addr r + 8) bufp d ∧
    io_write32 H B s (H.addr r + 12) bufp d =
      run_wcase H B s ⟨H.addr r + 12, r.name ++ "INV", b⟩ (H.addr r + 12) bufp d :=
  ⟨io_write32_of_case H B s hd ⟨H.addr r, r.name, b⟩ (hg _ (by simp [aliasGroup])) bufp d,
   io_write32_of_case H B s hd ⟨H.addr r + 4, r.name ++ "CLR", b⟩
     (hg _ (by simp [aliasGroup])) bufp d,
   io_write32_of_case H B s hd ⟨H.addr r + 8, r.name ++ "SET", b⟩
     (hg _ (by simp [aliasGroup])) bufp d,
   io_write32_of_case H B s hd ⟨H.addr r + 12, r.name ++ "INV", b⟩
     (hg _ (by simp [aliasGroup])) bufp d⟩

/-- C36: `write_op (v, d, a)` is `write_op (v, d, a & 0xC)`.  For an alias
group of `io_write32` at the labels `R`, `R+4`, `R+8`, `R+12`, with `R` a
multiple of 16: when the code of the group is the storage update of a register
`T` (`T = R` for `WRITEOP (R)`, `T = LATx` for `WRITEOPX (PORTx, LATx)`), the
writes at the four labels report the names `R`, `RCLR`, `RSET`, `RINV` and
store `d`, `v & ~d`, `v | d`, `v ^ d` in `T`, `v` being the value of `T`; when
it is the masked update `WRITEOPR (R, m)`, they report the same names and
store `(v & m) | (x & ~m)` with `x` the result of the same four operations on
`v & m`. -/
theorem alias_name_and_operation {β : Type} (H : Header) (B : Backend β) (s : State β)
    (hd : H.WriteLabelsDistinct) (r : Reg) (b : WBody)
    (hg : ∀ c ∈ aliasGroup H r b, c ∈ writeCases H) (ha : H.addr r % 16 = 0)
    (bufp d : Nat) :
    (∀ v x a, write_op v x a = write_op v x (a &&& 0xC)) ∧
    (∀ tr t, b = .op tr t →
      io_write32 H B s (H.addr r) bufp d =
        .ret (some r.name) (run_tail H B (s.set (H.addr tr) d) t) ∧
      io_write32 H B s (H.addr r + 4) bufp d =
        .ret (some (r.name ++ "CLR"))
          (run_tail H B (s.set (H.addr tr) (s.io.mem (H.addr tr) &&& (0xFFFFFFFF ^^^ d))) t) ∧
      io_write32 H B s (H.addr r + 8) bufp d =
        .ret (some (r.name ++ "SET"))
          (run_tail H B (s.set (H.addr tr) (s.io.mem (H.addr tr) ||| d)) t) ∧
      io_write32 H B s (H.addr r + 12) bufp d =
        .ret (some (r.name ++ "INV"))
          (run_tail H B (s.set (H.addr tr) (s.io.mem (H.addr tr) ^^^ d)) t)) ∧
    (∀ tr m t, b = .opr tr m t →
      io_write32 H B s (H.addr r) bufp d =
        .ret (some r.name)
          (run_tail H B (s.set (H.addr tr)
            ((s.io.mem (H.addr tr) &&& m) ||| (d &&& (0xFFFFFFFF ^^^ m)))) t) ∧
      io_write32 H B s (H.addr r + 4) bufp d =
        .ret (some (r.name ++ "CLR"))
          (run_tail H B (s.set (H.addr tr)
            ((s.io.mem (H.addr tr) &&& m) |||
              (((s.io.mem (H.addr tr) &&& m) &&& (0xFFFFFFFF ^^^ d)) &&&
                (0xFFFFFFFF ^^^ m)))) t) ∧
      io_write32 H B s (H.addr r + 8) bufp d =
        .ret (some (r.name ++ "SET"))
          (run_tail H B (s.set (H.addr tr)
            ((s.io.mem (H.addr tr) &&& m) |||
              (((s.io.mem (H.addr tr) &&& m) ||| d) &&& (0xFFFFFFFF ^^^ m)))) t) ∧
      io_write32 H B s (H.addr r + 12) bufp d =
        .ret (some (r.name ++ "INV"))
          (run_tail H B (s.set (H.addr tr)
            ((s.io.mem (H.addr tr) &&& m) |||
              (((s.io.mem (H.addr tr) &&& m) ^^^ d) &&& (0xFFFFFFFF ^^^ m)))) t)) := by
  obtain ⟨e0, e4, e8, e12⟩ := io_write32_alias H B s hd r b hg bufp d
  refine ⟨write_op_bits, ?_, ?_⟩
  · rintro tr t rfl
    obtain ⟨w0, w4, w8, w12⟩ := write_op_aligned (s.io.mem (H.addr tr)) d (H.addr r) ha
    refine ⟨?_, ?_, ?_, ?_⟩
    · rw [e0]; unfold run_wcase; simp only []; rw [w0]
    · rw [e4]; unfold run_wcase; simp only []; rw [w4]
    · rw [e8]; unfold run_wcase; simp only []; rw [w8]
    · rw [e12]; unfold run_wcase; simp only []; rw [w12]
  · rintro tr m t rfl
    obtain ⟨w0, w4, w8, w12⟩ :=
      write_op_aligned (s.io.mem (H.addr tr) &&& m) d (H.addr r) ha
    refine ⟨?_, ?_, ?_, ?_⟩
    · rw [e0]; unfold run_wcase; simp only [set_mem, store_same, set_set]; rw [w0]
    · rw [e4]; unfold run_wcase; simp only [set_mem, store_same, set_set]; rw [w4]
    · rw [e8]; unfold run_wcase; simp only [set_mem, store_same, set_set]; rw [w8]
    · rw [e12]; unfold run_wcase; simp only [set_mem, store_same, set_set]; rw [w12]

/-- Witness for C36: the four addresses of `IFS0` in the state with four flags
pending, data 0x4. -/
theorem alias_name_and_operation_witness :
    io_write32 refHeader nullBackend tieState (refHeader.addr (.IFS 0))
        (refHeader.addr (.IFS 0)) 0x4 =
      .ret (some (Reg.IFS 0).name)
        (run_tail refHeader nullBackend (tieState.set (refHeader.addr (.IFS 0)) 0x4) .irq) ∧
    io_write32 refHeader nullBackend tieState (refHeader.addr (.IFS 0) + 4)
        (refHeader.addr (.IFS 0)) 0x4 =
      .ret (some ((Reg.IFS 0).name ++ "CLR"))
        (run_tail refHeader nullBackend
          (tieState.set (refHeader.addr (.IFS 0))
            (tieState.io.mem (refHeader.addr (.IFS 0)) &&& (0xFFFFFFFF ^^^ 0x4))) .irq) ∧
    io_write32 refHeader nullBackend tieState (refHeader.addr (.IFS 0) + 8)
        (refHeader.addr (.IFS 0)) 0x4 =
      .ret (some ((Reg.IFS 0).name ++ "SET"))
        (run_tail refHeader nullBackend
          (tieState.set (refHeader.addr (.IFS 0))
            (tieState.io.mem (refHeader.addr (.IFS 0)) ||| 0x4)) .irq) ∧
    io_write32 refHeader nullBackend tieState (refHeader.addr (.IFS 0) + 12)
        (refHeader.addr (.IFS 0)) 0x4 =
      .ret (some ((Reg.IFS 0).name ++ "INV"))
        (run_tail refHeader nullBackend
          (tieState.set (refHeader.addr (.IFS 0))
            (tieState.io.mem (refHeader.addr (.IFS 0)) ^^^ 0x4)) .irq) :=
  (alias_name_and_operation refHeader nullBackend tieState refHeader_writeLabelsDistinct
    (.IFS 0) (.op (.IFS 0) .irq) (fun c hc => mem_writeCases_IFS refHeader 0 (by decide) c hc)
    (by decide) (refHeader.addr (.IFS 0)) 0x4).2.1 (.IFS 0) .irq rfl

/-! ## Reads of the alias names of the UART and SPI registers -/

/-- A register with an alias base has its case `*bufp = 0` in `io_read32`,
and its base has a case with other code. -/
theorem aliasBase_mem (H : Header) (r base : Reg) (h : r.aliasBase = some base) :
    (⟨H.addr r, r.name, .zero⟩ : RCase) ∈ readCases H ∧
    ∃ b : RBody, b ≠ .zero ∧ (⟨H.addr base, base.name, b⟩ : RCase) ∈ readCases H := by
  cases r
  case UxMODEa u k =>
    by_cases hlt : u < 6
    · simp only [Reg.aliasBase, hlt, if_true, Option.some.injEq] at h
      subst h
      refine ⟨mem_readCases_uart H u hlt _ ?_, .plain, (fun e => by cases e),
        mem_readCases_uart H u hlt _ (by simp [uartReadCases, RSTORAGE])⟩
      cases k <;> simp [uartReadCases, RSTORAGE]
    · simp [Reg.aliasBase, hlt] at h
  case UxSTAa u k =>
    by_cases hlt : u < 6
    · simp only [Reg.aliasBase, hlt, if_true, Option.some.injEq] at h
      subst h
      refine ⟨mem_readCases_uart H u hlt _ ?_, .uart_sta u, (fun e => by cases e),
        mem_readCases_uart H u hlt _ (by simp [uartReadCases, RSTORAGE])⟩
      cases k <;> simp [uartReadCases, RSTORAGE]
    · simp [Reg.aliasBase, hlt] at h
  case UxBRGa u k =>
    by_cases hlt : u < 6
    · simp only [Reg.aliasBase, hlt, if_true, Option.some.injEq] at h
      subst h
      refine ⟨mem_readCases_uart H u hlt _ ?_, .plain, (fun e => by cases e),
        mem_readCases_uart H u hlt _ (by simp [uartReadCases, RSTORAGE])⟩
      cases k <;> simp [uartReadCases, RSTORAGE]
    · simp [Reg.aliasBase, hlt] at h
  case SPIxCONa c k =>
    by_cases hlt : c < 4
    · simp only [Reg.aliasBase, hlt, if_true, Option.some.injEq] at h
      subst h
      refine ⟨mem_readCases_spi H c hlt _ ?_, .plain, (fun e => by cases e),
        mem_readCases_spi H c hlt _ (by simp [spiReadCases, RSTORAGE])⟩
      cases k <;> simp [spiReadCases, RSTORAGE]
    · simp [Reg.aliasBase, hlt] at h
  case SPIxSTATa c k =>
    by_cases hlt : c < 4
    · simp only [Reg.aliasBase, hlt, if_true, Option.some.injEq] at h
      subst h
      refine ⟨mem_readCases_spi H c hlt _ ?_, .plain, (fun e => by cases e),
        mem_readCases_spi H c hlt _ (by simp [spiReadCases, RSTORAGE])⟩
      cases k <;> simp [spiReadCases, RSTORAGE]
    · simp [Reg.aliasBase, hlt] at h
  case SPIxBRGa c k =>
    by_cases hlt : c < 4
    · simp only [Reg.aliasBase, hlt, if_true, Option.some.injEq] at h
      subst h
      refine ⟨mem_readCases_spi H c hlt _ ?_, .plain, (fun e => by cases e),
        mem_readCases_spi H c hlt _ (by simp [spiReadCases, RSTORAGE])⟩
      cases k <;> simp [spiReadCases, RSTORAGE]
    · simp [Reg.aliasBase, hlt] at h
  all_goals simp [Reg.aliasBase] at h

/-- C37: for every `CLR`, `SET` or `INV` name `r` of `UkMODE`, `UkSTA`,
`UkBRG` (`k = 1..6`) or `SPIkCON`, `SPIkSTAT`, `SPIkBRG` (`k = 1..4`),
`io_read32` at the address of `r`, with the slot of that address, returns 0 in
every state, having stored 0 in that slot and nothing else: every other slot,
the one of the base register among them, holds its old value, and no call is
made. -/
theorem alias_read_zero {β : Type} (H : Header) (B : Backend β) (s : State β)
    (hd : H.ReadLabelsDistinct) (r base : Reg) (h : r.aliasBase = some base) :
    ∃ s1 : State β,
      io_read32 H B s (H.addr r) (H.addr r) = .ret 0 (some r.name) s1 ∧
      s1 = s.set (H.addr r) 0 ∧
      s1.io.mem (H.addr r) = 0 ∧
      (∀ x, x ≠ H.addr r → s1.io.mem x = s.io.mem x) ∧
      s1.io.mem (H.addr base) = s.io.mem (H.addr base) ∧
      s1.trace = s.trace ∧ s1.syskey_unlock = s.syskey_unlock := by
  obtain ⟨hz, b, hb, hbase⟩ := aliasBase_mem H r base h
  have hne : H.addr base ≠ H.addr r := by
    intro e
    have := case_unique (fun x : RCase => x.label) (readCases H) hd _ _ hbase hz e
    exact hb (congrArg RCase.body this)
  have hr := io_read32_of_case H B s hd ⟨H.addr r, r.name, .zero⟩ hz (H.addr r)
  simp only [] at hr
  refine ⟨s.set (H.addr r) 0, ?_, rfl, ?_, ?_, ?_, rfl, rfl⟩
  · rw [hr]
    unfold run_rcase
    simp only [set_mem, store_same]
  · rw [set_mem, store_same]
  · intro x hx
    rw [set_mem, store_other _ _ _ _ hx]
  · rw [set_mem, store_other _ _ _ _ hne]

set_option maxRecDepth 100000 in
/-- Witness for C37: a read of `SPI1STATCLR` in the state where `SPI1STAT`
holds `SPIROV`. -/
theorem alias_read_zero_witness :
    (∃ s1 : State Unit,
      io_read32 refHeader nullBackend spiRovState (refHeader.addr (.SPIxSTATa 0 .CLR))
        (refHeader.addr (.SPIxSTATa 0 .CLR)) = .ret 0 (some (Reg.SPIxSTATa 0 .CLR).name) s1 ∧
      s1 = spiRovState.set (refHeader.addr (.SPIxSTATa 0 .CLR)) 0 ∧
      s1.io.mem (refHeader.addr (.SPIxSTATa 0 .CLR)) = 0 ∧
      (∀ x, x ≠ refHeader.addr (.SPIxSTATa 0 .CLR) → s1.io.mem x = spiRovState.io.mem x) ∧
      s1.io.mem (refHeader.addr (.SPIxSTAT 0)) = spiRovState.io.mem (refHeader.addr (.SPIxSTAT 0)) ∧
      s1.trace = spiRovState.trace ∧ s1.syskey_unlock = spiRovState.syskey_unlock) ∧
    spiRovState.io.mem (refHeader.addr (.SPIxSTAT 0)) = 0x40 ∧
    refHeader.addr (.SPIxSTATa 0 .CLR) = refHeader.addr (.SPIxSTAT 0) + 4 :=
  ⟨alias_read_zero refHeader nullBackend spiRovState refHeader_readLabelsDistinct
    (.SPIxSTATa 0 .CLR) (.SPIxSTAT 0) rfl, by decide, by decide⟩

/-! ## The sequencer never leaves Locked -/

theorem lockedStep_refl {β : Type} (s : State β) (h : s.syskey_unlock = 0) :
    s.LockedStep s :=
  ⟨h, [], by simp, by simp⟩

theorem lockedStep_trans {β : Type} {s s1 s2 : State β} (h1 : s.LockedStep s1)
    (h2 : s1.LockedStep s2) : s.LockedStep s2 := by
  obtain ⟨_, t1, e1, q1⟩ := h1
  obtain ⟨u2, t2, e2, q2⟩ := h2
  refine ⟨u2, t1 ++ t2, by rw [e2, e1, List.append_assoc], ?_⟩
  intro c hc
  rcases List.mem_append.mp hc with h | h
  · exact q1 c h
  · exact q2 c h

/-- One call that is not of the reset action, with the sequencer untouched. -/
theorem lockedStep_call {β : Type} (s s1 : State β) (c : Call) (h : s.syskey_unlock = 0)
    (hu : s1.syskey_unlock = s.syskey_unlock) (ht : s1.trace = s.trace ++ [c])
    (hc : Call.isReset c = false) : s.LockedStep s1 :=
  ⟨by rw [hu, h], [c], ht, by simpa using hc⟩

/-- No call, with the sequencer untouched. -/
theorem lockedStep_silent {β : Type} (s s1 : State β) (h : s.syskey_unlock = 0)
    (hu : s1.syskey_unlock = s.syskey_unlock) (ht : s1.trace = s.trace) : s.LockedStep s1 :=
  ⟨by rw [hu, h], [], by simpa using ht, by simp⟩

theorem lockedStep_update {β : Type} (H : Header) (B : Backend β) (s : State β)
    (h : s.syskey_unlock = 0) : s.LockedStep (update_irq_status H B s) := by
  obtain ⟨level, vector, ht⟩ := update_irq_status_trace H B s
  exact lockedStep_call s _ _ h (update_irq_status_syskey_unlock H B s) ht rfl

theorem lockedStep_hookExt {β : Type} (s : State β) (c : Call) (f : β → β)
    (h : s.syskey_unlock = 0) (hc : Call.isReset c = false) :
    s.LockedStep (s.hookExt c f) :=
  lockedStep_call s _ c h rfl rfl hc

theorem lockedStep_gpio {β : Type} (H : Header) (B : Backend β) (s : State β) (p v : Nat)
    (h : s.syskey_unlock = 0) : s.LockedStep (gpio_write H B s p v) := by
  unfold gpio_write
  simp only []
  split_ifs <;>
    first
    | exact lockedStep_refl s h
    | exact lockedStep_hookExt s _ _ h (by rfl)
    | exact lockedStep_trans (lockedStep_hookExt s _ _ h (by rfl))
        (lockedStep_hookExt _ _ _ h (by rfl))

theorem lockedStep_tail {β : Type} (H : Header) (B : Backend β) (s : State β) (t : WTail)
    (h : s.syskey_unlock = 0) : s.LockedStep (run_tail H B s t) := by
  cases t with
  | ret => exact lockedStep_refl s h
  | irq => exact lockedStep_update H B s h
  | gpio p => exact lockedStep_gpio H B s p _ h
  | uart_update_mode u => exact lockedStep_call s _ _ h rfl rfl rfl
  | uart_update_status u => exact lockedStep_call s _ _ h rfl rfl rfl
  | spi_control c => exact lockedStep_call s _ _ h rfl rfl rfl

/-- From Locked, every case of `io_write32` ends Locked without the reset
action. -/
theorem lockedStep_wcase {β : Type} (H : Header) (B : Backend β) (s : State β) (c : WCase)
    (address bufp data : Nat) (h : s.syskey_unlock = 0) (n : Option String) (s1 : State β)
    (hr : run_wcase H B s c address bufp data = .ret n s1) : s.LockedStep s1 := by
  unfold run_wcase at hr
  split at hr
  · cases hr
    exact lockedStep_trans (lockedStep_silent s _ h rfl rfl) (lockedStep_tail H B _ _ h)
  · cases hr
    exact lockedStep_trans (lockedStep_silent s _ h rfl rfl) (lockedStep_tail H B _ _ h)
  · cases hr
    exact lockedStep_call s _ _ h rfl rfl rfl
  · cases hr
    exact lockedStep_silent s _ h rfl rfl
  · cases hr
    refine lockedStep_silent s _ h ?_ rfl
    show syskey_step s.syskey_unlock _ = s.syskey_unlock
    rw [h, syskey_step_locked]
  · cases hr
    have hc : ¬ (s.syskey_unlock = 2 ∧ s.io.mem (H.addr .RSWRST) &&& 1 ≠ 0) := by
      rw [h]
      exact fun e => absurd e.1 (by decide)
    rw [if_neg hc]
    exact lockedStep_silent s _ h rfl rfl
  · cases hr
    exact lockedStep_call s _ _ h rfl rfl rfl
  · cases hr
    exact lockedStep_call s _ _ h rfl rfl rfl

/-- From Locked, every case of `io_read32` ends Locked without the reset
action. -/
theorem lockedStep_rcase {β : Type} (B : Backend β) (s : State β) (c : RCase) (bufp : Nat)
    (h : s.syskey_unlock = 0) (v : Nat) (n : Option String) (s1 : State β)
    (hr : run_rcase B s c bufp = .ret v n s1) : s.LockedStep s1 := by
  unfold run_rcase at hr
  simp only [] at hr
  injection hr with _ _ hs
  subst hs
  split
  · exact lockedStep_refl s h
  · exact lockedStep_call s _ _ h rfl rfl rfl
  · exact lockedStep_call s _ _ h rfl rfl rfl
  · exact lockedStep_silent s _ h rfl rfl
  · exact lockedStep_call s _ _ h rfl rfl rfl

/-- From Locked, every returning `io_write32` ends Locked without the reset
action. -/
theorem lockedStep_write {β : Type} (H : Header) (B : Backend β) (s : State β)
    (address bufp data : Nat) (h : s.syskey_unlock = 0) (n : Option String) (s1 : State β)
    (hw : io_write32 H B s address bufp data = .ret n s1) : s.LockedStep s1 := by
  unfold io_write32 at hw
  split at hw
  · cases hw
  · exact lockedStep_wcase H B s _ address bufp data h n _ hw

/-- From Locked, every returning `io_read32` ends Locked without the reset
action. -/
theorem lockedStep_read {β : Type} (H : Header) (B : Backend β) (s : State β)
    (address bufp : Nat) (h : s.syskey_unlock = 0) (v : Nat) (n : Option String)
    (s1 : State β) (hw : io_read32 H B s address bufp = .ret v n s1) : s.LockedStep s1 := by
  unfold io_read32 at hw
  split at hw
  · cases hw
  · exact lockedStep_rcase B s _ bufp h v n _ hw

/-- From Locked, every call that returns ends Locked without the reset
action. -/
theorem lockedStep_io_call {β : Type} (H : Header) (B : Backend β) (s : State β) (c : IoCall)
    (h : s.syskey_unlock = 0) (s1 : State β) (hr : io_call H B s c = some s1) :
    s.LockedStep s1 := by
  cases c with
  | write address bufp data =>
    simp only [io_call] at hr
    cases hw : io_write32 H B s address bufp data with
    | ret n s2 =>
      rw [hw] at hr
      simp only [Option.some.injEq] at hr
      subst hr
      exact lockedStep_write H B s address bufp data h n _ hw
    | exit d s2 =>
      rw [hw] at hr
      cases hr
  | read address bufp =>
    simp only [io_call] at hr
    cases hw : io_read32 H B s address bufp with
    | ret v n s2 =>
      rw [hw] at hr
      simp only [Option.some.injEq] at hr
      subst hr
      exact lockedStep_read H B s address bufp h v n _ hw
    | exit d s2 =>
      rw [hw] at hr
      cases hr
  | raise irq =>
    simp only [io_call, Option.some.injEq] at hr
    subst hr
    unfold irq_raise
    simp only []
    split_ifs
    · exact lockedStep_refl s h
    · exact lockedStep_trans (lockedStep_silent s _ h rfl rfl) (lockedStep_update H B _ h)
  | clear irq =>
    simp only [io_call, Option.some.injEq] at hr
    subst hr
    unfold irq_clear
    simp only []
    split_ifs
    · exact lockedStep_refl s h
    · exact lockedStep_trans (lockedStep_silent s _ h rfl rfl) (lockedStep_update H B _ h)

/-- From Locked, every sequence of calls ends Locked without the reset
action. -/
theorem lockedStep_io_run {β : Type} (H : Header) (B : Backend β) :
    ∀ (l : List IoCall) (s : State β), s.syskey_unlock = 0 → s.LockedStep (io_run H B s l)
  | [], s, h => lockedStep_refl s h
  | c :: l, s, h => by
    unfold io_run
    split
    next s1 hc =>
      have h1 := lockedStep_io_call H B s c h s1 hc
      exact lockedStep_trans h1 (lockedStep_io_run H B l s1 h1.1)
    next => exact lockedStep_refl s h

/-- C32: from the state that `io_reset` leaves, after every finite sequence
of calls of `io_write32`, `io_read32`, `irq_raise` and `irq_clear` with
arbitrary arguments (run until the sequence ends or a call exits),
`syskey_unlock` is 0, and the calls made since the reset contain none of
`soft_reset`, `sdcard_reset`, `uart_reset`, `spi_reset`: the reset action of
the `RSWRST` case has not run.  Every prefix of a sequence is a sequence, so
this holds at every call boundary. -/
theorem syskey_stays_locked {β : Type} (H : Header) (B : Backend β) (s0 : State β)
    (l : List IoCall) :
    (io_run H B (io_reset H B s0) l).syskey_unlock = 0 ∧
    ∃ t, (io_run H B (io_reset H B s0) l).trace = (io_reset H B s0).trace ++ t ∧
      Call.soft_reset ∉ t ∧ Call.sdcard_reset ∉ t ∧ Call.uart_reset ∉ t ∧
      Call.spi_reset ∉ t := by
  obtain ⟨hu, t, ht, hq⟩ :=
    lockedStep_io_run H B l (io_reset H B s0) (io_reset_syskey_unlock H B s0)
  refine ⟨hu, t, ht, ?_, ?_, ?_, ?_⟩ <;>
    exact fun hm => absurd (hq _ hm) (by decide)

/-! ## What the arbitration depends on -/

/-- `update_irq_status` in terms of `irq_result`. -/
theorem update_irq_status_result {β : Type} (H : Header) (B : Backend β) (s : State β) :
    (update_irq_status H B s).trace =
      s.trace ++ [Call.eic_level_vector
        (irq_result H (store s.io.mem (H.addr .INTSTAT) 0)).1
        (irq_result H (store s.io.mem (H.addr .INTSTAT) 0)).2] ∧
    (update_irq_status H B s).io.mem (H.addr .INTSTAT) =
      (irq_result H (store s.io.mem (H.addr .INTSTAT) 0)).2 |||
        ((irq_result H (store s.io.mem (H.addr .INTSTAT) 0)).1 <<< 8) ∧
    (update_irq_status H B s).io.ext =
      B.eic_level_vector (irq_result H (store s.io.mem (H.addr .INTSTAT) 0)).1
        (irq_result H (store s.io.mem (H.addr .INTSTAT) 0)).2 s.io.ext := by
  unfold update_irq_status irq_result
  simp only [set_mem]
  split_ifs
  · simp [store_same]
  · simp [store_same]

/-- The scan reads the register file through `IFS(n) & IEC(n)` and
`IPC(n >> 2)` for the groups `n` of the sources `0..PIC32_IRQ_LAST` only. -/
theorem irq_scan_congr (H : Header) (m1 m2 : Nat → Nat)
    (hFE : ∀ g, g ≤ H.PIC32_IRQ_LAST >>> 5 →
      m1 (H.addr (.IFS g)) &&& m1 (H.addr (.IEC g)) =
        m2 (H.addr (.IFS g)) &&& m2 (H.addr (.IEC g)))
    (hP : ∀ g, g ≤ H.PIC32_IRQ_LAST >>> 5 →
      m1 (H.addr (.IPC (g >>> 2))) = m2 (H.addr (.IPC (g >>> 2)))) :
    irq_scan H m1 = irq_scan H m2 := by
  unfold irq_scan
  apply foldl_congr_mem
  intro irq hirq acc
  have hle : irq >>> 5 ≤ H.PIC32_IRQ_LAST >>> 5 := by
    have h1 := List.mem_range.mp hirq
    rw [Nat.shiftRight_eq_div_pow, Nat.shiftRight_eq_div_pow]
    exact Nat.div_le_div_right (by omega)
  unfold irq_scan_step
  simp only []
  rw [hFE _ hle, hP _ hle]

/-- The result of the arbitration depends on `IFS(n) & IEC(n)` for the groups
0..5 and the groups of the sources, and on `IPC(n >> 2)` for the latter. -/
theorem irq_result_congr (H : Header) (m1 m2 : Nat → Nat)
    (hFE : ∀ g, (g < 6 ∨ g ≤ H.PIC32_IRQ_LAST >>> 5) →
      m1 (H.addr (.IFS g)) &&& m1 (H.addr (.IEC g)) =
        m2 (H.addr (.IFS g)) &&& m2 (H.addr (.IEC g)))
    (hP : ∀ g, g ≤ H.PIC32_IRQ_LAST >>> 5 →
      m1 (H.addr (.IPC (g >>> 2))) = m2 (H.addr (.IPC (g >>> 2)))) :
    irq_result H m1 = irq_result H m2 := by
  have hany : irq_any H m1 = irq_any H m2 := by
    unfold irq_any
    rw [hFE 0 (Or.inl (by omega)), hFE 1 (Or.inl (by omega)), hFE 2 (Or.inl (by omega)),
      hFE 3 (Or.inl (by omega)), hFE 4 (Or.inl (by omega)), hFE 5 (Or.inl (by omega))]
  unfold irq_result
  rw [hany, irq_scan_congr H m1 m2 (fun g hg => hFE g (Or.inr hg)) hP]

/-- Agreement of two register files on `x & y` survives `VALUE(a) = 0` in
both. -/
theorem store_zero_and_agree (m1 m2 : Nat → Nat) (a x y : Nat)
    (h : m1 x &&& m1 y = m2 x &&& m2 y) :
    store m1 a 0 x &&& store m1 a 0 y = store m2 a 0 x &&& store m2 a 0 y := by
  unfold store
  by_cases hx : x = a <;> by_cases hy : y = a <;> simp [hx, hy, h]

/-- Agreement of two register files on a slot survives the same assignment
to both. -/
theorem store_agree (m1 m2 : Nat → Nat) (a v x : Nat) (h : m1 x = m2 x) :
    store m1 a v x = store m2 a v x := by
  unfold store
  split_ifs
  · rfl
  · exact h

/-- Two states whose register files agree on what the arbitration reads get
the same `INTSTAT` and the same notification from `update_irq_status`. -/
theorem update_irq_status_congr {β : Type} (H : Header) (B : Backend β) (s1 s2 : State β)
    (hFE : ∀ g, (g < 6 ∨ g ≤ H.PIC32_IRQ_LAST >>> 5) →
      s1.io.mem (H.addr (.IFS g)) &&& s1.io.mem (H.addr (.IEC g)) =
        s2.io.mem (H.addr (.IFS g)) &&& s2.io.mem (H.addr (.IEC g)))
    (hP : ∀ g, g ≤ H.PIC32_IRQ_LAST >>> 5 →
      s1.io.mem (H.addr (.IPC (g >>> 2))) = s2.io.mem (H.addr (.IPC (g >>> 2)))) :
    (update_irq_status H B s1).io.mem (H.addr .INTSTAT) =
      (update_irq_status H B s2).io.mem (H.addr .INTSTAT) ∧
    ∃ level vector,
      (update_irq_status H B s1).trace = s1.trace ++ [Call.eic_level_vector level vector] ∧
      (update_irq_status H B s2).trace = s2.trace ++ [Call.eic_level_vector level vector] ∧
      (update_irq_status H B s1).io.ext = B.eic_level_vector level vector s1.io.ext ∧
      (update_irq_status H B s2).io.ext = B.eic_level_vector level vector s2.io.ext := by
  have e : irq_result H (store s1.io.mem (H.addr .INTSTAT) 0) =
      irq_result H (store s2.io.mem (H.addr .INTSTAT) 0) :=
    irq_result_congr H _ _
      (fun g hg => store_zero_and_agree _ _ _ _ _ (hFE g hg))
      (fun g hg => store_agree _ _ _ _ _ (hP g hg))
  obtain ⟨t1, i1, x1⟩ := update_irq_status_result H B s1
  obtain ⟨t2, i2, x2⟩ := update_irq_status_result H B s2
  rw [e] at t1 i1 x1
  exact ⟨i1.trans i2.symm, _, _, t1, t2, x1, x2⟩

/-- C31: with at most 192 sources (`PIC32_IRQ_LAST <= 191`), two states that
agree on `IFS(n) & IEC(n)` for `n = 0..5` and on `IPC0..IPC47` get the same
`INTSTAT` from `update_irq_status`, and the same arguments `(level, vector)`
in its call of `eic_level_vector`. -/
theorem update_irq_status_pending_only {β : Type} (H : Header) (B : Backend β)
    (s1 s2 : State β) (hlast : H.PIC32_IRQ_LAST ≤ 191)
    (hFE : ∀ n, n < 6 →
      s1.io.mem (H.addr (.IFS n)) &&& s1.io.mem (H.addr (.IEC n)) =
        s2.io.mem (H.addr (.IFS n)) &&& s2.io.mem (H.addr (.IEC n)))
    (hP : ∀ n, n < 48 → s1.io.mem (H.addr (.IPC n)) = s2.io.mem (H.addr (.IPC n))) :
    (update_irq_status H B s1).io.mem (H.addr .INTSTAT) =
      (update_irq_status H B s2).io.mem (H.addr .INTSTAT) ∧
    ∃ level vector,
      (update_irq_status H B s1).trace = s1.trace ++ [Call.eic_level_vector level vector] ∧
      (update_irq_status H B s2).trace = s2.trace ++ [Call.eic_level_vector level vector] ∧
      (update_irq_status H B s1).io.ext = B.eic_level_vector level vector s1.io.ext ∧
      (update_irq_status H B s2).io.ext = B.eic_level_vector level vector s2.io.ext := by
  have hg : ∀ g, g ≤ H.PIC32_IRQ_LAST >>> 5 → g < 6 := by
    intro g hg
    have e32 : (2 : Nat) ^ 5 = 32 := by norm_num
    rw [Nat.shiftRight_eq_div_pow, e32] at hg
    omega
  apply update_irq_status_congr
  · intro g h
    rcases h with h | h
    · exact hFE g h
    · exact hFE g (hg g h)
  · intro g h
    apply hP
    have := hg g h
    have e4 : (2 : Nat) ^ 2 = 4 := by norm_num
    rw [Nat.shiftRight_eq_div_pow, e4]
    omega

/-- C33: with `PIC32_IRQ_LAST <= 255`, two states that agree on every slot
other than those of `IPC2..IPC47` get the same `INTSTAT` from
`update_irq_status`, and the same arguments `(level, vector)` in its call of
`eic_level_vector`; the header is taken with `IFS0..7`, `IEC0..7`, `IPC0` and
`IPC1` at other addresses than `IPC2..IPC47`. -/
theorem update_irq_status_ipc_independent {β : Type} (H : Header) (B : Backend β)
    (s1 s2 : State β) (hlast : H.PIC32_IRQ_LAST ≤ 255)
    (hsep : ∀ n, 2 ≤ n → n < 48 →
      H.addr (.IPC 0) ≠ H.addr (.IPC n) ∧ H.addr (.IPC 1) ≠ H.addr (.IPC n) ∧
      ∀ g, g ≤ 7 → H.addr (.IFS g) ≠ H.addr (.IPC n) ∧ H.addr (.IEC g) ≠ H.addr (.IPC n))
    (h : ∀ x, (∀ n, 2 ≤ n → n < 48 → x ≠ H.addr (.IPC n)) → s1.io.mem x = s2.io.mem x) :
    (update_irq_status H B s1).io.mem (H.addr .INTSTAT) =
      (update_irq_status H B s2).io.mem (H.addr .INTSTAT) ∧
    ∃ level vector,
      (update_irq_status H B s1).trace = s1.trace ++ [Call.eic_level_vector level vector] ∧
      (update_irq_status H B s2).trace = s2.trace ++ [Call.eic_level_vector level vector] ∧
      (update_irq_status H B s1).io.ext = B.eic_level_vector level vector s1.io.ext ∧
      (update_irq_status H B s2).io.ext = B.eic_level_vector level vector s2.io.ext := by
  have hg : ∀ g, g ≤ H.PIC32_IRQ_LAST >>> 5 → g ≤ 7 := by
    intro g hg
    have e32 : (2 : Nat) ^ 5 = 32 := by norm_num
    rw [Nat.shiftRight_eq_div_pow, e32] at hg
    omega
  have hF : ∀ g, g ≤ 7 → s1.io.mem (H.addr (.IFS g)) = s2.io.mem (H.addr (.IFS g)) :=
    fun g hg7 => h _ (fun n h2 h48 => ((hsep n h2 h48).2.2 g hg7).1)
  have hE : ∀ g, g ≤ 7 → s1.io.mem (H.addr (.IEC g)) = s2.io.mem (H.addr (.IEC g)) :=
    fun g hg7 => h _ (fun n h2 h48 => ((hsep n h2 h48).2.2 g hg7).2)
  apply update_irq_status_congr
  · intro g hle
    have hg7 : g ≤ 7 := by
      rcases hle with hle | hle
      · omega
      · exact hg g hle
    rw [hF g hg7, hE g hg7]
  · intro g hle
    have h7 := hg g hle
    have e4 : (2 : Nat) ^ 2 = 4 := by norm_num
    have hc : g >>> 2 = 0 ∨ g >>> 2 = 1 := by
      rw [Nat.shiftRight_eq_div_pow, e4]
      omega
    rcases hc with hc | hc
    · rw [hc]
      exact h _ (fun n h2 h48 => (hsep n h2 h48).1)
    · rw [hc]
      exact h _ (fun n h2 h48 => (hsep n h2 h48).2.1)

set_option maxRecDepth 100000 in
/-- Witness for C31: the state with source 40 pending and enabled, and the
state that has in addition the flags 0..7 of `IFS0` set with `IEC0 = 0` and
flag 9 of `IFS1` set without its enable bit. -/
theorem update_irq_status_pending_only_witness :
    (source40State.io.mem (refHeader.addr (.IFS 0)) ≠
      maskedFlagsState.io.mem (refHeader.addr (.IFS 0))) ∧
    (update_irq_status refHeader nullBackend source40State).io.mem (refHeader.addr .INTSTAT) =
      (update_irq_status refHeader nullBackend maskedFlagsState).io.mem
        (refHeader.addr .INTSTAT) ∧
    ∃ level vector,
      (update_irq_status refHeader nullBackend source40State).trace =
        source40State.trace ++ [Call.eic_level_vector level vector] ∧
      (update_irq_status refHeader nullBackend maskedFlagsState).trace =
        maskedFlagsState.trace ++ [Call.eic_level_vector level vector] ∧
      (update_irq_status refHeader nullBackend source40State).io.ext =
        nullBackend.eic_level_vector level vector source40State.io.ext ∧
      (update_irq_status refHeader nullBackend maskedFlagsState).io.ext =
        nullBackend.eic_level_vector level vector maskedFlagsState.io.ext :=
  ⟨by decide,
   update_irq_status_pending_only refHeader nullBackend source40State maskedFlagsState
    (by decide) (by decide) (by decide)⟩

/-- Witness for C33: the state with source 40 pending and enabled, and the
same state with `IPC10`, the priority register of source 40, cleared. -/
theorem update_irq_status_ipc_independent_witness :
    (update_irq_status refHeader nullBackend source40State).io.mem (refHeader.addr .INTSTAT) =
      (update_irq_status refHeader nullBackend
        (source40State.set (refHeader.addr (.IPC 10)) 0)).io.mem (refHeader.addr .INTSTAT) ∧
    ∃ level vector,
      (update_irq_status refHeader nullBackend source40State).trace =
        source40State.trace ++ [Call.eic_level_vector level vector] ∧
      (update_irq_status refHeader nullBackend
          (source40State.set (refHeader.addr (.IPC 10)) 0)).trace =
        (source40State.set (refHeader.addr (.IPC 10)) 0).trace ++
          [Call.eic_level_vector level vector] ∧
      (update_irq_status refHeader nullBackend source40State).io.ext =
        nullBackend.eic_level_vector level vector source40State.io.ext ∧
      (update_irq_status refHeader nullBackend
          (source40State.set (refHeader.addr (.IPC 10)) 0)).io.ext =
        nullBackend.eic_level_vector level vector
          (source40State.set (refHeader.addr (.IPC 10)) 0).io.ext :=
  update_irq_status_ipc_independent refHeader nullBackend source40State
    (source40State.set (refHeader.addr (.IPC 10)) 0) (by decide)
    (by
      intro n h2 h48
      simp only [refHeader, refAddr]
      refine ⟨by omega, by omega, fun g hg => ⟨by omega, by omega⟩⟩)
    (fun x hx => by
      rw [set_mem, store_other _ _ _ _ (hx 10 (by decide) (by decide))])

/-! ## The scan and its per-group description -/

/-- One step of the scan, with the pending test as the test of one bit and
the field as `spec_group_field`. -/
theorem irq_scan_step_eq (H : Header) (m : Nat → Nat) (acc : Nat × Nat) (irq : Nat) :
    irq_scan_step H m acc irq =
      if (m (H.addr (.IFS (irq >>> 5))) &&& m (H.addr (.IEC (irq >>> 5)))).testBit
          (irq &&& 31) = true then
        (if spec_group_field H m (irq >>> 5) > acc.1
          then (spec_group_field H m (irq >>> 5), irq >>> 5) else acc)
      else acc := by
  unfold irq_scan_step spec_group_field
  simp only []
  rw [Nat.mul_comm (irq >>> 5 &&& 3) 8]
  by_cases h : (m (H.addr (.IFS (irq >>> 5))) &&& m (H.addr (.IEC (irq >>> 5)))).testBit
      (irq &&& 31) = true
  · rw [if_pos h, if_pos ((shift_and_one_ne_zero _ _).mpr h)]
  · rw [if_neg h, if_neg (fun e => h ((shift_and_one_ne_zero _ _).mp e))]

/-- The scan of the sources below `k`: the level bounds the field of every
pending source, the vector is 0 while the level is 0, and a positive level is
the field of the vector, the group of a pending source and the least such
group. -/
theorem irq_scan_upto (H : Header) (m : Nat → Nat) (k : Nat) :
    (∀ irq, irq < k →
      (m (H.addr (.IFS (irq >>> 5))) &&& m (H.addr (.IEC (irq >>> 5)))).testBit
        (irq &&& 31) = true →
      spec_group_field H m (irq >>> 5) ≤
        ((List.range k).foldl (irq_scan_step H m) (0, 0)).1) ∧
    (((List.range k).foldl (irq_scan_step H m) (0, 0)).1 = 0 →
      ((List.range k).foldl (irq_scan_step H m) (0, 0)).2 = 0) ∧
    (0 < ((List.range k).foldl (irq_scan_step H m) (0, 0)).1 →
      ∃ irq, irq < k ∧
        (m (H.addr (.IFS (irq >>> 5))) &&& m (H.addr (.IEC (irq >>> 5)))).testBit
          (irq &&& 31) = true ∧
        irq >>> 5 = ((List.range k).foldl (irq_scan_step H m) (0, 0)).2 ∧
        spec_group_field H m ((List.range k).foldl (irq_scan_step H m) (0, 0)).2 =
          ((List.range k).foldl (irq_scan_step H m) (0, 0)).1 ∧
        ∀ j, j < k →
          (m (H.addr (.IFS (j >>> 5))) &&& m (H.addr (.IEC (j >>> 5)))).testBit
            (j &&& 31) = true →
          spec_group_field H m (j >>> 5) =
            ((List.range k).foldl (irq_scan_step H m) (0, 0)).1 →
          ((List.range k).foldl (irq_scan_step H m) (0, 0)).2 ≤ j >>> 5) := by
  induction k with
  | zero => simp
  | succ k ih =>
    rw [List.range_succ, List.foldl_append, List.foldl_cons, List.foldl_nil, irq_scan_step_eq]
    generalize (List.range k).foldl (irq_scan_step H m) (0, 0) = a at ih ⊢
    obtain ⟨h1, h2, h3⟩ := ih
    have mono : ∀ i, i < k → i >>> 5 ≤ k >>> 5 := by
      intro i hi
      rw [Nat.shiftRight_eq_div_pow, Nat.shiftRight_eq_div_pow]
      exact Nat.div_le_div_right (by omega)
    by_cases hp : (m (H.addr (.IFS (k >>> 5))) &&& m (H.addr (.IEC (k >>> 5)))).testBit
        (k &&& 31) = true
    · rw [if_pos hp]
      by_cases hgt : spec_group_field H m (k >>> 5) > a.1
      · rw [if_pos hgt]
        refine ⟨?_, ?_, ?_⟩
        · intro irq hlt hpi
          rcases Nat.lt_succ_iff_lt_or_eq.mp hlt with h | h
          · exact le_of_lt (lt_of_le_of_lt (h1 irq h hpi) hgt)
          · rw [h]
        · intro h0
          simp only [] at h0
          omega
        · intro _
          refine ⟨k, Nat.lt_succ_self k, hp, rfl, rfl, ?_⟩
          intro j hj hpj hfj
          rcases Nat.lt_succ_iff_lt_or_eq.mp hj with h | h
          · have := h1 j h hpj
            simp only [] at hfj
            omega
          · rw [h]
      · rw [if_neg hgt]
        refine ⟨?_, h2, ?_⟩
        · intro irq hlt hpi
          rcases Nat.lt_succ_iff_lt_or_eq.mp hlt with h | h
          · exact h1 irq h hpi
          · rw [h]
            omega
        · intro hpos
          obtain ⟨irq, hlt, hpi, hg, hf, hmin⟩ := h3 hpos
          refine ⟨irq, Nat.lt_succ_of_lt hlt, hpi, hg, hf, ?_⟩
          intro j hj hpj hfj
          rcases Nat.lt_succ_iff_lt_or_eq.mp hj with h | h
          · exact hmin j h hpj hfj
          · rw [h, ← hg]
            exact mono irq hlt
    · rw [if_neg hp]
      refine ⟨?_, h2, ?_⟩
      · intro irq hlt hpi
        rcases Nat.lt_succ_iff_lt_or_eq.mp hlt with h | h
        · exact h1 irq h hpi
        · rw [h] at hpi
          exact absurd hpi hp
      · intro hpos
        obtain ⟨irq, hlt, hpi, hg, hf, hmin⟩ := h3 hpos
        refine ⟨irq, Nat.lt_succ_of_lt hlt, hpi, hg, hf, ?_⟩
        intro j hj hpj hfj
        rcases Nat.lt_succ_iff_lt_or_eq.mp hj with h | h
        · exact hmin j h hpj hfj
        · rw [h] at hpj
          exact absurd hpj hp

/-- A source number is 32 times its group plus its bit. -/
theorem irq_split (irq : Nat) :
    irq &&& 31 < 32 ∧ 32 * (irq >>> 5) + (irq &&& 31) = irq := by
  have h1 : irq &&& 31 = irq % 32 := by
    simpa using Nat.and_pow_two_sub_one_eq_mod irq 5
  have h2 : irq >>> 5 = irq / 32 := by
    simpa using Nat.shiftRight_eq_div_pow irq 5
  rw [h1, h2]
  omega

/-- Group and bit of the source `32 * n + p`. -/
theorem irq_join (n p : Nat) (hp : p < 32) :
    (32 * n + p) >>> 5 = n ∧ (32 * n + p) &&& 31 = p := by
  have h1 : (32 * n + p) &&& 31 = (32 * n + p) % 32 := by
    simpa using Nat.and_pow_two_sub_one_eq_mod (32 * n + p) 5
  have h2 : (32 * n + p) >>> 5 = (32 * n + p) / 32 := by
    simpa using Nat.shiftRight_eq_div_pow (32 * n + p) 5
  rw [h1, h2]
  omega

/-- Membership in the list of pending groups. -/
theorem mem_spec_groups (H : Header) (m : Nat → Nat) (n : Nat) :
    n ∈ spec_groups H m ↔
      n < 6 ∧ ∃ p, p < 32 ∧
        (m (H.addr (.IFS n)) &&& m (H.addr (.IEC n))).testBit p = true ∧
        32 * n + p ≤ H.PIC32_IRQ_LAST := by
  unfold spec_groups spec_group_pending
  simp only [List.mem_filter, List.mem_range, List.any_eq_true, Bool.and_eq_true,
    decide_eq_true_eq]

/-- A pending source within the scan has its group in the list. -/
theorem group_of_pending (H : Header) (hlast : H.PIC32_IRQ_LAST ≤ 191) (m : Nat → Nat)
    (irq : Nat) (hle : irq ≤ H.PIC32_IRQ_LAST)
    (hp : (m (H.addr (.IFS (irq >>> 5))) &&& m (H.addr (.IEC (irq >>> 5)))).testBit
      (irq &&& 31) = true) : irq >>> 5 ∈ spec_groups H m := by
  obtain ⟨hb, hs⟩ := irq_split irq
  rw [mem_spec_groups]
  refine ⟨by omega, irq &&& 31, hb, hp, ?_⟩
  rw [hs]
  exact hle

/-- A group in the list is the group of a pending source within the scan. -/
theorem pending_of_group (H : Header) (m : Nat → Nat) (n : Nat) (hn : n ∈ spec_groups H m) :
    ∃ irq, irq ≤ H.PIC32_IRQ_LAST ∧ irq >>> 5 = n ∧
      (m (H.addr (.IFS (irq >>> 5))) &&& m (H.addr (.IEC (irq >>> 5)))).testBit
        (irq &&& 31) = true := by
  obtain ⟨_, p, hp, hbit, hle⟩ := (mem_spec_groups H m n).mp hn
  obtain ⟨hg, hb⟩ := irq_join n p hp
  refine ⟨32 * n + p, hle, hg, ?_⟩
  rw [hg, hb]
  exact hbit

/-- The maximum of a list bounds its members. -/
theorem le_foldr_max : ∀ (l : List Nat) (x : Nat), x ∈ l → x ≤ l.foldr max 0
  | [], _, h => by simp at h
  | a :: l, x, h => by
    rw [List.foldr_cons]
    rcases List.mem_cons.mp h with rfl | h
    · exact le_max_left _ _
    · exact le_trans (le_foldr_max l x h) (le_max_right _ _)

/-- The maximum of a list is 0 or one of its members. -/
theorem foldr_max_mem : ∀ l : List Nat, l.foldr max 0 = 0 ∨ l.foldr max 0 ∈ l
  | [] => Or.inl rfl
  | a :: l => by
    rw [List.foldr_cons]
    rcases max_choice a (l.foldr max 0) with h | h
    · rw [h]
      exact Or.inr (List.mem_cons_self a l)
    · rw [h]
      rcases foldr_max_mem l with h0 | hm
      · exact Or.inl h0
      · exact Or.inr (List.mem_cons_of_mem a hm)

/-- In an ascending list, `find?` returns the least member that passes. -/
theorem find_ascending_least (q : Nat → Bool) :
    ∀ (l : List Nat), l.Pairwise (fun a b => a < b) → ∀ a, l.find? q = some a →
      ∀ b ∈ l, q b = true → a ≤ b
  | [], _, a, h, _, _, _ => by simp at h
  | x :: l, hs, a, h, b, hb, hq => by
    rw [List.pairwise_cons] at hs
    by_cases hx : q x = true
    · rw [List.find?_cons_of_pos _ hx] at h
      cases h
      rcases List.mem_cons.mp hb with rfl | hb
      · exact le_refl _
      · exact le_of_lt (hs.1 b hb)
    · rw [List.find?_cons_of_neg _ hx] at h
      rcases List.mem_cons.mp hb with rfl | hb
      · exact absurd hq hx
      · exact find_ascending_least q l hs.2 a h b hb hq

/-- The list of pending groups is ascending. -/
theorem spec_groups_ascending (H : Header) (m : Nat → Nat) :
    (spec_groups H m).Pairwise (fun a b => a < b) :=
  List.Pairwise.sublist (List.filter_sublist _) (List.pairwise_lt_range 6)

/-- With at most 192 sources the scan ends with the level and the vector of
the per-group description. -/
theorem irq_scan_spec (H : Header) (hlast : H.PIC32_IRQ_LAST ≤ 191) (m : Nat → Nat) :
    irq_scan H m = (spec_level H m, spec_vector H m) := by
  obtain ⟨h1, h2, h3⟩ := irq_scan_upto H m (H.PIC32_IRQ_LAST + 1)
  have hscan : irq_scan H m =
      (List.range (H.PIC32_IRQ_LAST + 1)).foldl (irq_scan_step H m) (0, 0) := rfl
  rw [← hscan] at h1 h2 h3
  have hub : ∀ n ∈ spec_groups H m, spec_group_field H m n ≤ (irq_scan H m).1 := by
    intro n hn
    obtain ⟨irq, hle, hg, hp⟩ := pending_of_group H m n hn
    have := h1 irq (by omega) hp
    rwa [hg] at this
  have hlevel : (irq_scan H m).1 = spec_level H m := by
    apply le_antisymm
    · rcases Nat.eq_zero_or_pos (irq_scan H m).1 with h0 | hpos
      · rw [h0]
        exact Nat.zero_le _
      · obtain ⟨irq, hlt, hpi, hg, hf, _⟩ := h3 hpos
        have hmem := group_of_pending H hlast m irq (by omega) hpi
        rw [hg] at hmem
        rw [← hf]
        exact le_foldr_max _ _ (List.mem_map.mpr ⟨_, hmem, rfl⟩)
    · unfold spec_level
      rcases foldr_max_mem ((spec_groups H m).map (spec_group_field H m)) with h0 | hm
      · rw [h0]
        exact Nat.zero_le _
      · obtain ⟨n, hn, hfn⟩ := List.mem_map.mp hm
        rw [← hfn]
        exact hub n hn
  have hvector : (irq_scan H m).2 = spec_vector H m := by
    unfold spec_vector
    rw [← hlevel]
    by_cases h0 : (irq_scan H m).1 = 0
    · rw [if_pos h0]
      exact h2 h0
    · rw [if_neg h0]
      obtain ⟨irq, hlt, hpi, hg, hf, hmin⟩ := h3 (Nat.pos_of_ne_zero h0)
      have hmem := group_of_pending H hlast m irq (by omega) hpi
      rw [hg] at hmem
      cases hfind : (spec_groups H m).find?
          (fun n => spec_group_field H m n == (irq_scan H m).1) with
      | none =>
        have := List.find?_eq_none.mp hfind _ hmem
        simp [hf] at this
      | some n0 =>
        simp only [Option.getD_some]
        have hn0 := List.mem_of_find?_eq_some hfind
        have hq0 : spec_group_field H m n0 = (irq_scan H m).1 := by
          simpa using List.find?_some hfind
        apply le_antisymm
        · obtain ⟨j, hjle, hjg, hjp⟩ := pending_of_group H m n0 hn0
          have := hmin j (by omega) hjp (by rw [hjg]; exact hq0)
          rwa [hjg] at this
        · exact find_ascending_least _ _ (spec_groups_ascending H m) n0 hfind _ hmem
            (by simpa using hf)
  exact Prod.ext hlevel hvector

/-- With at most 192 sources, the values at the call of `eic_level_vector`
are those of the scan, also when the scan is skipped. -/
theorem irq_result_scan (H : Header) (hlast : H.PIC32_IRQ_LAST ≤ 191) (m : Nat → Nat) :
    irq_result H m = irq_scan H m := by
  unfold irq_result
  split_ifs with h
  · rfl
  · symm
    apply irq_scan_none
    rintro irq hle ⟨hF, hE⟩
    have hz : ∀ g, g < 6 → m (H.addr (.IFS g)) &&& m (H.addr (.IEC g)) = 0 := by
      intro g hg
      simp only [irq_any, Bool.or_eq_true, bne_iff_ne, ne_eq, not_or, not_not] at h
      obtain ⟨⟨⟨⟨⟨h0, h1⟩, h2⟩, h3⟩, h4⟩, h5⟩ := h
      interval_cases g
      · exact h0
      · exact h1
      · exact h2
      · exact h3
      · exact h4
      · exact h5
    obtain ⟨_, hs⟩ := irq_split irq
    have hg : irq >>> 5 < 6 := by omega
    have hb : (m (H.addr (.IFS (irq >>> 5))) &&& m (H.addr (.IEC (irq >>> 5)))).testBit
        (irq &&& 31) = true := by
      rw [Nat.testBit_and, hF, hE]
      rfl
    rw [hz _ hg, Nat.zero_testBit] at hb
    exact absurd hb (by decide)

/-- The per-group vector is one of the groups 0..5. -/
theorem spec_vector_le (H : Header) (m : Nat → Nat) : spec_vector H m ≤ 5 := by
  unfold spec_vector
  split_ifs
  · exact Nat.zero_le _
  · cases hfind : (spec_groups H m).find?
        (fun n => spec_group_field H m n == spec_level H m) with
    | none => exact Nat.zero_le _
    | some n0 =>
      have := ((mem_spec_groups H m n0).mp (List.mem_of_find?_eq_some hfind)).1
      simp only [Option.getD_some]
      omega

/-- The per-group level is a 3-bit field. -/
theorem spec_level_le (H : Header) (m : Nat → Nat) : spec_level H m ≤ 7 := by
  unfold spec_level
  rcases foldr_max_mem ((spec_groups H m).map (spec_group_field H m)) with h0 | hm
  · rw [h0]
    exact Nat.zero_le _
  · obtain ⟨n, _, hfn⟩ := List.mem_map.mp hm
    rw [← hfn]
    exact Nat.and_le_right

/-- The two fields of `vector | (level << 8)`. -/
theorem intstat_fields (v l : Nat) (hv : v ≤ 5) (hl : l ≤ 7) :
    (v ||| (l <<< 8)) &&& 0xFF = v ∧ (v ||| (l <<< 8)) >>> 8 = l := by
  interval_cases v <;> interval_cases l <;> decide

/-- C34: with distinct case labels and `PIC32_IRQ_LAST <= 191`,
`update_irq_status` calls `eic_level_vector (level, vector)` and leaves
`INTSTAT = vector | (level << 8)` with the level and the vector of the
per-group description: `G` the groups `n` of 0..5 for which `IFS(n) & IEC(n)`
has a set bit `p` with `32 * n + p <= PIC32_IRQ_LAST`,
`f(n) = (IPC(n >> 2) >> (2 + 8 * (n & 3))) & 7`, level the maximum of `f` over
`G` (0 for empty `G`), vector the least `n` in `G` with `f(n) = level` when the
level is positive and 0 otherwise, all on the registers as they are at the
call.  The vector is at most 5, the level at most 7, `INTSTAT & 0xFF` is the
vector and `INTSTAT >> 8` the level. -/
theorem update_irq_status_per_group {β : Type} (H : Header) (B : Backend β) (s : State β)
    (hd : H.WriteLabelsDistinct) (hlast : H.PIC32_IRQ_LAST ≤ 191) :
    (update_irq_status H B s).trace =
      s.trace ++ [Call.eic_level_vector (spec_level H s.io.mem) (spec_vector H s.io.mem)] ∧
    (update_irq_status H B s).io.mem (H.addr .INTSTAT) =
      spec_vector H s.io.mem ||| (spec_level H s.io.mem <<< 8) ∧
    irq_scan H s.io.mem = (spec_level H s.io.mem, spec_vector H s.io.mem) ∧
    spec_vector H s.io.mem ≤ 5 ∧ spec_level H s.io.mem ≤ 7 ∧
    (update_irq_status H B s).io.mem (H.addr .INTSTAT) &&& 0xFF = spec_vector H s.io.mem ∧
    (update_irq_status H B s).io.mem (H.addr .INTSTAT) >>> 8 = spec_level H s.io.mem := by
  have hg : ∀ g, g ≤ H.PIC32_IRQ_LAST >>> 5 → g < 6 := by
    intro g hg
    have e32 : (2 : Nat) ^ 5 = 32 := by norm_num
    rw [Nat.shiftRight_eq_div_pow, e32] at hg
    omega
  have hF : ∀ g, g < 6 → store s.io.mem (H.addr .INTSTAT) 0 (H.addr (.IFS g)) =
      s.io.mem (H.addr (.IFS g)) :=
    fun g h => store_other _ _ _ _ (addr_ne_INTSTAT_of_op hd (base_IFS H g h))
  have hE : ∀ g, g < 6 → store s.io.mem (H.addr .INTSTAT) 0 (H.addr (.IEC g)) =
      s.io.mem (H.addr (.IEC g)) :=
    fun g h => store_other _ _ _ _ (addr_ne_INTSTAT_of_op hd (base_IEC H g h))
  have e : irq_result H (store s.io.mem (H.addr .INTSTAT) 0) =
      (spec_level H s.io.mem, spec_vector H s.io.mem) := by
    rw [← irq_scan_spec H hlast, ← irq_result_scan H hlast]
    apply irq_result_congr
    · intro g h
      have h6 : g < 6 := by
        rcases h with h | h
        · exact h
        · exact hg g h
      rw [hF g h6, hE g h6]
    · intro g h
      have h6 := hg g h
      have e4 : (2 : Nat) ^ 2 = 4 := by norm_num
      have h48 : g >>> 2 < 48 := by
        rw [Nat.shiftRight_eq_div_pow, e4]
        omega
      exact store_other _ _ _ _ (addr_ne_INTSTAT_of_op hd (base_IPC H _ h48))
  obtain ⟨ht, hi, _⟩ := update_irq_status_result H B s
  rw [e] at ht hi
  have hf := intstat_fields _ _ (spec_vector_le H s.io.mem) (spec_level_le H s.io.mem)
  refine ⟨ht, hi, irq_scan_spec H hlast s.io.mem, spec_vector_le H s.io.mem,
    spec_level_le H s.io.mem, ?_, ?_⟩
  · rw [hi]
    exact hf.1
  · rw [hi]
    exact hf.2

set_option maxRecDepth 100000 in
/-- Witness for C34: source 40 pending and enabled; its group is 1, whose
field in `IPC0` holds 7. -/
theorem update_irq_status_per_group_witness :
    ((update_irq_status refHeader nullBackend source40State).trace =
      source40State.trace ++
        [Call.eic_level_vector (spec_level refHeader source40State.io.mem)
          (spec_vector refHeader source40State.io.mem)] ∧
    (update_irq_status refHeader nullBackend source40State).io.mem (refHeader.addr .INTSTAT) =
      spec_vector refHeader source40State.io.mem |||
        (spec_level refHeader source40State.io.mem <<< 8) ∧
    irq_scan refHeader source40State.io.mem =
      (spec_level refHeader source40State.io.mem, spec_vector refHeader source40State.io.mem) ∧
    spec_vector refHeader source40State.io.mem ≤ 5 ∧
    spec_level refHeader source40State.io.mem ≤ 7 ∧
    (update_irq_status refHeader nullBackend source40State).io.mem (refHeader.addr .INTSTAT)
      &&& 0xFF = spec_vector refHeader source40State.io.mem ∧
    (update_irq_status refHeader nullBackend source40State).io.mem (refHeader.addr .INTSTAT)
      >>> 8 = spec_level refHeader source40State.io.mem) ∧
    spec_groups refHeader source40State.io.mem = [1] ∧
    spec_level refHeader source40State.io.mem = 7 ∧
    spec_vector refHeader source40State.io.mem = 1 :=
  ⟨update_irq_status_per_group refHeader nullBackend source40State
    refHeader_writeLabelsDistinct (by decide), by decide, by decide, by decide⟩

/-! ## `SYSKEY` writes in the states the code reaches -/

end Pic32
